import Mathlib

/-!
The timestamp resolution engine of exif-archive.

A shallow embedding of `exif-archive.go`: the filename pattern matcher
(`readFileNameTime`), the tokeniser (`SplitAny`) and the priority resolver
inside `main`, together with the parts of the Go standard library they call
(`strings.FieldsFunc`, `filepath.Ext`, `filepath.Base`, `strconv.ParseInt`,
`time.Unix`, `time.Parse`, `time.Date`, `Time.Format`, `Time.IsZero`).

Conventions.
* A Go `string` is a sequence of bytes; it is modelled as a list of byte
  values (`GoString`).  `len`, slicing and indexing are the byte operations
  of Go.
* `log.Printf` output is not modelled; `log.Fatalf` is the `none` outcome of
  the resolver.
* `filepath` is modelled with the Unix path separator.
-/

namespace ExifArchive

/-! ## Go strings -/

/-- A Go string: its bytes, in order.  A byte is a natural number below 256;
no definition below depends on that bound. -/
abbrev GoString := List Nat

/-- UTF-8 encoding of one code point, as the Go compiler stores a rune of a
string literal. -/
def utf8EncodeRune (c : Nat) : GoString :=
  if c < 0x80 then [c]
  else if c < 0x800 then [0xC0 + c / 64, 0x80 + c % 64]
  else if c < 0x10000 then [0xE0 + c / 4096, 0x80 + c / 64 % 64, 0x80 + c % 64]
  else [0xF0 + c / 262144, 0x80 + c / 4096 % 64, 0x80 + c / 64 % 64, 0x80 + c % 64]

/-- The bytes of a string literal. -/
def goString (s : String) : GoString :=
  s.toList.flatMap (fun c => utf8EncodeRune c.toNat)

/-! ## package strings -/

/-- Go `strings.ContainsRune(s, r)`, for a set `s` of ASCII characters and
the rune decoded at a byte position.  A byte below 0x80 decodes to itself; a
byte from 0x80 up decodes (alone or with continuation bytes) to a rune from
0x80 up or to `utf8.RuneError`, none of which is in an ASCII set. -/
def strings.ContainsRune (s : GoString) (r : Nat) : Bool :=
  s.contains r

/-- The loop of Go `strings.FieldsFunc`: `cur` is the field being read
(`start >= 0` in the source), `none` when the scan is between fields.
The source iterates over runes; since an ASCII byte is never part of a
multi-byte rune and `f` is only true on ASCII bytes here, the spans it records
are the same as those of this byte loop. -/
def strings.FieldsFunc.go (f : Nat → Bool) : GoString → Option GoString → List GoString
  | [], none => []
  | [], some cur => [cur]
  | b :: rest, none =>
      if f b then strings.FieldsFunc.go f rest none
      else strings.FieldsFunc.go f rest (some [b])
  | b :: rest, some cur =>
      if f b then cur :: strings.FieldsFunc.go f rest none
      else strings.FieldsFunc.go f rest (some (cur ++ [b]))

/-- Go `strings.FieldsFunc(s, f)`. -/
def strings.FieldsFunc (s : GoString) (f : Nat → Bool) : List GoString :=
  strings.FieldsFunc.go f s none

/-- Source `SplitAny(s, seps)`: split `s` at every character of `seps`. -/
def SplitAny (s : GoString) (seps : GoString) : List GoString :=
  let splitter := fun r => strings.ContainsRune seps r
  strings.FieldsFunc s splitter

/-! ## package path/filepath (Unix) -/

/-- The loop of Go `filepath.Ext`; the argument is `i + 1`. -/
def filepath.Ext.loop (path : GoString) : Nat → GoString
  | 0 => []
  | i + 1 =>
      if path.getD i 0 = 47 then []
      else if path.getD i 0 = 46 then path.drop i
      else filepath.Ext.loop path i

/-- Go `filepath.Ext(path)`: the suffix beginning at the final dot of the
final path element, empty when there is no dot. -/
def filepath.Ext (path : GoString) : GoString :=
  filepath.Ext.loop path path.length

/-- First loop of Go `filepath.Base`: strip trailing slashes; the argument
is the current `len(path)`. -/
def filepath.Base.strip (path : GoString) : Nat → GoString
  | 0 => []
  | n + 1 =>
      if path.getD n 0 = 47 then filepath.Base.strip path n
      else path.take (n + 1)

/-- Second loop of Go `filepath.Base`: find the last element; the argument
is `i + 1`. -/
def filepath.Base.last (path : GoString) : Nat → GoString
  | 0 => path
  | i + 1 =>
      if path.getD i 0 = 47 then path.drop (i + 1)
      else filepath.Base.last path i

/-- Go `filepath.Base(path)` (the volume name is empty on Unix). -/
def filepath.Base (path : GoString) : GoString :=
  if path = [] then [46]
  else
    let path1 := filepath.Base.strip path path.length
    let path2 := filepath.Base.last path1 path1.length
    if path2 = [] then [47] else path2

/-! ## package strconv -/

/-- Go `strconv.ParseUint(s, 10, 64)`; `none` is any error (syntax or
range). -/
def strconv.ParseUint (s : GoString) : Option Nat :=
  if s = [] then none
  else
    s.foldl
      (fun acc c =>
        match acc with
        | none => none
        | some n =>
            if 48 ≤ c ∧ c ≤ 57 then
              if n * 10 + (c - 48) < 2 ^ 64 then some (n * 10 + (c - 48)) else none
            else none)
      (some 0)

/-- Go `strconv.ParseInt(s, 10, 64)`; `none` is any error. -/
def strconv.ParseInt (s : GoString) : Option Int :=
  match s with
  | [] => none
  | c :: rest =>
      let neg := decide (c = 45)
      let s1 := if c = 43 ∨ c = 45 then rest else s
      match strconv.ParseUint s1 with
      | none => none
      | some un =>
          if neg = false ∧ un ≥ 2 ^ 63 then none
          else if neg = true ∧ un > 2 ^ 63 then none
          else some (if neg then -(un : Int) else (un : Int))

/-! ## package time: instants -/

/-- Go `*time.Location`, as far as the program meets it: `time.Parse`
without zone information yields UTC, `time.Unix` yields Local. -/
inductive Location where
  | UTC
  | Local
  deriving DecidableEq, Repr

/-- Go `time.Time` without a monotonic reading: `sec` is the number of
seconds since January 1, year 1 00:00:00 UTC (`t.sec()` in the source of the
time package), `nsec` the nanoseconds within the second. -/
structure Time where
  sec : Int
  nsec : Int
  loc : Location
  deriving DecidableEq, Repr

/-- Go `time.Time{}`, the zero value. -/
def Time.zero : Time := ⟨0, 0, .UTC⟩

/-- Go `t.IsZero()`: the instant is January 1, year 1, 00:00:00 UTC. -/
def Time.IsZero (t : Time) : Bool :=
  t.sec == 0 && t.nsec == 0

/-- Seconds from January 1, year 1 to January 1, 1970. -/
def unixToInternal : Int := (1969 * 365 + 1969 / 4 - 1969 / 100 + 1969 / 400) * 86400

/-- Go `time.Unix(sec, nsec)`.  The int64 sum `sec + unixToInternal` is taken
without wrap-around: the program passes `timestampInt / 1000` with
`timestampInt` an int64, for which the sum cannot overflow. -/
def time.Unix (sec nsec : Int) : Time :=
  if nsec < 0 ∨ nsec ≥ 1000000000 then
    let n := nsec.tdiv 1000000000
    let sec1 := sec + n
    let nsec1 := nsec - n * 1000000000
    if nsec1 < 0 then ⟨sec1 - 1 + unixToInternal, nsec1 + 1000000000, .Local⟩
    else ⟨sec1 + unixToInternal, nsec1, .Local⟩
  else ⟨sec + unixToInternal, nsec, .Local⟩

/-- Go `t.Unix()`: seconds since January 1, 1970 UTC. -/
def Time.Unix (t : Time) : Int := t.sec - unixToInternal

/-- Go `t.UTC()`: the same instant with its location set to UTC. -/
def Time.UTC (t : Time) : Time := { t with loc := .UTC }

/-! ## package time: the proleptic Gregorian calendar -/

/-- Go `isLeap(year)`. -/
def isLeap (year : Int) : Bool :=
  year % 4 == 0 && (year % 100 != 0 || year % 400 == 0)

/-- Go table `daysBefore`: `daysBefore m` is the number of days in a non-leap
year before month `m + 1`. -/
def daysBefore (m : Int) : Int :=
  [0, 31, 59, 90, 120, 151, 181, 212, 243, 273, 304, 334, 365].getD m.toNat 0

/-- Go `daysIn(m, year)`. -/
def daysIn (m : Int) (year : Int) : Int :=
  if m = 2 ∧ isLeap year then 29
  else daysBefore m - daysBefore (m - 1)

/-- Go `norm(hi, lo, base)`: carry `lo` into `hi` so that `0 ≤ lo < base`. -/
def norm (hi lo base : Int) : Int × Int :=
  let r1 : Int × Int :=
    if lo < 0 then
      let n := (-lo - 1).tdiv base + 1
      (hi - n, lo + n * base)
    else (hi, lo)
  if r1.2 ≥ base then
    let n := r1.2.tdiv base
    (r1.1 + n, r1.2 - n * base)
  else r1

/-- Go `daysSinceEpoch(year)`, with January 1 of year 1 as the epoch: the
number of days from then to January 1 of `year`. -/
def daysSinceEpoch (year : Int) : Int :=
  let y := year - 1
  let n400 := y / 400
  let y1 := y - 400 * n400
  let n100 := y1 / 100
  let y2 := y1 - 100 * n100
  let n4 := y2 / 4
  let y3 := y2 - 4 * n4
  146097 * n400 + 36524 * n100 + 1461 * n4 + 365 * y3

/-- Go `time.Date(year, month, day, hour, min, sec, nsec, time.UTC)`. -/
def time.Date (year month day hour min sec nsec : Int) : Time :=
  let ym := norm year (month - 1) 12
  let year1 := ym.1
  let month1 := ym.2 + 1
  let sn := norm sec nsec 1000000000
  let ms := norm min sn.1 60
  let hm := norm hour ms.1 60
  let dh := norm day hm.1 24
  let d0 := daysSinceEpoch year1 + daysBefore (month1 - 1)
  let d1 := if isLeap year1 ∧ month1 ≥ 3 then d0 + 1 else d0
  let d2 := d1 + (dh.1 - 1)
  ⟨d2 * 86400 + (dh.2 * 3600 + hm.2 * 60 + ms.2), sn.2, .UTC⟩

/-- First half of Go `absDate`: the year of a day number (days since
January 1, year 1) and the zero-based day within that year. -/
def absYear (days : Int) : Int × Int :=
  let n400 := days / 146097
  let d1 := days - 146097 * n400
  let n100 := d1 / 36524
  let n100a := n100 - n100 / 4
  let d2 := d1 - 36524 * n100a
  let n4 := d2 / 1461
  let d3 := d2 - 1461 * n4
  let n1 := d3 / 365
  let n1a := n1 - n1 / 4
  let d4 := d3 - 365 * n1a
  (400 * n400 + 100 * n100a + 4 * n4 + n1a + 1, d4)

/-- Second half of Go `absDate`: month and day of the month from the year
and the zero-based day of the year. -/
def monthDay (year yday : Int) : Int × Int :=
  if isLeap year ∧ yday = 31 + 29 - 1 then (2, 29)
  else
    let day := if isLeap year ∧ yday > 31 + 29 - 1 then yday - 1 else yday
    let month := day / 31
    let end1 := daysBefore (month + 1)
    if day ≥ end1 then (month + 2, day - end1 + 1)
    else (month + 1, day - daysBefore month + 1)

/-- Civil reading of an instant, as Go `absDate` and `absClock` give it. -/
structure Civil where
  year : Int
  month : Int
  day : Int
  hour : Int
  min : Int
  sec : Int
  deriving DecidableEq, Repr

/-- Go `t.abs()`, with year 1 as the epoch: the seconds of `t` shifted by the
offset of its location.  `zone u` is the offset east of UTC, in seconds, that
the Local location has at Unix time `u`. -/
def Time.abs (zone : Int → Int) (t : Time) : Int :=
  match t.loc with
  | .UTC => t.sec
  | .Local => t.sec + zone (t.Unix)

/-- Go `t.Date()` and `t.Clock()` together. -/
def Time.civil (zone : Int → Int) (t : Time) : Civil :=
  let abs := t.abs zone
  let yd := absYear (abs / 86400)
  let md := monthDay yd.1 yd.2
  let s := abs % 86400
  ⟨yd.1, md.1, md.2, s / 3600, s % 3600 / 60, s % 60⟩

/-! ## package time: layouts, Parse and Format -/

/-- The layout elements (`std...` constants of Go) that occur in the layouts
of the program. -/
inductive Std where
  | stdLongYear
  | stdZeroMonth
  | stdZeroDay
  | stdHour
  | stdZeroMinute
  | stdZeroSecond
  deriving DecidableEq, Repr

/-- One step of a layout as Go `nextStdChunk` cuts it: literal text, or a
layout element. -/
inductive Chunk where
  | lit (p : GoString)
  | std (s : Std)
  deriving DecidableEq, Repr

/-- Layout `"20060102150405"`. -/
def layoutCompact : List Chunk :=
  [.std .stdLongYear, .std .stdZeroMonth, .std .stdZeroDay,
   .std .stdHour, .std .stdZeroMinute, .std .stdZeroSecond]

/-- Layout `"20060102 150405"`. -/
def layoutDateTime : List Chunk :=
  [.std .stdLongYear, .std .stdZeroMonth, .std .stdZeroDay, .lit [32],
   .std .stdHour, .std .stdZeroMinute, .std .stdZeroSecond]

/-- Layout `"2006-01-02_150405"`. -/
def layoutDashed : List Chunk :=
  [.std .stdLongYear, .lit [45], .std .stdZeroMonth, .lit [45], .std .stdZeroDay,
   .lit [95], .std .stdHour, .std .stdZeroMinute, .std .stdZeroSecond]

/-- Go `isDigit(s, i)`. -/
def isDigit (s : GoString) (i : Nat) : Bool :=
  if s.length ≤ i then false
  else decide (48 ≤ s.getD i 0 ∧ s.getD i 0 ≤ 57)

/-- Go `getnum(s, fixed)`: one or two leading digits. -/
def getnum (s : GoString) (fixed : Bool) : Option (Int × GoString) :=
  if !isDigit s 0 then none
  else if !isDigit s 1 then
    if fixed then none else some (((s.getD 0 0 - 48 : Nat) : Int), s.drop 1)
  else some ((((s.getD 0 0 - 48) * 10 + (s.getD 1 0 - 48) : Nat) : Int), s.drop 2)

/-- The loop of Go `leadingInt`; `none` is `errLeadingInt` (overflow). -/
def leadingInt.go : Nat → GoString → Option (Nat × GoString)
  | x, [] => some (x, [])
  | x, c :: rest =>
      if c < 48 ∨ c > 57 then some (x, c :: rest)
      else if x > 2 ^ 63 / 10 then none
      else if x * 10 + c - 48 > 2 ^ 63 then none
      else leadingInt.go (x * 10 + c - 48) rest

/-- Go `leadingInt(s)`. -/
def leadingInt (s : GoString) : Option (Nat × GoString) :=
  leadingInt.go 0 s

/-- Go `atoi(s)` of package time. -/
def atoi (s : GoString) : Option Int :=
  let neg := decide (s.length > 0 ∧ s.getD 0 0 = 45)
  let s1 := if s.length > 0 ∧ (s.getD 0 0 = 45 ∨ s.getD 0 0 = 43) then s.drop 1 else s
  match leadingInt s1 with
  | none => none
  | some (q, rem) =>
      if rem.length > 0 then none
      else some (if neg then -(q : Int) else (q : Int))

/-- Go `cutspace(s)`. -/
def cutspace : GoString → GoString
  | [] => []
  | c :: rest => if c = 32 then cutspace rest else c :: rest

/-- The loop of Go `skip(value, prefix)`.  Every iteration shortens the
prefix, so `pre.length` iterations are enough. -/
def skip.loop : Nat → GoString → GoString → Option GoString
  | 0, value, _ => some value
  | n + 1, value, pre =>
      match pre with
      | [] => some value
      | p :: rest =>
          if p = 32 then
            if value.length > 0 ∧ value.getD 0 0 ≠ 32 then none
            else skip.loop n (cutspace value) (cutspace (p :: rest))
          else if value.length = 0 ∨ value.getD 0 0 ≠ p then none
          else skip.loop n (value.drop 1) rest

/-- Go `skip(value, prefix)`: remove the literal text of the layout from the
front of the value. -/
def skip (value pre : GoString) : Option GoString :=
  skip.loop pre.length value pre

/-- Go `commaOrPeriod(b)`. -/
def commaOrPeriod (b : Nat) : Bool := b == 46 || b == 44

/-- Number of digits of `value` from index `n` on (the `for` loop of the
fractional-second case of Go `Parse`), added to `n`. -/
def digitRun (value : GoString) (n : Nat) : Nat :=
  n + ((value.drop n).takeWhile (fun c => decide (48 ≤ c ∧ c ≤ 57))).length

/-- Go `parseNanoseconds(value, nbytes)`. -/
def parseNanoseconds (value : GoString) (nbytes : Nat) : Option Int :=
  if !commaOrPeriod (value.getD 0 0) then none
  else
    let value1 := if nbytes > 10 then value.take 10 else value
    let nbytes1 := if nbytes > 10 then 10 else nbytes
    match atoi ((value1.take nbytes1).drop 1) with
    | none => none
    | some ns =>
        if ns < 0 then none
        else some (ns * 10 ^ (10 - nbytes1))

/-- The fields Go `Parse` collects before it calls `Date`. -/
structure Fields where
  year : Int
  month : Int
  day : Int
  hour : Int
  min : Int
  sec : Int
  nsec : Int
  deriving DecidableEq, Repr

/-- One case of the `switch std & stdMask` of Go `Parse`; `none` is a parse
error (`errBad` or a range error). -/
def parseStd (s : Std) (value : GoString) (f : Fields) : Option (Fields × GoString) :=
  match s with
  | .stdLongYear =>
      if value.length < 4 ∨ !isDigit value 0 then none
      else
        match atoi (value.take 4) with
        | none => none
        | some y => some ({ f with year := y }, value.drop 4)
  | .stdZeroMonth =>
      match getnum value true with
      | none => none
      | some (m, v) => if m ≤ 0 ∨ 12 < m then none else some ({ f with month := m }, v)
  | .stdZeroDay =>
      match getnum value true with
      | none => none
      | some (d, v) => some ({ f with day := d }, v)
  | .stdHour =>
      match getnum value false with
      | none => none
      | some (h, v) => if h < 0 ∨ 24 ≤ h then none else some ({ f with hour := h }, v)
  | .stdZeroMinute =>
      match getnum value true with
      | none => none
      | some (m, v) => if m < 0 ∨ 60 ≤ m then none else some ({ f with min := m }, v)
  | .stdZeroSecond =>
      match getnum value true with
      | none => none
      | some (sc, v) =>
          if sc < 0 ∨ 60 ≤ sc then none
          else if v.length ≥ 2 ∧ commaOrPeriod (v.getD 0 0) ∧ isDigit v 1 then
            match parseNanoseconds v (digitRun v 2) with
            | none => none
            | some ns => some ({ f with sec := sc, nsec := ns }, v.drop (digitRun v 2))
          else some ({ f with sec := sc }, v)

/-- The main loop of Go `Parse` over the chunks of the layout; at the end
of the layout any text left in the value is an error. -/
def time.Parse.loop : List Chunk → GoString → Fields → Option Fields
  | [], value, f => if value.length ≠ 0 then none else some f
  | .lit p :: rest, value, f =>
      match skip value p with
      | none => none
      | some v => time.Parse.loop rest v f
  | .std s :: rest, value, f =>
      match parseStd s value f with
      | none => none
      | some (f1, v) => time.Parse.loop rest v f1

/-- Go `time.Parse(layout, value)` for a layout without zone elements;
`none` is any error. -/
def time.Parse (layout : List Chunk) (value : GoString) : Option Time :=
  match time.Parse.loop layout value ⟨0, -1, -1, 0, 0, 0, 0⟩ with
  | none => none
  | some f =>
      let month := if f.month < 0 then 1 else f.month
      let day := if f.day < 0 then 1 else f.day
      if day < 1 ∨ day > daysIn month f.year then none
      else some (time.Date f.year month day f.hour f.min f.sec f.nsec)

/-- Go `appendInt(b, x, width)` on an empty buffer: `x` in decimal,
zero-padded to `width`. -/
def appendInt (x : Int) (width : Nat) : GoString :=
  let u := x.natAbs
  let sign : GoString := if x < 0 then [45] else []
  if width = 2 ∧ u < 100 then sign ++ [48 + u / 10, 48 + u % 10]
  else if width = 4 ∧ u < 10000 then
    sign ++ [48 + u / 1000, 48 + u / 100 % 10, 48 + u / 10 % 10, 48 + u % 10]
  else
    let ds : GoString := (Nat.toDigits 10 u).map Char.toNat
    sign ++ List.replicate (width - ds.length) 48 ++ ds

/-- One case of the `switch std & stdMask` of Go `t.AppendFormat`. -/
def formatStd (s : Std) (c : Civil) : GoString :=
  match s with
  | .stdLongYear => appendInt c.year 4
  | .stdZeroMonth => appendInt c.month 2
  | .stdZeroDay => appendInt c.day 2
  | .stdHour => appendInt c.hour 2
  | .stdZeroMinute => appendInt c.min 2
  | .stdZeroSecond => appendInt c.sec 2

/-- Go `t.Format(layout)`. -/
def Time.Format (zone : Int → Int) (t : Time) (layout : List Chunk) : GoString :=
  layout.flatMap (fun ch =>
    match ch with
    | .lit p => p
    | .std s => formatStd s (t.civil zone))

/-! ## exif-archive.go -/

/-- The error values the program produces (`fmt.Errorf` at each site); the
message text is not modelled. -/
inductive Error where
  | exifRead
  | exifFlat
  | exifFormat
  | exifMissing
  | fileNameNoTime
  deriving DecidableEq, Repr

/-- Source `type fileTimes struct`. -/
structure fileTimes where
  BirthTime : Time
  ExifTime : Time
  FileNameTime : Time
  deriving DecidableEq, Repr

/-- The stem of a file name: the slice
`fileName[:len(fileName)-len(filepath.Ext(fileName))]` of source
`readFileNameTime`. -/
def fileNameStem (fileName : GoString) : GoString :=
  fileName.take (fileName.length - (filepath.Ext fileName).length)

/-- The tokens of a file name: the first two statements of source
`readFileNameTime`, `filepath.Base` of the stem split at `"_.- "`. -/
def fileNameParts (fileName : GoString) : List GoString :=
  let fileNameBase := filepath.Base (fileNameStem fileName)
  SplitAny fileNameBase (goString "_.- ")

/-- The body of the loop `for i, part := range fileNameParts` of source
`readFileNameTime`: `some tm` when iteration `i` returns `tm, nil`, `none`
when it falls through to the next iteration (with or without a warning). -/
def readFileNameTime.body (parts : List GoString) (i : Nat) : Option Time :=
  let part := parts.getD i []
  if part.length = 13 ∨ (part.length = 21 ∧ part.take 8 = goString "mmexport") then
    let timestampStr := if part.length = 21 then part.drop 8 else part
    match strconv.ParseInt timestampStr with
    | some timestampInt => some (time.Unix (timestampInt.tdiv 1000) 0)
    | none => none
  else if part.length = 17 ∨ part.length = 14 then
    let datetimeStr := part
    match time.Parse layoutCompact (datetimeStr.take 14) with
    | some tm => some tm
    | none => none
  else if part.length = 8 ∧ (i : Int) < (parts.length : Int) - 1
      ∧ (parts.getD (i + 1) []).length = 6 then
    let dateStr := part
    let timeStr := parts.getD (i + 1) []
    match time.Parse layoutDateTime (dateStr ++ goString " " ++ timeStr) with
    | some tm => some tm
    | none => none
  else if part.length = 4 ∧ (i : Int) < (parts.length : Int) - 2
      ∧ (parts.getD (i + 1) []).length = 2 ∧ (parts.getD (i + 2) []).length = 2 then
    let yearStr := part
    let monthStr := parts.getD (i + 1) []
    let dayStr := parts.getD (i + 2) []
    match time.Parse layoutDashed
        (yearStr ++ goString "-" ++ monthStr ++ goString "-" ++ dayStr ++ goString "_000000") with
    | some tm => some tm
    | none => none
  else none

/-- The loop of source `readFileNameTime` over the token indices, in
order: the first iteration that returns decides. -/
def readFileNameTime.scan (parts : List GoString) : Option Time :=
  (List.range parts.length).findSome? (readFileNameTime.body parts)

/-- Source `readFileNameTime(fileName)`: the pair `(time, err)` it returns. -/
def readFileNameTime (fileName : GoString) : Time × Option Error :=
  match readFileNameTime.scan (fileNameParts fileName) with
  | some tm => (tm, none)
  | none => (Time.zero, some Error.fileNameNoTime)

/-- What `times.Stat(currentFile)` gives `main`: whether it failed, whether
the platform has a birth time, and that time. -/
structure StatResult where
  err : Bool
  HasBirthTime : Bool
  BirthTime : Time
  deriving DecidableEq, Repr

/-- Lines 156 to 172 of source `main`: a fresh `fileTimes` filled from the
three readers; a field is assigned only when its reader succeeded.  The two
readers that touch the file system are given by their results. -/
def main.fileTime (stat : StatResult) (exif : Time × Option Error)
    (fileName : GoString) : fileTimes :=
  let ft0 : fileTimes := ⟨Time.zero, Time.zero, Time.zero⟩
  let ft1 := if stat.err = false ∧ stat.HasBirthTime = true
    then { ft0 with BirthTime := stat.BirthTime } else ft0
  let ft2 := if exif.2 = none then { ft1 with ExifTime := exif.1 } else ft1
  let r := readFileNameTime fileName
  if r.2 = none then { ft2 with FileNameTime := r.1 } else ft2

/-- Lines 174 to 185 of source `main`: choose `finalTime` by priority;
`none` is the `log.Fatalf` branch, which ends the process. -/
def main.finalTime (fileTime : fileTimes) : Option Time :=
  if !fileTime.ExifTime.IsZero then some fileTime.ExifTime
  else if !fileTime.FileNameTime.IsZero then some fileTime.FileNameTime
  else if !fileTime.BirthTime.IsZero then some fileTime.BirthTime
  else none

/-- Lines 156 to 185 of source `main` for one file. -/
def main.resolve (stat : StatResult) (exif : Time × Option Error)
    (fileName : GoString) : Option Time :=
  main.finalTime (main.fileTime stat exif fileName)

/-! ## Further layouts -/

/-- Layout `"2006:01:02 15:04:05"` of source `readExifTime`. -/
def layoutExif : List Chunk :=
  [.std .stdLongYear, .lit [58], .std .stdZeroMonth, .lit [58], .std .stdZeroDay, .lit [32],
   .std .stdHour, .lit [58], .std .stdZeroMinute, .lit [58], .std .stdZeroSecond]

/-- Layout `"2006-01"` of the folder name in source `main`. -/
def layoutFolder : List Chunk :=
  [.std .stdLongYear, .lit [45], .std .stdZeroMonth]

/-- Line 188 of source `main`: the name of the destination folder,
`finalTime.Format("2006-01")`. -/
def main.targetFolder (zone : Int → Int) (finalTime : Time) : GoString :=
  finalTime.Format zone layoutFolder

/-! ## The metadata reader -/

/-- The `Value interface{}` field of a go-exif entry, as far as the program
looks at it: a string, or a value of some other type. -/
inductive ExifValue where
  | str (s : GoString)
  | other
  deriving DecidableEq, Repr

/-- A go-exif `ExifTag`: the two fields the program reads. -/
structure ExifTag where
  TagName : GoString
  Value : ExifValue
  deriving DecidableEq, Repr

/-- What the two calls into go-exif give source `readExifTime`:
`SearchFileAndExtractExif` failed, `GetFlatExifData` failed, or the flattened
list of entries. -/
inductive ExifData where
  | searchFailed
  | flatFailed
  | flat (ets : List ExifTag)
  deriving DecidableEq, Repr

/-- The loop `for _, et := range ets` of source `readExifTime` and the final
`return`.  The outer `none` is the run-time panic of the type assertion
`et.Value.(string)` on a value that is no string. -/
def readExifTime.loop : List ExifTag → Option (Time × Option Error)
  | [] => some (Time.zero, some Error.exifMissing)
  | et :: rest =>
      if et.TagName = goString "DateTimeOriginal" then
        match et.Value with
        | .other => none
        | .str v =>
            match time.Parse layoutExif v with
            | none => some (Time.zero, some Error.exifFormat)
            | some tm => some (tm, none)
      else readExifTime.loop rest

/-- Source `readExifTime(filePath)`, given what go-exif reads from the file. -/
def readExifTime (data : ExifData) : Option (Time × Option Error) :=
  match data with
  | .searchFailed => some (Time.zero, some Error.exifRead)
  | .flatFailed => some (Time.zero, some Error.exifFlat)
  | .flat ets => readExifTime.loop ets

/-! ## The extension allow-list -/

/-- Source `var EXTENSIONS map[string]bool`. -/
def EXTENSIONS : List (GoString × Bool) :=
  [(goString ".jpg", true), (goString ".png", true), (goString ".webp", true),
   (goString ".gif", true), (goString ".mp4", true), (goString ".mkv", true),
   (goString ".jpeg", true), (goString ".heic", true), (goString ".mov", true),
   (goString ".tiff", true)]

/-- Go map index with comma-ok, `_, ok := m[k]`: whether `k` is a key. -/
def mapHasKey (m : List (GoString × Bool)) (k : GoString) : Bool :=
  m.any (fun e => e.1 == k)

/-- The ASCII case of Go `strings.ToLower`: an upper-case letter becomes the
lower-case one, any other byte stays. -/
def lowerByte (c : Nat) : Nat :=
  if 65 ≤ c ∧ c ≤ 90 then c + 32 else c

/-- Go `strings.ToLower(s)`.  For a string with a byte from 0x80 up Go calls
`Map(unicode.ToLower, s)`; the Unicode tables are not modelled and that result
is the parameter `unicodeLower`. -/
def strings.ToLower (unicodeLower : GoString → GoString) (s : GoString) : GoString :=
  if s.all (fun c => decide (c < 128)) then
    if s.any (fun c => decide (65 ≤ c ∧ c ≤ 90)) then s.map lowerByte else s
  else unicodeLower s

/-- An `os.DirEntry` of the source directory: the two methods the program
calls. -/
structure DirEntry where
  Name : GoString
  IsDir : Bool
  deriving DecidableEq, Repr

/-- What lines 148 to 155 of source `main` do with a directory entry. -/
inductive EntryAction where
  | skipDir
  | skipExt
  | process
  deriving DecidableEq, Repr

/-- Lines 148 to 155 of source `main`: a directory is skipped, a file whose
lower-cased extension is no key of `EXTENSIONS` is skipped with a notice, any
other file is processed. -/
def main.entryAction (unicodeLower : GoString → GoString) (file : DirEntry) : EntryAction :=
  let fileName := file.Name
  if file.IsDir then .skipDir
  else if !(mapHasKey EXTENSIONS (strings.ToLower unicodeLower (filepath.Ext fileName))) then
    .skipExt
  else .process

/-! ## The move step on an explicit file-system state -/

/-- The regular files of a file system: the content at each path.  Directories,
permissions and I/O errors other than a missing file are not modelled. -/
abbrev FileSystem := GoString → Option GoString

/-- Go `_, err := os.Stat(path)` with `err == nil`: something exists at
`path`. -/
def os.StatOk (fs : FileSystem) (path : GoString) : Bool :=
  (fs path).isSome

/-- Go `os.Remove(path)`; `none` is an error. -/
def os.Remove (fs : FileSystem) (path : GoString) : Option FileSystem :=
  if (fs path).isSome then some (fun p => if p = path then none else fs p)
  else none

/-- Go `os.Rename(oldpath, newpath)`; `none` is an error. -/
def os.Rename (fs : FileSystem) (oldpath newpath : GoString) : Option FileSystem :=
  match fs oldpath with
  | none => none
  | some c => some (fun p => if p = newpath then some c else if p = oldpath then none else fs p)

/-- Modelled from the spec: `CompareFiles` is called by source `main` but is
not defined in the source file.  Section 4.5 of the specification: given two
file paths, return whether their byte contents are identical.  `none` is the
error return, when one of the two files cannot be read. -/
def CompareFiles (fs : FileSystem) (a b : GoString) : Option Bool :=
  match fs a, fs b with
  | some x, some y => some (x == y)
  | _, _ => none

/-- Lines 195 to 217 of source `main`: the move of one file.  The first
component says whether a `log.Fatalf` branch was reached, the second is the
file system left behind. -/
def main.moveStep (fs : FileSystem) (currentFile targetFile : GoString) :
    Bool × FileSystem :=
  if os.StatOk fs targetFile then
    match CompareFiles fs currentFile targetFile with
    | none => (true, fs)
    | some same =>
        if same then
          match os.Remove fs currentFile with
          | none => (true, fs)
          | some fs1 => (false, fs1)
        else (true, fs)
  else
    match os.Rename fs currentFile targetFile with
    | none => (true, fs)
    | some fs1 => (false, fs1)

/-- Go `filepath.Join(a, b)` for two elements that are already clean, `a`
without a trailing separator and `b` relative and not empty: the two joined
by one separator. -/
def filepath.JoinClean (a b : GoString) : GoString :=
  a ++ [47] ++ b

/-- Lines 147, 188 and 195 of source `main`: the path of the file in the
source directory and the path it is moved to. -/
def main.paths (zone : Int → Int) (originPath targetPath fileName : GoString)
    (finalTime : Time) : GoString × GoString :=
  let currentFile := filepath.JoinClean originPath fileName
  let targetDir := filepath.JoinClean targetPath (main.targetFolder zone finalTime)
  let targetFile := filepath.JoinClean targetDir fileName
  (currentFile, targetFile)

/-! ## `readFileNameTime` with the run-time checks of Go made explicit -/

/-- Go slice expression `s[:hi]`; `none` is the run-time panic for bounds out
of range. -/
def sliceTo (s : GoString) (hi : Int) : Option GoString :=
  if 0 ≤ hi ∧ hi ≤ (s.length : Int) then some (s.take hi.toNat) else none

/-- Go slice expression `s[lo:]`; `none` is the run-time panic. -/
def sliceFrom (s : GoString) (lo : Int) : Option GoString :=
  if 0 ≤ lo ∧ lo ≤ (s.length : Int) then some (s.drop lo.toNat) else none

/-- Go index expression `l[i]` on a slice of strings; `none` is the run-time
panic for an index out of range. -/
def indexAt (l : List GoString) (i : Int) : Option GoString :=
  if 0 ≤ i ∧ i < (l.length : Int) then some (l.getD i.toNat []) else none

/-- The loop body of source `readFileNameTime` with every slice and index
expression checked, the operands of `&&` and `||` evaluated left to right and
only as far as needed (`part` is handed out by `range`, without an index
expression).  The outer `none` is a run-time panic; `some none` is an
iteration that falls through. -/
def readFileNameTime.bodyChecked (parts : List GoString) (i : Nat) : Option (Option Time) :=
  let part := parts.getD i []
  (if part.length = 13 then some true
    else if part.length = 21 then
      (sliceTo part 8).map (fun p => decide (p = goString "mmexport"))
    else some false).bind fun isEpoch =>
  if isEpoch then
    (if part.length = 21 then sliceFrom part 8 else some part).bind fun timestampStr =>
    match strconv.ParseInt timestampStr with
    | some timestampInt => some (some (time.Unix (timestampInt.tdiv 1000) 0))
    | none => some none
  else if part.length = 17 ∨ part.length = 14 then
    (sliceTo part 14).bind fun datetimePrefix =>
    some (time.Parse layoutCompact datetimePrefix)
  else
    (if part.length = 8 ∧ (i : Int) < (parts.length : Int) - 1 then
        (indexAt parts ((i : Int) + 1)).map (fun next => decide (next.length = 6))
      else some false).bind fun isPair =>
    if isPair then
      (indexAt parts ((i : Int) + 1)).bind fun timeStr =>
      some (time.Parse layoutDateTime (part ++ goString " " ++ timeStr))
    else
      (if part.length = 4 ∧ (i : Int) < (parts.length : Int) - 2 then
          (indexAt parts ((i : Int) + 1)).bind fun next =>
          if next.length = 2 then
            (indexAt parts ((i : Int) + 2)).map (fun next2 => decide (next2.length = 2))
          else some false
        else some false).bind fun isTriple =>
      if isTriple then
        (indexAt parts ((i : Int) + 1)).bind fun monthStr =>
        (indexAt parts ((i : Int) + 2)).bind fun dayStr =>
        some (time.Parse layoutDashed
          (part ++ goString "-" ++ monthStr ++ goString "-" ++ dayStr ++ goString "_000000"))
      else some none

/-- The loop of source `readFileNameTime` over the given indices with the
checked body: a panic ends it, a returned time ends it, otherwise it goes
on. -/
def readFileNameTime.scanChecked (parts : List GoString) : List Nat → Option (Option Time)
  | [] => some none
  | i :: rest =>
      match readFileNameTime.bodyChecked parts i with
      | none => none
      | some (some tm) => some (some tm)
      | some none => readFileNameTime.scanChecked parts rest

/-- Source `readFileNameTime(fileName)` with every slice and index expression
checked; `none` is a run-time panic. -/
def readFileNameTime.checked (fileName : GoString) : Option (Time × Option Error) :=
  (sliceTo fileName ((fileName.length : Int) - ((filepath.Ext fileName).length : Int))).bind
    fun stem =>
  let parts := SplitAny (filepath.Base stem) (goString "_.- ")
  match readFileNameTime.scanChecked parts (List.range parts.length) with
  | none => none
  | some (some tm) => some (tm, none)
  | some none => some (Time.zero, some Error.fileNameNoTime)

/-! ## The grammars of the filename pattern matcher, as the specification lists them -/

/-- The four pattern grammars of section 4.1 of the specification, in its
precedence order. -/
inductive Grammar where
  | millisecondEpoch
  | compactDatetime
  | dateTimePair
  | yearMonthDayTriple
  deriving DecidableEq, Repr

/-- Specification, column "Token shape": whether the tokens at position `i`
have the shape of the grammar. -/
def Grammar.shape (g : Grammar) (parts : List GoString) (i : Nat) : Bool :=
  match g with
  | .millisecondEpoch =>
      decide ((parts.getD i []).length = 13
        ∨ ((parts.getD i []).length = 21 ∧ (parts.getD i []).take 8 = goString "mmexport"))
  | .compactDatetime =>
      decide ((parts.getD i []).length = 17 ∨ (parts.getD i []).length = 14)
  | .dateTimePair =>
      decide ((parts.getD i []).length = 8 ∧ i + 1 < parts.length
        ∧ (parts.getD (i + 1) []).length = 6)
  | .yearMonthDayTriple =>
      decide ((parts.getD i []).length = 4 ∧ i + 2 < parts.length
        ∧ (parts.getD (i + 1) []).length = 2 ∧ (parts.getD (i + 2) []).length = 2)

/-- Specification, column "Parse rule": the time the grammar reads from the
tokens at position `i`, `none` when they do not parse. -/
def Grammar.parse (g : Grammar) (parts : List GoString) (i : Nat) : Option Time :=
  match g with
  | .millisecondEpoch =>
      (strconv.ParseInt
        (if (parts.getD i []).length = 21 then (parts.getD i []).drop 8 else parts.getD i [])).map
        (fun ms => time.Unix (ms.tdiv 1000) 0)
  | .compactDatetime => time.Parse layoutCompact ((parts.getD i []).take 14)
  | .dateTimePair =>
      time.Parse layoutDateTime (parts.getD i [] ++ goString " " ++ parts.getD (i + 1) [])
  | .yearMonthDayTriple =>
      time.Parse layoutDashed
        (parts.getD i [] ++ goString "-" ++ parts.getD (i + 1) [] ++ goString "-"
          ++ parts.getD (i + 2) [] ++ goString "_000000")

/-- Specification: grammar `g` is a successful match at position `i` with
result `t` when the shape matches and the parse rule yields `t`. -/
def Grammar.matchAt (g : Grammar) (parts : List GoString) (i : Nat) : Option Time :=
  if g.shape parts i then g.parse parts i else none

/-- Specification: some grammar is a successful match at position `i`. -/
def succeedsAt (parts : List GoString) (i : Nat) : Prop :=
  ∃ g : Grammar, (g.matchAt parts i).isSome = true

instance (parts : List GoString) (i : Nat) : Decidable (succeedsAt parts i) :=
  decidable_of_iff
    ((Grammar.millisecondEpoch.matchAt parts i).isSome = true
      ∨ (Grammar.compactDatetime.matchAt parts i).isSome = true
      ∨ (Grammar.dateTimePair.matchAt parts i).isSome = true
      ∨ (Grammar.yearMonthDayTriple.matchAt parts i).isSome = true)
    (by
      constructor
      · rintro (h | h | h | h)
        · exact ⟨_, h⟩
        · exact ⟨_, h⟩
        · exact ⟨_, h⟩
        · exact ⟨_, h⟩
      · rintro ⟨g, h⟩
        cases g
        · exact Or.inl h
        · exact Or.inr (Or.inl h)
        · exact Or.inr (Or.inr (Or.inl h))
        · exact Or.inr (Or.inr (Or.inr h)))

/-! ## Decimal digits -/

/-- Every byte of `s` is a decimal digit, `'0'` to `'9'`. -/
def allDigits (s : GoString) : Prop :=
  ∀ c ∈ s, 48 ≤ c ∧ c ≤ 57

instance (s : GoString) : Decidable (allDigits s) := by
  unfold allDigits; infer_instance

/-- The integer a string of decimal digits denotes. -/
def decimalValue (s : GoString) : Nat :=
  s.foldl (fun acc c => acc * 10 + (c - 48)) 0

/-- No grammar of the specification is a successful match before position
`i`: position `i` is the leftmost one where a grammar can succeed. -/
def noMatchBefore (parts : List GoString) (i : Nat) : Prop :=
  ∀ j, j < i → ¬ succeedsAt parts j

instance (parts : List GoString) (i : Nat) : Decidable (noMatchBefore parts i) := by
  unfold noMatchBefore; infer_instance

/-! ## Valid calendar values -/

/-- The Gregorian leap-year rule. -/
def leapYear (y : Nat) : Bool :=
  y % 4 == 0 && (y % 100 != 0 || y % 400 == 0)

/-- The number of days of month `m` (1 to 12) of year `y`; 0 for any other
`m`. -/
def daysInMonth (y m : Nat) : Nat :=
  if m = 2 then (if leapYear y then 29 else 28)
  else if m = 4 ∨ m = 6 ∨ m = 9 ∨ m = 11 then 30
  else if 1 ≤ m ∧ m ≤ 12 then 31
  else 0

/-- A valid calendar date: a month of the year and a day of that month. -/
def validDate (y m d : Nat) : Prop :=
  1 ≤ m ∧ m ≤ 12 ∧ 1 ≤ d ∧ d ≤ daysInMonth y m

instance (y m d : Nat) : Decidable (validDate y m d) := by
  unfold validDate; infer_instance

/-- A valid time of day. -/
def validClock (h mi s : Nat) : Prop :=
  h ≤ 23 ∧ mi ≤ 59 ∧ s ≤ 59

instance (h mi s : Nat) : Decidable (validClock h mi s) := by
  unfold validClock; infer_instance

/-- The six digit groups `YYYY MM DD hh mm ss` of a date-time written in
decimal digits: four digits, then five times two digits. -/
def digitGroups (yy mo dd hh mi ss : GoString) : Prop :=
  (yy.length = 4 ∧ allDigits yy) ∧ (mo.length = 2 ∧ allDigits mo)
  ∧ (dd.length = 2 ∧ allDigits dd) ∧ (hh.length = 2 ∧ allDigits hh)
  ∧ (mi.length = 2 ∧ allDigits mi) ∧ (ss.length = 2 ∧ allDigits ss)

instance (yy mo dd hh mi ss : GoString) : Decidable (digitGroups yy mo dd hh mi ss) := by
  unfold digitGroups; infer_instance

/-- The digit groups denote a valid calendar date and a valid time of day. -/
def validDateTime (yy mo dd hh mi ss : GoString) : Prop :=
  validDate (decimalValue yy) (decimalValue mo) (decimalValue dd)
  ∧ validClock (decimalValue hh) (decimalValue mi) (decimalValue ss)

instance (yy mo dd hh mi ss : GoString) : Decidable (validDateTime yy mo dd hh mi ss) := by
  unfold validDateTime; infer_instance

/-- The time the digit groups denote, in UTC. -/
def dateTimeOf (yy mo dd hh mi ss : GoString) : Time :=
  time.Date (decimalValue yy) (decimalValue mo) (decimalValue dd)
    (decimalValue hh) (decimalValue mi) (decimalValue ss) 0

/-- The civil reading the digit groups denote. -/
def civilOf (yy mo dd hh mi ss : GoString) : Civil :=
  ⟨decimalValue yy, decimalValue mo, decimalValue dd,
    decimalValue hh, decimalValue mi, decimalValue ss⟩

/-! ## Specification-side notions for the metadata reader, the allow-list and the move step -/

/-- The entry carries the tag name `DateTimeOriginal`. -/
def isDateTimeOriginal (et : ExifTag) : Bool :=
  et.TagName == goString "DateTimeOriginal"

/-- The ten extensions of the allow-list, as the specification lists them. -/
def allowedExtensions : List GoString :=
  [goString ".jpg", goString ".png", goString ".webp", goString ".gif", goString ".mp4",
   goString ".mkv", goString ".jpeg", goString ".heic", goString ".mov", goString ".tiff"]

/-- Every byte of the string is below 0x80. -/
def isASCII (s : GoString) : Prop :=
  ∀ c ∈ s, c < 128

instance (s : GoString) : Decidable (isASCII s) := by
  unfold isASCII; infer_instance

/-- A file system with one regular file: `content` at `path`. -/
def oneFile (path content : GoString) : FileSystem :=
  fun p => if p = path then some content else none

/-- A file system with two regular files. -/
def twoFiles (path1 content1 path2 content2 : GoString) : FileSystem :=
  fun p => if p = path1 then some content1 else if p = path2 then some content2 else none

/-- The number of the given paths at which the file system holds `content`. -/
def copiesAt (fs : FileSystem) (content : GoString) (paths : List GoString) : Nat :=
  (paths.filter (fun p => decide (fs p = some content))).length

/-! ## Specification-side notions for the tokeniser -/

/-- One of the four delimiter characters `_`, `.`, `-` and space. -/
def isDelimiter (c : Nat) : Bool :=
  decide (c = 95 ∨ c = 46 ∨ c = 45 ∨ c = 32)

/-- The list `ts` holds the maximal runs of non-delimiter bytes of `s`, in
order: `s` is a run of delimiters, or it is a run of delimiters, then a
non-empty run `t` without delimiter that ends at the end of `s` or in front of
a delimiter, then a rest whose maximal runs are the remaining tokens. -/
inductive MaximalRuns (delim : Nat → Bool) : GoString → List GoString → Prop where
  | done (d : GoString) (hd : ∀ c ∈ d, delim c = true) : MaximalRuns delim d []
  | run (d t rest : GoString) (ts : List GoString) (hd : ∀ c ∈ d, delim c = true)
      (hne : t ≠ []) (ht : ∀ c ∈ t, delim c = false)
      (hend : rest = [] ∨ ∃ c r, rest = c :: r ∧ delim c = true)
      (hrest : MaximalRuns delim rest ts) : MaximalRuns delim (d ++ t ++ rest) (t :: ts)

/-! ## Specification-side notions for the grammars -/

/-- The 13 characters the millisecond-epoch grammar reads from a token: the
token itself, or what follows the 8-character prefix of a token of length
21. -/
def epochDigits (part : GoString) : GoString :=
  if part.length = 21 then part.drop 8 else part


/-! ## Calendar validation and the folder name, as the specification words them -/

/-- The characters a grammar consumes at position `i`: the digits left after
the prefix for the millisecond epoch, the first 14 characters of the token for
the compact date-time (the last 3 of a token of 17 are ignored), the date and
the time token for the pair, the year, month and day token for the triple. -/
def Grammar.consumed (g : Grammar) (parts : List GoString) (i : Nat) : GoString :=
  match g with
  | .millisecondEpoch => epochDigits (parts.getD i [])
  | .compactDatetime => (parts.getD i []).take 14
  | .dateTimePair => parts.getD i [] ++ parts.getD (i + 1) []
  | .yearMonthDayTriple => parts.getD i [] ++ parts.getD (i + 1) [] ++ parts.getD (i + 2) []

/-- The `n` characters of `c` from offset `lo` on. -/
def fieldAt (c : GoString) (lo n : Nat) : GoString :=
  (c.drop lo).take n

/-- The calendar conditions on the consumed characters `YYYYMMDD[hhmmss]`:
every character is a decimal digit, the month is in 1 to 12, the day is in 1
to the number of days of that month in that year, and, for the grammars that
read a time of day, the hour is at most 23 and minute and second at most 59. -/
def calendarValid (g : Grammar) (parts : List GoString) (i : Nat) : Prop :=
  allDigits (g.consumed parts i)
  ∧ (1 ≤ decimalValue (fieldAt (g.consumed parts i) 4 2)
    ∧ decimalValue (fieldAt (g.consumed parts i) 4 2) ≤ 12)
  ∧ (1 ≤ decimalValue (fieldAt (g.consumed parts i) 6 2)
    ∧ decimalValue (fieldAt (g.consumed parts i) 6 2)
        ≤ daysInMonth (decimalValue (fieldAt (g.consumed parts i) 0 4))
            (decimalValue (fieldAt (g.consumed parts i) 4 2)))
  ∧ (g = .yearMonthDayTriple
    ∨ (decimalValue (fieldAt (g.consumed parts i) 8 2) ≤ 23
      ∧ decimalValue (fieldAt (g.consumed parts i) 10 2) ≤ 59
      ∧ decimalValue (fieldAt (g.consumed parts i) 12 2) ≤ 59))

instance (g : Grammar) (parts : List GoString) (i : Nat) : Decidable (calendarValid g parts i) := by
  unfold calendarValid; infer_instance

/-- The year digits `YYYY` of the consumed characters. -/
def Grammar.yearDigits (g : Grammar) (parts : List GoString) (i : Nat) : GoString :=
  fieldAt (g.consumed parts i) 0 4

/-- The month digits `MM` of the consumed characters. -/
def Grammar.monthDigits (g : Grammar) (parts : List GoString) (i : Nat) : GoString :=
  fieldAt (g.consumed parts i) 4 2

/-! ## The values the metadata reader accepts, as a grammar -/

/-- Specification: the value has the form `YYYY:MM:DD hh:mm:ss`: 19
characters, decimal digits in the six fields, colons and one space between
them. -/
def matchesExifGrammar (v : GoString) : Prop :=
  v.length = 19
  ∧ allDigits (fieldAt v 0 4) ∧ fieldAt v 4 1 = [58]
  ∧ allDigits (fieldAt v 5 2) ∧ fieldAt v 7 1 = [58]
  ∧ allDigits (fieldAt v 8 2) ∧ fieldAt v 10 1 = [32]
  ∧ allDigits (fieldAt v 11 2) ∧ fieldAt v 13 1 = [58]
  ∧ allDigits (fieldAt v 14 2) ∧ fieldAt v 16 1 = [58]
  ∧ allDigits (fieldAt v 17 2)

instance (v : GoString) : Decidable (matchesExifGrammar v) := by
  unfold matchesExifGrammar; infer_instance

/-- The byte is a decimal digit. -/
def isDigitByte (c : Nat) : Bool := decide (48 ≤ c ∧ c ≤ 57)

/-- The byte is a space. -/
def isSpaceByte (c : Nat) : Bool := decide (c = 32)

/-- The year field of a value: its first four bytes. -/
def exifYear (v : GoString) : GoString := fieldAt v 0 4

/-- The month field of a value: the two bytes after the first colon. -/
def exifMonth (v : GoString) : GoString := fieldAt v 5 2

/-- The day field of a value: the two bytes after the second colon. -/
def exifDay (v : GoString) : GoString := fieldAt v 8 2

/-- The run of spaces after the day field. -/
def exifSpaces (v : GoString) : GoString := (v.drop 10).takeWhile isSpaceByte

/-- The value from the hour field on: what follows the run of spaces. -/
def exifClock (v : GoString) : GoString := (v.drop 10).dropWhile isSpaceByte

/-- The hour field: the run of digits after the spaces. -/
def exifHour (v : GoString) : GoString := (exifClock v).takeWhile isDigitByte

/-- The value after the hour field: `:mm:ss` and what follows. -/
def exifTail (v : GoString) : GoString := (exifClock v).dropWhile isDigitByte

/-- The minute field. -/
def exifMinute (v : GoString) : GoString := fieldAt (exifTail v) 1 2

/-- The second field. -/
def exifSecond (v : GoString) : GoString := fieldAt (exifTail v) 4 2

/-- The value after the second field: empty, or a fractional second. -/
def exifFraction (v : GoString) : GoString := (exifTail v).drop 6

/-- A fractional second is absent, or is a period or a comma followed by one
or more decimal digits. -/
def fractionOk (frac : GoString) : Prop :=
  frac = []
  ∨ ((frac.head? = some 46 ∨ frac.head? = some 44) ∧ 1 ≤ frac.tail.length
      ∧ allDigits frac.tail)

instance (frac : GoString) : Decidable (fractionOk frac) := by
  unfold fractionOk; infer_instance

/-- The nanoseconds the digits of a fractional second denote: the first nine
digits, padded with zeros on the right to nine digits. -/
def fractionNanos (ds : GoString) : Nat :=
  decimalValue (ds.take 9) * 10 ^ (9 - (ds.take 9).length)

/-- The shapes of the eight parts of an accepted value: four year digits, two
month digits, two day digits, one or more spaces, one or two hour digits, two
minute digits, two second digits and an optional fractional second. -/
def exifPartsOk (yy mo dd sp hh mi ss frac : GoString) : Prop :=
  (yy.length = 4 ∧ allDigits yy) ∧ (mo.length = 2 ∧ allDigits mo)
  ∧ (dd.length = 2 ∧ allDigits dd)
  ∧ (1 ≤ sp.length ∧ ∀ c ∈ sp, c = 32)
  ∧ ((hh.length = 1 ∨ hh.length = 2) ∧ allDigits hh)
  ∧ (mi.length = 2 ∧ allDigits mi) ∧ (ss.length = 2 ∧ allDigits ss)
  ∧ fractionOk frac

instance (yy mo dd sp hh mi ss frac : GoString) :
    Decidable (exifPartsOk yy mo dd sp hh mi ss frac) := by
  unfold exifPartsOk; infer_instance

/-- The eight parts written in a row with the colons of the grammar:
`YYYY:MM:DD`, the spaces, `h:mm:ss` or `hh:mm:ss`, the fractional second. -/
def exifConcat (yy mo dd sp hh mi ss frac : GoString) : GoString :=
  yy ++ 58 :: (mo ++ 58 :: (dd ++ (sp ++ (hh ++ 58 :: (mi ++ 58 :: (ss ++ frac))))))

/-- The values the metadata reader accepts: the grammar `YYYY:MM:DD hh:mm:ss`
relaxed in three places (more than one space before the hour, an hour of one
digit, a fractional second after the seconds), with fields that denote a valid
calendar date and a valid time of day. -/
def exifAccepted (v : GoString) : Prop :=
  exifPartsOk (exifYear v) (exifMonth v) (exifDay v) (exifSpaces v) (exifHour v)
    (exifMinute v) (exifSecond v) (exifFraction v)
  ∧ v = exifConcat (exifYear v) (exifMonth v) (exifDay v) (exifSpaces v) (exifHour v)
      (exifMinute v) (exifSecond v) (exifFraction v)
  ∧ validDateTime (exifYear v) (exifMonth v) (exifDay v) (exifHour v) (exifMinute v)
      (exifSecond v)

instance (v : GoString) : Decidable (exifAccepted v) := by
  unfold exifAccepted; infer_instance

/-- The civil reading an accepted value denotes. -/
def exifCivil (v : GoString) : Civil :=
  civilOf (exifYear v) (exifMonth v) (exifDay v) (exifHour v) (exifMinute v) (exifSecond v)

/-- The nanoseconds an accepted value denotes. -/
def exifNanos (v : GoString) : Nat :=
  fractionNanos (exifFraction v).tail

/-- The time an accepted value denotes, in UTC. -/
def exifTimeOf (v : GoString) : Time :=
  time.Date (decimalValue (exifYear v)) (decimalValue (exifMonth v))
    (decimalValue (exifDay v)) (decimalValue (exifHour v)) (decimalValue (exifMinute v))
    (decimalValue (exifSecond v)) (exifNanos v)
/-! ## Concrete inputs used below -/

/-- A birth time: Unix second 1700000000 (2023-11-14). -/
def sampleBirth : Time := time.Unix 1700000000 0

/-- An EXIF time: 2020-01-01 00:00:00 UTC. -/
def sampleExif : Time := time.Date 2020 1 1 0 0 0 0

/-- A file-name time: 2021-05-26 08:53:04 UTC. -/
def sampleName : Time := time.Date 2021 5 26 8 53 4 0

/-- `times.Stat` succeeded and reports `sampleBirth`. -/
def statWithBirth : StatResult := ⟨false, true, sampleBirth⟩

/-- `times.Stat` failed. -/
def statFailed : StatResult := ⟨true, false, Time.zero⟩

/-- `readExifTime` failed. -/
def exifFailed : Time × Option Error := (Time.zero, some Error.exifRead)

/-! ## The loop body and the grammars -/

/-- The loop body as one conditional over the four shape tests. -/
theorem body_eq (parts : List GoString) (i : Nat) :
    readFileNameTime.body parts i =
      if (parts.getD i []).length = 13
          ∨ ((parts.getD i []).length = 21 ∧ (parts.getD i []).take 8 = goString "mmexport") then
        (strconv.ParseInt
          (if (parts.getD i []).length = 21 then (parts.getD i []).drop 8
            else parts.getD i [])).map (fun ms => time.Unix (ms.tdiv 1000) 0)
      else if (parts.getD i []).length = 17 ∨ (parts.getD i []).length = 14 then
        time.Parse layoutCompact ((parts.getD i []).take 14)
      else if (parts.getD i []).length = 8 ∧ i + 1 < parts.length
          ∧ (parts.getD (i + 1) []).length = 6 then
        time.Parse layoutDateTime (parts.getD i [] ++ goString " " ++ parts.getD (i + 1) [])
      else if (parts.getD i []).length = 4 ∧ i + 2 < parts.length
          ∧ (parts.getD (i + 1) []).length = 2 ∧ (parts.getD (i + 2) []).length = 2 then
        time.Parse layoutDashed
          (parts.getD i [] ++ goString "-" ++ parts.getD (i + 1) [] ++ goString "-"
            ++ parts.getD (i + 2) [] ++ goString "_000000")
      else none := by
  have e3 : ((i : Int) < (parts.length : Int) - 1) ↔ i + 1 < parts.length := by omega
  have e4 : ((i : Int) < (parts.length : Int) - 2) ↔ i + 2 < parts.length := by omega
  simp only [readFileNameTime.body, e3, e4]
  by_cases h1 : (parts.getD i []).length = 13
      ∨ ((parts.getD i []).length = 21 ∧ (parts.getD i []).take 8 = goString "mmexport")
  · rw [if_pos h1, if_pos h1]
    cases strconv.ParseInt
      (if (parts.getD i []).length = 21 then (parts.getD i []).drop 8 else parts.getD i []) <;> rfl
  · rw [if_neg h1, if_neg h1]
    by_cases h2 : (parts.getD i []).length = 17 ∨ (parts.getD i []).length = 14
    · rw [if_pos h2, if_pos h2]
      cases time.Parse layoutCompact ((parts.getD i []).take 14) <;> rfl
    · rw [if_neg h2, if_neg h2]
      by_cases h3 : (parts.getD i []).length = 8 ∧ i + 1 < parts.length
          ∧ (parts.getD (i + 1) []).length = 6
      · rw [if_pos h3, if_pos h3]
        cases time.Parse layoutDateTime
          (parts.getD i [] ++ goString " " ++ parts.getD (i + 1) []) <;> rfl
      · rw [if_neg h3, if_neg h3]
        by_cases h4 : (parts.getD i []).length = 4 ∧ i + 2 < parts.length
            ∧ (parts.getD (i + 1) []).length = 2 ∧ (parts.getD (i + 2) []).length = 2
        · rw [if_pos h4, if_pos h4]
          cases time.Parse layoutDashed
            (parts.getD i [] ++ goString "-" ++ parts.getD (i + 1) [] ++ goString "-"
              ++ parts.getD (i + 2) [] ++ goString "_000000") <;> rfl
        · rw [if_neg h4, if_neg h4]

/-- The shapes of two different grammars never hold at the same position. -/
theorem shape_exclusive (g1 g2 : Grammar) (parts : List GoString) (i : Nat)
    (h1 : g1.shape parts i = true) (h2 : g2.shape parts i = true) : g1 = g2 := by
  cases g1 <;> cases g2 <;> simp only [Grammar.shape, decide_eq_true_eq] at h1 h2 <;>
    first
      | rfl
      | (exfalso; omega)

/-- The loop body as the first grammar whose shape holds. -/
theorem body_eq_grammar (parts : List GoString) (i : Nat) :
    readFileNameTime.body parts i =
      if Grammar.millisecondEpoch.shape parts i = true then
        Grammar.millisecondEpoch.parse parts i
      else if Grammar.compactDatetime.shape parts i = true then
        Grammar.compactDatetime.parse parts i
      else if Grammar.dateTimePair.shape parts i = true then
        Grammar.dateTimePair.parse parts i
      else if Grammar.yearMonthDayTriple.shape parts i = true then
        Grammar.yearMonthDayTriple.parse parts i
      else none := by
  rw [body_eq]
  simp only [Grammar.shape, Grammar.parse, decide_eq_true_eq]

/-- The else-if chain of the loop body returns `t` exactly when one of the
grammars of the specification is a successful match with result `t`: the four
shapes exclude one another. -/
theorem body_eq_some_iff (parts : List GoString) (i : Nat) (t : Time) :
    readFileNameTime.body parts i = some t ↔ ∃ g : Grammar, g.matchAt parts i = some t := by
  rw [body_eq_grammar]
  constructor
  · intro h
    by_cases h1 : Grammar.millisecondEpoch.shape parts i = true
    · rw [if_pos h1] at h
      exact ⟨.millisecondEpoch, by rw [Grammar.matchAt, if_pos h1]; exact h⟩
    · rw [if_neg h1] at h
      by_cases h2 : Grammar.compactDatetime.shape parts i = true
      · rw [if_pos h2] at h
        exact ⟨.compactDatetime, by rw [Grammar.matchAt, if_pos h2]; exact h⟩
      · rw [if_neg h2] at h
        by_cases h3 : Grammar.dateTimePair.shape parts i = true
        · rw [if_pos h3] at h
          exact ⟨.dateTimePair, by rw [Grammar.matchAt, if_pos h3]; exact h⟩
        · rw [if_neg h3] at h
          by_cases h4 : Grammar.yearMonthDayTriple.shape parts i = true
          · rw [if_pos h4] at h
            exact ⟨.yearMonthDayTriple, by rw [Grammar.matchAt, if_pos h4]; exact h⟩
          · rw [if_neg h4] at h
            exact absurd h (by simp)
  · rintro ⟨g, hg⟩
    have hs : g.shape parts i = true := by
      by_contra hn
      rw [Grammar.matchAt, if_neg hn] at hg
      exact absurd hg (by simp)
    rw [Grammar.matchAt, if_pos hs] at hg
    have hne : ∀ g2 : Grammar, g2 ≠ g → ¬ g2.shape parts i = true :=
      fun g2 hg2 h2 => hg2 (shape_exclusive g2 g parts i h2 hs)
    cases g
    · rw [if_pos hs]; exact hg
    · rw [if_neg (hne _ (by decide)), if_pos hs]; exact hg
    · rw [if_neg (hne _ (by decide)), if_neg (hne _ (by decide)), if_pos hs]; exact hg
    · rw [if_neg (hne _ (by decide)), if_neg (hne _ (by decide)), if_neg (hne _ (by decide)),
        if_pos hs]
      exact hg

/-- The loop body falls through exactly when no grammar of the specification
is a successful match at the position. -/
theorem body_eq_none_iff (parts : List GoString) (i : Nat) :
    readFileNameTime.body parts i = none ↔ ¬ succeedsAt parts i := by
  constructor
  · rintro h ⟨g, hg⟩
    obtain ⟨t, ht⟩ := Option.isSome_iff_exists.mp hg
    have := (body_eq_some_iff parts i t).mpr ⟨g, ht⟩
    rw [h] at this
    exact absurd this (by simp)
  · intro h
    cases hb : readFileNameTime.body parts i with
    | none => rfl
    | some t =>
        obtain ⟨g, hg⟩ := (body_eq_some_iff parts i t).mp hb
        exact absurd ⟨g, by rw [hg]; rfl⟩ h

/-! ## The scan over the token positions -/

theorem findSome_range_none (f : Nat → Option Time) (n : Nat) :
    (List.range n).findSome? f = none ↔ ∀ i, i < n → f i = none := by
  rw [List.findSome?_eq_none_iff]
  constructor
  · intro h i hi
    exact h i (List.mem_range.mpr hi)
  · intro h i hi
    exact h i (List.mem_range.mp hi)

theorem findSome_range_first (f : Nat → Option Time) (n i : Nat) (t : Time) (hi : i < n)
    (hfi : f i = some t) (hlt : ∀ j, j < i → f j = none) :
    (List.range n).findSome? f = some t := by
  induction n with
  | zero => omega
  | succ n ih =>
      rw [List.range_succ, List.findSome?_append]
      by_cases hin : i < n
      · rw [ih hin]; rfl
      · have hin2 : i = n := by omega
        subst hin2
        rw [(findSome_range_none f i).mpr hlt]
        simp [List.findSome?, hfi]

theorem findSome_range_some (f : Nat → Option Time) (n : Nat) (t : Time)
    (h : (List.range n).findSome? f = some t) :
    ∃ i, i < n ∧ f i = some t ∧ ∀ j, j < i → f j = none := by
  induction n with
  | zero => simp at h
  | succ n ih =>
      rw [List.range_succ, List.findSome?_append] at h
      cases hn : (List.range n).findSome? f with
      | some t2 =>
          rw [hn] at h
          have ht : t2 = t := by simpa using h
          subst ht
          obtain ⟨i, hi, hfi, hlt⟩ := ih hn
          exact ⟨i, by omega, hfi, hlt⟩
      | none =>
          rw [hn] at h
          have hfn : f n = some t := by
            cases hfn : f n with
            | none => simp [List.findSome?, hfn] at h
            | some t2 => simpa [List.findSome?, hfn] using h
          exact ⟨n, by omega, hfn, (findSome_range_none f n).mp hn⟩

theorem scan_eq_none_iff (parts : List GoString) :
    readFileNameTime.scan parts = none ↔
      ∀ i, i < parts.length → readFileNameTime.body parts i = none :=
  findSome_range_none _ _

theorem scan_eq_some_of_first (parts : List GoString) (i : Nat) (t : Time)
    (hi : i < parts.length) (hbody : readFileNameTime.body parts i = some t)
    (hlt : ∀ j, j < i → readFileNameTime.body parts j = none) :
    readFileNameTime.scan parts = some t :=
  findSome_range_first _ _ i t hi hbody hlt

theorem scan_eq_some (parts : List GoString) (t : Time)
    (h : readFileNameTime.scan parts = some t) :
    ∃ i, i < parts.length ∧ readFileNameTime.body parts i = some t
      ∧ ∀ j, j < i → readFileNameTime.body parts j = none :=
  findSome_range_some _ _ t h

/-- The loop body only looks at the token of its position and the two after
it. -/
theorem body_cons_succ (p : GoString) (ps : List GoString) (i : Nat) :
    readFileNameTime.body (p :: ps) (i + 1) = readFileNameTime.body ps i := by
  have e3 : i + 1 + 1 < (p :: ps).length ↔ i + 1 < ps.length := by
    simp only [List.length_cons]; omega
  have e4 : i + 1 + 2 < (p :: ps).length ↔ i + 2 < ps.length := by
    simp only [List.length_cons]; omega
  have g1 : (p :: ps).getD (i + 1 + 1) [] = ps.getD (i + 1) [] := List.getD_cons_succ
  have g2 : (p :: ps).getD (i + 1 + 2) [] = ps.getD (i + 2) [] := List.getD_cons_succ
  rw [body_eq, body_eq]
  simp only [List.getD_cons_succ, e3, e4, g1, g2]

theorem scan_cons (p : GoString) (ps : List GoString) :
    readFileNameTime.scan (p :: ps) =
      (readFileNameTime.body (p :: ps) 0).or (readFileNameTime.scan ps) := by
  simp only [readFileNameTime.scan, List.length_cons, List.range_succ_eq_map,
    List.findSome?_cons, List.findSome?_map]
  have hf : (readFileNameTime.body (p :: ps) ∘ Nat.succ) = readFileNameTime.body ps := by
    funext i
    exact body_cons_succ p ps i
  rw [hf]
  cases readFileNameTime.body (p :: ps) 0 <;> rfl

/-- When the positions up to `i` all fall through, the scan gives what a scan
of the tokens after position `i` gives. -/
theorem scan_drop (parts : List GoString) (i : Nat)
    (h : ∀ j, j ≤ i → readFileNameTime.body parts j = none) :
    readFileNameTime.scan parts = readFileNameTime.scan (parts.drop (i + 1)) := by
  induction i generalizing parts with
  | zero =>
      cases parts with
      | nil => rfl
      | cons p ps =>
          rw [scan_cons, h 0 (le_refl 0)]
          rfl
  | succ i ih =>
      cases parts with
      | nil => rfl
      | cons p ps =>
          rw [scan_cons, h 0 (Nat.zero_le _)]
          have h2 : ∀ j, j ≤ i → readFileNameTime.body ps j = none := by
            intro j hj
            rw [← body_cons_succ p ps j]
            exact h (j + 1) (by omega)
          simp only [Option.none_or, List.drop_succ_cons]
          exact ih ps h2

/-! ## Decimal strings and `strconv.ParseInt` -/

theorem foldl_digits_le (s : GoString) (a : Nat) :
    a ≤ s.foldl (fun acc c => acc * 10 + (c - 48)) a := by
  induction s generalizing a with
  | nil => exact le_refl a
  | cons c s ih =>
      simp only [List.foldl_cons]
      exact le_trans (by omega) (ih (a * 10 + (c - 48)))

theorem foldl_digits_lt (s : GoString) (a : Nat) (hs : allDigits s) :
    s.foldl (fun acc c => acc * 10 + (c - 48)) a + 1 ≤ (a + 1) * 10 ^ s.length := by
  induction s generalizing a with
  | nil => simp
  | cons c s ih =>
      have hc := hs c (List.mem_cons_self c s)
      have hs2 : allDigits s := fun d hd => hs d (List.mem_cons_of_mem c hd)
      simp only [List.foldl_cons, List.length_cons]
      refine le_trans (ih (a * 10 + (c - 48)) hs2) ?_
      have h1 : a * 10 + (c - 48) + 1 ≤ (a + 1) * 10 := by omega
      calc (a * 10 + (c - 48) + 1) * 10 ^ s.length
          ≤ ((a + 1) * 10) * 10 ^ s.length := Nat.mul_le_mul_right _ h1
        _ = (a + 1) * 10 ^ (s.length + 1) := by ring

/-- A string of `k` decimal digits denotes a number below `10 ^ k`. -/
theorem decimalValue_lt (s : GoString) (hs : allDigits s) :
    decimalValue s < 10 ^ s.length := by
  have h := foldl_digits_lt s 0 hs
  simp only [decimalValue]
  omega

theorem ParseUint_foldl (s : GoString) (a : Nat) (hs : allDigits s)
    (hb : s.foldl (fun acc c => acc * 10 + (c - 48)) a < 2 ^ 64) :
    s.foldl
      (fun acc c =>
        match acc with
        | none => none
        | some n =>
            if 48 ≤ c ∧ c ≤ 57 then
              if n * 10 + (c - 48) < 2 ^ 64 then some (n * 10 + (c - 48)) else none
            else none)
      (some a) = some (s.foldl (fun acc c => acc * 10 + (c - 48)) a) := by
  induction s generalizing a with
  | nil => rfl
  | cons c s ih =>
      have hc := hs c (List.mem_cons_self c s)
      have hs2 : allDigits s := fun d hd => hs d (List.mem_cons_of_mem c hd)
      simp only [List.foldl_cons] at hb ⊢
      have h1 : a * 10 + (c - 48) < 2 ^ 64 :=
        lt_of_le_of_lt (foldl_digits_le s _) hb
      rw [if_pos hc, if_pos h1]
      exact ih _ hs2 hb

theorem ParseUint_digits (s : GoString) (hne : s ≠ []) (hs : allDigits s)
    (hb : decimalValue s < 2 ^ 64) :
    strconv.ParseUint s = some (decimalValue s) := by
  simp only [strconv.ParseUint, if_neg hne]
  exact ParseUint_foldl s 0 hs hb

/-- `strconv.ParseInt` on a non-empty string of decimal digits below `2 ^ 63`
returns the number it denotes. -/
theorem ParseInt_digits (s : GoString) (hne : s ≠ []) (hs : allDigits s)
    (hb : decimalValue s < 2 ^ 63) :
    strconv.ParseInt s = some (decimalValue s : Int) := by
  cases s with
  | nil => exact absurd rfl hne
  | cons c rest =>
      have hc := hs c (List.mem_cons_self c rest)
      have h43 : ¬ (c = 43 ∨ c = 45) := by omega
      have h45 : ¬ c = 45 := by omega
      have hu := ParseUint_digits (c :: rest) hne hs (lt_trans hb (by norm_num))
      have h3 : ¬ (decimalValue (c :: rest) ≥ 2 ^ 63) := by omega
      have h3b : ¬ (9223372036854775808 ≤ decimalValue (c :: rest)) := by
        norm_num at h3 ⊢; omega
      have h43a : ¬ c = 43 := by omega
      simp [strconv.ParseInt, h43a, hu, h45, h3b]

/-- The millisecond-epoch grammar on a token of 13 decimal digits. -/
theorem epoch_parse_digits (ds : GoString) (hlen : ds.length = 13) (hdig : allDigits ds) :
    (strconv.ParseInt ds).map (fun ms => time.Unix (ms.tdiv 1000) 0)
      = some (time.Unix ((decimalValue ds / 1000 : Nat) : Int) 0) := by
  have hne : ds ≠ [] := by
    intro h; rw [h] at hlen; simp at hlen
  have hlt := decimalValue_lt ds hdig
  rw [hlen] at hlt
  rw [ParseInt_digits ds hne hdig (lt_trans hlt (by norm_num))]
  simp only [Option.map_some', Option.some.injEq]
  rw [Int.tdiv_eq_ediv (by omega) (by omega)]
  congr 1

theorem goString_mmexport :
    goString "mmexport" = [109, 109, 101, 120, 112, 111, 114, 116] := by decide

/-- The loop body at a token of 13 decimal digits. -/
theorem body_epoch_bare (parts : List GoString) (i : Nat)
    (hlen : (parts.getD i []).length = 13) (hdig : allDigits (parts.getD i [])) :
    readFileNameTime.body parts i
      = some (time.Unix ((decimalValue (parts.getD i []) / 1000 : Nat) : Int) 0) := by
  rw [body_eq, if_pos (Or.inl hlen), if_neg (by omega)]
  exact epoch_parse_digits _ hlen hdig

/-- The loop body at a token `mmexport` followed by 13 decimal digits. -/
theorem body_epoch_prefixed (parts : List GoString) (i : Nat) (ds : GoString)
    (htok : parts.getD i [] = goString "mmexport" ++ ds)
    (hlen : ds.length = 13) (hdig : allDigits ds) :
    readFileNameTime.body parts i
      = some (time.Unix ((decimalValue ds / 1000 : Nat) : Int) 0) := by
  have hl : (parts.getD i []).length = 21 := by
    rw [htok, goString_mmexport]; simp [hlen]
  have ht : (parts.getD i []).take 8 = goString "mmexport" := by
    rw [htok, goString_mmexport]; rfl
  have hd : (parts.getD i []).drop 8 = ds := by
    rw [htok, goString_mmexport]; rfl
  rw [body_eq, if_pos (Or.inr ⟨hl, ht⟩), if_pos hl, hd]
  exact epoch_parse_digits _ hlen hdig

theorem noMatchBefore_body (parts : List GoString) (i : Nat) (h : noMatchBefore parts i) :
    ∀ j, j < i → readFileNameTime.body parts j = none :=
  fun j hj => (body_eq_none_iff parts j).mpr (h j hj)

theorem time_Unix_zero_nsec (x : Int) :
    time.Unix x 0 = ⟨x + unixToInternal, 0, .Local⟩ := by
  simp [time.Unix]

/-! ## Stems without tokens -/

theorem goString_delims : goString "_.- " = [95, 46, 45, 32] := by decide

theorem FieldsFunc_go_all (f : Nat → Bool) (s : GoString) (h : ∀ c ∈ s, f c = true) :
    strings.FieldsFunc.go f s none = [] := by
  induction s with
  | nil => rfl
  | cons c s ih =>
      have hc := h c (List.mem_cons_self c s)
      simp only [strings.FieldsFunc.go, hc, if_true]
      exact ih (fun d hd => h d (List.mem_cons_of_mem c hd))

/-- A string made only of separators has no token. -/
theorem SplitAny_all_seps (s seps : GoString) (h : ∀ c ∈ s, c ∈ seps) :
    SplitAny s seps = [] := by
  simp only [SplitAny, strings.FieldsFunc]
  apply FieldsFunc_go_all
  intro c hc
  simp only [strings.ContainsRune]
  exact List.elem_eq_true_of_mem (h c hc)

theorem Base_strip_noslash (s : GoString) (h : ∀ c ∈ s, c ≠ 47) (n : Nat)
    (hn : n ≤ s.length) : filepath.Base.strip s n = s.take n := by
  cases n with
  | zero => rfl
  | succ n =>
      have hlt : n < s.length := by omega
      have hg : s.getD n 0 ≠ 47 := by
        rw [List.getD_eq_getElem s 0 hlt]
        exact h _ (List.getElem_mem hlt)
      simp only [filepath.Base.strip, if_neg hg]

theorem Base_last_noslash (s : GoString) (h : ∀ c ∈ s, c ≠ 47) (k : Nat)
    (hk : k ≤ s.length) : filepath.Base.last s k = s := by
  induction k with
  | zero => rfl
  | succ k ih =>
      have hlt : k < s.length := by omega
      have hg : s.getD k 0 ≠ 47 := by
        rw [List.getD_eq_getElem s 0 hlt]
        exact h _ (List.getElem_mem hlt)
      simp only [filepath.Base.last, if_neg hg]
      exact ih (by omega)

/-- `filepath.Base` leaves a non-empty path without a slash as it is. -/
theorem Base_noslash (s : GoString) (hne : s ≠ []) (h : ∀ c ∈ s, c ≠ 47) :
    filepath.Base s = s := by
  have h1 : filepath.Base.strip s s.length = s := by
    rw [Base_strip_noslash s h s.length (le_refl _), List.take_length]
  simp only [filepath.Base, if_neg hne, h1, Base_last_noslash s h s.length (le_refl _)]

/-- A file name whose stem is made only of delimiters (or is empty) has no
token. -/
theorem fileNameParts_delims (fileName : GoString)
    (h : ∀ c ∈ fileNameStem fileName, c ∈ goString "_.- ") :
    fileNameParts fileName = [] := by
  rw [goString_delims] at h
  simp only [fileNameParts]
  by_cases hne : fileNameStem fileName = []
  · rw [hne]; decide
  · rw [Base_noslash _ hne]
    · exact SplitAny_all_seps _ _ (by rw [goString_delims]; exact h)
    · intro c hc h47
      have := h c hc
      rw [h47] at this
      simp at this

theorem readFileNameTime_err_iff_scan (fileName : GoString) :
    (readFileNameTime fileName).2 ≠ none ↔
      readFileNameTime.scan (fileNameParts fileName) = none := by
  simp only [readFileNameTime]
  cases readFileNameTime.scan (fileNameParts fileName) <;> simp

/-- The loop body falls through at a token whose length is none of the
lengths the four shapes ask for. -/
theorem body_none_of_length (parts : List GoString) (i : Nat)
    (h : (parts.getD i []).length ≠ 13 ∧ (parts.getD i []).length ≠ 21
      ∧ (parts.getD i []).length ≠ 17 ∧ (parts.getD i []).length ≠ 14
      ∧ (parts.getD i []).length ≠ 8 ∧ (parts.getD i []).length ≠ 4) :
    readFileNameTime.body parts i = none := by
  rw [body_eq, if_neg (by omega), if_neg (by omega), if_neg (by omega), if_neg (by omega)]

/-! ## The calendar: `Date` followed by the civil reading -/

theorem year_decomp (y : Int) : ∃ a b c e : Int, y - 1 = 400 * a + 100 * b + 4 * c + e ∧
    0 ≤ b ∧ b < 4 ∧ 0 ≤ c ∧ c < 25 ∧ 0 ≤ e ∧ e < 4 :=
  ⟨(y - 1) / 400, (y - 1) % 400 / 100, (y - 1) % 100 / 4, (y - 1) % 4,
    by omega, by omega, by omega, by omega, by omega, by omega, by omega⟩

theorem daysSinceEpoch_decomp (a b c e : Int) (hb0 : 0 ≤ b) (hb : b < 4) (hc0 : 0 ≤ c)
    (hc : c < 25) (he0 : 0 ≤ e) (he : e < 4) :
    daysSinceEpoch (400 * a + 100 * b + 4 * c + e + 1)
      = 146097 * a + 36524 * b + 1461 * c + 365 * e := by
  have h1 : (400 * a + 100 * b + 4 * c + e + 1 - 1) / 400 = a := by omega
  have h2 : (400 * a + 100 * b + 4 * c + e + 1 - 1 - 400 * a) / 100 = b := by omega
  have h3 : (400 * a + 100 * b + 4 * c + e + 1 - 1 - 400 * a - 100 * b) / 4 = c := by omega
  simp only [daysSinceEpoch, h1, h2, h3]
  omega

theorem isLeap_decomp (a b c e : Int) (hb0 : 0 ≤ b) (hb : b < 4) (hc0 : 0 ≤ c)
    (hc : c < 25) (he0 : 0 ≤ e) (he : e < 4) :
    isLeap (400 * a + 100 * b + 4 * c + e + 1) = true ↔ (e = 3 ∧ (c < 24 ∨ b = 3)) := by
  simp only [isLeap, Bool.and_eq_true, Bool.or_eq_true, beq_iff_eq, bne_iff_ne, ne_eq]
  omega

theorem absYear_of (days n400 n100a n4 n1a : Int)
    (h1 : days / 146097 = n400)
    (h2 : (days - 146097 * n400) / 36524 - (days - 146097 * n400) / 36524 / 4 = n100a)
    (h3 : (days - 146097 * n400 - 36524 * n100a) / 1461 = n4)
    (h4 : (days - 146097 * n400 - 36524 * n100a - 1461 * n4) / 365
      - (days - 146097 * n400 - 36524 * n100a - 1461 * n4) / 365 / 4 = n1a) :
    absYear days = (400 * n400 + 100 * n100a + 4 * n4 + n1a + 1,
      days - 146097 * n400 - 36524 * n100a - 1461 * n4 - 365 * n1a) := by
  subst h1; subst h2; subst h3; subst h4
  rfl

theorem cut_century (b r : Int) (hb0 : 0 ≤ b) (hb : b < 4) (hr0 : 0 ≤ r)
    (hr : r < 36524 ∨ (b = 3 ∧ r = 36524)) :
    (36524 * b + r) / 36524 - (36524 * b + r) / 36524 / 4 = b := by
  rcases hr with hr | ⟨rfl, rfl⟩
  · have h : (36524 * b + r) / 36524 = b := by omega
    rw [h]; omega
  · norm_num

theorem cut_year (e r : Int) (he0 : 0 ≤ e) (he : e < 4) (hr0 : 0 ≤ r)
    (hr : r < 365 ∨ (e = 3 ∧ r = 365)) :
    (365 * e + r) / 365 - (365 * e + r) / 365 / 4 = e := by
  rcases hr with hr | ⟨rfl, rfl⟩
  · have h : (365 * e + r) / 365 = e := by omega
    rw [h]; omega
  · norm_num

theorem absYear_decomp (a b c e yd : Int) (hb0 : 0 ≤ b) (hb : b < 4) (hc0 : 0 ≤ c)
    (hc : c < 25) (he0 : 0 ≤ e) (he : e < 4) (h0 : 0 ≤ yd) (h1 : yd < 366)
    (h2 : yd = 365 → (e = 3 ∧ (c < 24 ∨ b = 3))) :
    absYear (146097 * a + 36524 * b + 1461 * c + 365 * e + yd)
      = (400 * a + 100 * b + 4 * c + e + 1, yd) := by
  have k := absYear_of (146097 * a + 36524 * b + 1461 * c + 365 * e + yd) a b c e
    (by omega)
    (by
      have h := cut_century b (1461 * c + 365 * e + yd) hb0 hb (by omega) (by omega)
      have e1 : 146097 * a + 36524 * b + 1461 * c + 365 * e + yd - 146097 * a
          = 36524 * b + (1461 * c + 365 * e + yd) := by ring
      rw [e1]; exact h)
    (by omega)
    (by
      have h := cut_year e yd he0 he h0 (by omega)
      have e1 : 146097 * a + 36524 * b + 1461 * c + 365 * e + yd - 146097 * a - 36524 * b
          - 1461 * c = 365 * e + yd := by ring
      rw [e1]; exact h)
  rw [k]
  simp only [Prod.mk.injEq, true_and]
  ring

/-- The year and day of the year are read back from the day number `Date`
computes. -/
theorem absYear_daysSinceEpoch (y yd : Int) (h0 : 0 ≤ yd)
    (h1 : yd < if isLeap y = true then 366 else 365) :
    absYear (daysSinceEpoch y + yd) = (y, yd) := by
  obtain ⟨a, b, c, e, hy, hb0, hb, hc0, hc, he0, he⟩ := year_decomp y
  have hy2 : y = 400 * a + 100 * b + 4 * c + e + 1 := by omega
  subst hy2
  have hl := isLeap_decomp a b c e hb0 hb hc0 hc he0 he
  rw [daysSinceEpoch_decomp a b c e hb0 hb hc0 hc he0 he]
  apply absYear_decomp a b c e yd hb0 hb hc0 hc he0 he h0
  · split at h1 <;> omega
  · intro h365
    by_cases hlp : isLeap (400 * a + 100 * b + 4 * c + e + 1) = true
    · exact hl.mp hlp
    · rw [if_neg hlp] at h1; omega

theorem daysBefore_table :
    daysBefore 0 = 0 ∧ daysBefore 1 = 31 ∧ daysBefore 2 = 59 ∧ daysBefore 3 = 90
    ∧ daysBefore 4 = 120 ∧ daysBefore 5 = 151 ∧ daysBefore 6 = 181 ∧ daysBefore 7 = 212
    ∧ daysBefore 8 = 243 ∧ daysBefore 9 = 273 ∧ daysBefore 10 = 304 ∧ daysBefore 11 = 334
    ∧ daysBefore 12 = 365 := by
  decide

/-- The day of the year `Date` computes for a valid month and day, and its
bounds. -/
theorem yday_bounds (y mo d : Int) (hmo1 : 1 ≤ mo) (hmo2 : mo ≤ 12) (hd1 : 1 ≤ d)
    (hd2 : d ≤ daysIn mo y) :
    0 ≤ (daysBefore (mo - 1) + (if isLeap y = true ∧ mo ≥ 3 then 1 else 0) + (d - 1))
    ∧ (daysBefore (mo - 1) + (if isLeap y = true ∧ mo ≥ 3 then 1 else 0) + (d - 1))
        < (if isLeap y = true then 366 else 365) := by
  obtain ⟨t0, t1, t2, t3, t4, t5, t6, t7, t8, t9, t10, t11, t12⟩ := daysBefore_table
  have hcases : mo = 1 ∨ mo = 2 ∨ mo = 3 ∨ mo = 4 ∨ mo = 5 ∨ mo = 6 ∨ mo = 7 ∨ mo = 8
      ∨ mo = 9 ∨ mo = 10 ∨ mo = 11 ∨ mo = 12 := by omega
  simp only [daysIn] at hd2
  cases hl : isLeap y <;>
    rcases hcases with h | h | h | h | h | h | h | h | h | h | h | h <;> subst h <;>
    simp [hl, t0, t1, t2, t3, t4, t5, t6, t7, t8, t9, t10, t11, t12] at hd2 ⊢ <;> omega

theorem monthDay_aux (y yd day mo d : Int) (hsp : ¬ (isLeap y = true ∧ yd = 31 + 29 - 1))
    (hday : (if isLeap y = true ∧ yd > 31 + 29 - 1 then yd - 1 else yd) = day)
    (hmo1 : 1 ≤ mo) (hmo2 : mo ≤ 12)
    (hlo : daysBefore (mo - 1) ≤ day) (hhi : day < daysBefore mo)
    (hd : d = day - daysBefore (mo - 1) + 1) :
    monthDay y yd = (mo, d) := by
  obtain ⟨t0, t1, t2, t3, t4, t5, t6, t7, t8, t9, t10, t11, t12⟩ := daysBefore_table
  have hcases : mo = 1 ∨ mo = 2 ∨ mo = 3 ∨ mo = 4 ∨ mo = 5 ∨ mo = 6 ∨ mo = 7 ∨ mo = 8
      ∨ mo = 9 ∨ mo = 10 ∨ mo = 11 ∨ mo = 12 := by omega
  simp only [monthDay, if_neg hsp, hday]
  have hq : day / 31 = mo - 1 ∨ day / 31 = mo - 2 := by
    rcases hcases with h | h | h | h | h | h | h | h | h | h | h | h <;> subst h <;>
      norm_num [t0, t1, t2, t3, t4, t5, t6, t7, t8, t9, t10, t11, t12] at hlo hhi <;> omega
  rcases hq with hq | hq <;> rw [hq] <;>
    rcases hcases with h | h | h | h | h | h | h | h | h | h | h | h <;> subst h <;>
    norm_num [t0, t1, t2, t3, t4, t5, t6, t7, t8, t9, t10, t11, t12] at hlo hhi hd hq ⊢ <;>
    first
      | (exfalso; omega)
      | (rw [if_neg (by omega)]; simp only [Prod.mk.injEq, true_and]; omega)
      | (rw [if_pos (by omega)]; simp only [Prod.mk.injEq, true_and]; omega)

/-- Month and day are read back from the day of the year `Date` computes. -/
theorem monthDay_yday (y mo d : Int) (hmo1 : 1 ≤ mo) (hmo2 : mo ≤ 12) (hd1 : 1 ≤ d)
    (hd2 : d ≤ daysIn mo y) :
    monthDay y (daysBefore (mo - 1) + (if isLeap y = true ∧ mo ≥ 3 then 1 else 0) + (d - 1))
      = (mo, d) := by
  obtain ⟨t0, t1, t2, t3, t4, t5, t6, t7, t8, t9, t10, t11, t12⟩ := daysBefore_table
  have hcases : mo = 1 ∨ mo = 2 ∨ mo = 3 ∨ mo = 4 ∨ mo = 5 ∨ mo = 6 ∨ mo = 7 ∨ mo = 8
      ∨ mo = 9 ∨ mo = 10 ∨ mo = 11 ∨ mo = 12 := by omega
  by_cases hsp : isLeap y = true ∧ mo = 2 ∧ d = 29
  · obtain ⟨hl, rfl, rfl⟩ := hsp
    simp only [monthDay]
    norm_num [hl, t1]
  · simp only [daysIn] at hd2
    apply monthDay_aux y _ (daysBefore (mo - 1) + (d - 1)) mo d
    · cases hl : isLeap y <;>
        rcases hcases with h | h | h | h | h | h | h | h | h | h | h | h <;> subst h <;>
        norm_num [hl, t0, t1, t2, t3, t4, t5, t6, t7, t8, t9, t10, t11, t12] at hd2 hsp ⊢ <;>
        omega
    · cases hl : isLeap y <;>
        rcases hcases with h | h | h | h | h | h | h | h | h | h | h | h <;> subst h <;>
        norm_num [hl, t0, t1, t2, t3, t4, t5, t6, t7, t8, t9, t10, t11, t12] at hd2 hsp ⊢ <;>
        omega
    · exact hmo1
    · exact hmo2
    · omega
    · cases hl : isLeap y <;>
        rcases hcases with h | h | h | h | h | h | h | h | h | h | h | h <;> subst h <;>
        norm_num [hl, t0, t1, t2, t3, t4, t5, t6, t7, t8, t9, t10, t11, t12] at hd2 hsp ⊢ <;>
        omega
    · ring

theorem norm_id (hi lo base : Int) (h0 : 0 ≤ lo) (h1 : lo < base) :
    norm hi lo base = (hi, lo) := by
  simp only [norm, if_neg (not_lt.mpr h0), ge_iff_le, if_neg (not_le.mpr h1)]

/-- The seconds `Date` computes for fields that need no normalisation. -/
theorem Date_eq (y mo d h mi s : Int) (hmo1 : 1 ≤ mo) (hmo2 : mo ≤ 12)
    (hh1 : 0 ≤ h) (hh2 : h < 24) (hmi1 : 0 ≤ mi) (hmi2 : mi < 60)
    (hs1 : 0 ≤ s) (hs2 : s < 60) :
    time.Date y mo d h mi s 0 =
      ⟨(daysSinceEpoch y + (daysBefore (mo - 1)
          + (if isLeap y = true ∧ mo ≥ 3 then 1 else 0) + (d - 1))) * 86400
        + (h * 3600 + mi * 60 + s), 0, .UTC⟩ := by
  have n1 := norm_id y (mo - 1) 12 (by omega) (by omega)
  have n2 := norm_id s 0 1000000000 (by omega) (by omega)
  have n3 := norm_id mi s 60 hs1 hs2
  have n4 := norm_id h mi 60 hmi1 hmi2
  have n5 := norm_id d h 24 hh1 hh2
  simp only [time.Date, n1, n2, n3, n4, n5, sub_add_cancel, add_sub_cancel_right]
  by_cases hl : isLeap y = true ∧ mo ≥ 3
  · simp only [if_pos hl, Time.mk.injEq, and_true]; ring
  · simp only [if_neg hl, Time.mk.injEq, and_true]; ring

/-- Reading back what `Date` was given: for a valid calendar date and clock
time the civil reading of `Date y mo d h mi s` is `y mo d h mi s` again. -/
theorem civil_Date (zone : Int → Int) (y mo d h mi s : Int) (hmo1 : 1 ≤ mo) (hmo2 : mo ≤ 12)
    (hd1 : 1 ≤ d) (hd2 : d ≤ daysIn mo y)
    (hh1 : 0 ≤ h) (hh2 : h < 24) (hmi1 : 0 ≤ mi) (hmi2 : mi < 60)
    (hs1 : 0 ≤ s) (hs2 : s < 60) :
    (time.Date y mo d h mi s 0).civil zone = ⟨y, mo, d, h, mi, s⟩ := by
  rw [Date_eq y mo d h mi s hmo1 hmo2 hh1 hh2 hmi1 hmi2 hs1 hs2]
  have hb := yday_bounds y mo d hmo1 hmo2 hd1 hd2
  have hy := absYear_daysSinceEpoch y _ hb.1 hb.2
  have hm := monthDay_yday y mo d hmo1 hmo2 hd1 hd2
  generalize daysBefore (mo - 1) + (if isLeap y = true ∧ mo ≥ 3 then 1 else 0) + (d - 1)
    = yd at hy hm
  generalize daysSinceEpoch y + yd = days at hy
  have hq : (days * 86400 + (h * 3600 + mi * 60 + s)) / 86400 = days := by omega
  have hr : (days * 86400 + (h * 3600 + mi * 60 + s)) % 86400 = h * 3600 + mi * 60 + s := by
    omega
  simp only [Time.civil, Time.abs, hq, hr, hy, hm, Civil.mk.injEq, true_and]
  omega

/-! ## `time.Parse` on strings of digits -/

theorem length_two (l : GoString) (h : l.length = 2) : ∃ a b, l = [a, b] := by
  rcases l with _ | ⟨a, _ | ⟨b, _ | ⟨c, l⟩⟩⟩ <;> simp at h ⊢

theorem length_four (l : GoString) (h : l.length = 4) : ∃ a b c d, l = [a, b, c, d] := by
  rcases l with _ | ⟨a, _ | ⟨b, _ | ⟨c, _ | ⟨d, _ | ⟨e, l⟩⟩⟩⟩⟩ <;> simp at h ⊢

theorem allDigits_two (a b : Nat) (h : allDigits [a, b]) :
    (48 ≤ a ∧ a ≤ 57) ∧ (48 ≤ b ∧ b ≤ 57) :=
  ⟨h a (by simp), h b (by simp)⟩

theorem allDigits_four (a b c d : Nat) (h : allDigits [a, b, c, d]) :
    (48 ≤ a ∧ a ≤ 57) ∧ (48 ≤ b ∧ b ≤ 57) ∧ (48 ≤ c ∧ c ≤ 57) ∧ (48 ≤ d ∧ d ≤ 57) :=
  ⟨h a (by simp), h b (by simp), h c (by simp), h d (by simp)⟩

theorem decimalValue_two (a b : Nat) : decimalValue [a, b] = (a - 48) * 10 + (b - 48) := by
  simp [decimalValue]

theorem decimalValue_four (a b c d : Nat) :
    decimalValue [a, b, c, d]
      = (((a - 48) * 10 + (b - 48)) * 10 + (c - 48)) * 10 + (d - 48) := by
  simp [decimalValue]

/-- `getnum` on two digits followed by anything. -/
theorem getnum_digits (ds rest : GoString) (fixed : Bool) (hl : ds.length = 2)
    (hd : allDigits ds) :
    getnum (ds ++ rest) fixed = some ((decimalValue ds : Int), rest) := by
  obtain ⟨a, b, rfl⟩ := length_two ds hl
  obtain ⟨ha, hb⟩ := allDigits_two a b hd
  simp [getnum, isDigit, ha, hb, decimalValue_two]

theorem leadingInt_go_digits (s : GoString) (x : Nat) (hs : allDigits s)
    (hb : (x + 1) * 10 ^ s.length ≤ 2 ^ 63 / 10) :
    leadingInt.go x s = some (s.foldl (fun acc c => acc * 10 + (c - 48)) x, []) := by
  induction s generalizing x with
  | nil => rfl
  | cons c s ih =>
      have hc := hs c (List.mem_cons_self c s)
      have hs2 : allDigits s := fun d hd => hs d (List.mem_cons_of_mem c hd)
      have hp : 1 ≤ 10 ^ s.length := Nat.one_le_pow _ _ (by norm_num)
      rw [List.length_cons, Nat.pow_succ] at hb
      have hb2 : (x + 1) * 10 ^ s.length * 10 ≤ 2 ^ 63 / 10 := by
        rw [Nat.mul_assoc]; exact hb
      have hx : (x + 1) * 10 ≤ 2 ^ 63 / 10 := by
        calc (x + 1) * 10 = (x + 1) * 1 * 10 := by ring
          _ ≤ (x + 1) * 10 ^ s.length * 10 :=
              Nat.mul_le_mul_right _ (Nat.mul_le_mul_left _ hp)
          _ ≤ 2 ^ 63 / 10 := hb2
      have e1 : x * 10 + c - 48 = x * 10 + (c - 48) := by omega
      have c1 : ¬ (c < 48 ∨ c > 57) := by omega
      have c2 : ¬ (x > 2 ^ 63 / 10) := by omega
      have c3 : ¬ (x * 10 + (c - 48) > 2 ^ 63) := by
        have : (2 : Nat) ^ 63 / 10 ≤ 2 ^ 63 := Nat.div_le_self _ _
        omega
      simp only [leadingInt.go, if_neg c1, if_neg c2, e1, if_neg c3, List.foldl_cons]
      apply ih _ hs2
      calc (x * 10 + (c - 48) + 1) * 10 ^ s.length
          ≤ ((x + 1) * 10) * 10 ^ s.length := Nat.mul_le_mul_right _ (by omega)
        _ = (x + 1) * 10 ^ s.length * 10 := by ring
        _ ≤ 2 ^ 63 / 10 := hb2

/-- `atoi` on four digits. -/
theorem atoi_digits (ds : GoString) (hl : ds.length = 4) (hd : allDigits ds) :
    atoi ds = some (decimalValue ds : Int) := by
  have hg := leadingInt_go_digits ds 0 hd (by rw [hl]; norm_num)
  obtain ⟨a, b, c, d, rfl⟩ := length_four ds hl
  obtain ⟨ha, _, _, _⟩ := allDigits_four a b c d hd
  have h1 : ¬ ([a, b, c, d].length > 0 ∧ ([a, b, c, d].getD 0 0 = 45
      ∨ [a, b, c, d].getD 0 0 = 43)) := by
    simp only [List.getD_cons_zero]; omega
  have h2 : ¬ ([a, b, c, d].length > 0 ∧ [a, b, c, d].getD 0 0 = 45) := by
    simp only [List.getD_cons_zero]; omega
  simp only [atoi, if_neg h1, leadingInt, hg, decide_eq_false h2]
  simp [decimalValue]

/-- The year element on four digits followed by anything. -/
theorem parseStd_year (ds rest : GoString) (f : Fields) (hl : ds.length = 4)
    (hd : allDigits ds) :
    parseStd .stdLongYear (ds ++ rest) f
      = some ({ f with year := (decimalValue ds : Int) }, rest) := by
  have ht : (ds ++ rest).take 4 = ds := by
    rw [← hl]; exact List.take_left' rfl
  have hdr : (ds ++ rest).drop 4 = rest := by
    rw [← hl]; exact List.drop_left' rfl
  have hid : isDigit (ds ++ rest) 0 = true := by
    obtain ⟨a, b, c, d, rfl⟩ := length_four ds hl
    obtain ⟨ha, _, _, _⟩ := allDigits_four a b c d hd
    simp [isDigit, ha]
  have hlen : ¬ ((ds ++ rest).length < 4 ∨ (!isDigit (ds ++ rest) 0) = true) := by
    simp only [List.length_append, hl, hid]; simp
  simp only [parseStd, if_neg hlen, ht, hdr, atoi_digits ds hl hd]

theorem parseStd_month (ds rest : GoString) (f : Fields) (hl : ds.length = 2)
    (hd : allDigits ds) (h1 : 1 ≤ decimalValue ds) (h2 : decimalValue ds ≤ 12) :
    parseStd .stdZeroMonth (ds ++ rest) f
      = some ({ f with month := (decimalValue ds : Int) }, rest) := by
  have hr : ¬ (((decimalValue ds : Nat) : Int) ≤ 0 ∨ (12 : Int) < (decimalValue ds : Nat)) := by
    omega
  simp only [parseStd, getnum_digits ds rest true hl hd, if_neg hr]

theorem parseStd_day (ds rest : GoString) (f : Fields) (hl : ds.length = 2)
    (hd : allDigits ds) :
    parseStd .stdZeroDay (ds ++ rest) f
      = some ({ f with day := (decimalValue ds : Int) }, rest) := by
  simp only [parseStd, getnum_digits ds rest true hl hd]

theorem parseStd_hour (ds rest : GoString) (f : Fields) (hl : ds.length = 2)
    (hd : allDigits ds) (h2 : decimalValue ds ≤ 23) :
    parseStd .stdHour (ds ++ rest) f
      = some ({ f with hour := (decimalValue ds : Int) }, rest) := by
  have hr : ¬ (((decimalValue ds : Nat) : Int) < 0 ∨ (24 : Int) ≤ (decimalValue ds : Nat)) := by
    omega
  simp only [parseStd, getnum_digits ds rest false hl hd, if_neg hr]

theorem parseStd_minute (ds rest : GoString) (f : Fields) (hl : ds.length = 2)
    (hd : allDigits ds) (h2 : decimalValue ds ≤ 59) :
    parseStd .stdZeroMinute (ds ++ rest) f
      = some ({ f with min := (decimalValue ds : Int) }, rest) := by
  have hr : ¬ (((decimalValue ds : Nat) : Int) < 0 ∨ (60 : Int) ≤ (decimalValue ds : Nat)) := by
    omega
  simp only [parseStd, getnum_digits ds rest true hl hd, if_neg hr]

/-- The second element on two digits at the end of the value: there is no
fractional second to read. -/
theorem parseStd_second (ds : GoString) (f : Fields) (hl : ds.length = 2)
    (hd : allDigits ds) (h2 : decimalValue ds ≤ 59) :
    parseStd .stdZeroSecond ds f
      = some ({ f with sec := (decimalValue ds : Int) }, []) := by
  have hr : ¬ (((decimalValue ds : Nat) : Int) < 0 ∨ (60 : Int) ≤ (decimalValue ds : Nat)) := by
    omega
  have hg := getnum_digits ds [] true hl hd
  rw [List.append_nil] at hg
  have hfrac : ¬ (([] : GoString).length ≥ 2 ∧ commaOrPeriod (([] : GoString).getD 0 0) = true
      ∧ isDigit ([] : GoString) 1 = true) := by simp
  simp only [parseStd, hg, if_neg hr, if_neg hfrac]

theorem cutspace_digits (ds rest : GoString) (hl : ds.length = 2) (hd : allDigits ds) :
    cutspace (ds ++ rest) = ds ++ rest := by
  obtain ⟨a, b, rfl⟩ := length_two ds hl
  obtain ⟨ha, _⟩ := allDigits_two a b hd
  have h32 : ¬ a = 32 := by omega
  show cutspace (a :: (b :: rest)) = a :: (b :: rest)
  simp only [cutspace, if_neg h32]

theorem cutspace_length_le (s : GoString) : (cutspace s).length ≤ s.length := by
  induction s with
  | nil => exact le_refl _
  | cons c s ih =>
      by_cases hc : c = 32
      · simp only [cutspace, if_pos hc, List.length_cons]; omega
      · simp only [cutspace, if_neg hc]; exact le_refl _

/-- The loop of `skip` does not depend on its iteration bound once the bound
is at least the length of the layout text: `skip` never stops early. -/
theorem skip_loop_bound (n m : Nat) (value pre : GoString) (hn : pre.length ≤ n)
    (hm : pre.length ≤ m) : skip.loop n value pre = skip.loop m value pre := by
  induction n generalizing m value pre with
  | zero =>
      have hp : pre = [] := List.length_eq_zero.mp (by omega)
      subst hp
      cases m <;> rfl
  | succ n ih =>
      cases pre with
      | nil => cases m <;> rfl
      | cons p rest =>
          cases m with
          | zero => simp at hm
          | succ m =>
              simp only [List.length_cons] at hn hm
              simp only [skip.loop]
              by_cases hp : p = 32
              · have hc : (cutspace (p :: rest)).length ≤ rest.length := by
                  simp only [cutspace, if_pos hp]; exact cutspace_length_le rest
                rw [if_pos hp, if_pos hp]
                split
                · rfl
                · exact ih m _ _ (by omega) (by omega)
              · rw [if_neg hp, if_neg hp]
                split
                · rfl
                · exact ih m _ _ (by omega) (by omega)

/-- Skipping the layout text `" "` before two digits. -/
theorem skip_space (ds rest : GoString) (hl : ds.length = 2) (hd : allDigits ds) :
    skip (32 :: (ds ++ rest)) [32] = some (ds ++ rest) := by
  have hc := cutspace_digits ds rest hl hd
  simp [skip, skip.loop, cutspace, hc]

/-- Skipping one byte of layout text other than a space. -/
theorem skip_byte (p : Nat) (rest : GoString) (hp : p ≠ 32) :
    skip (p :: rest) [p] = some rest := by
  simp [skip, skip.loop, hp]

theorem isLeap_natCast (y : Nat) : isLeap (y : Int) = leapYear y := by
  simp only [isLeap, leapYear]
  have e4 : (((y : Int) % 4 == 0) = (y % 4 == 0)) := by
    rw [Bool.eq_iff_iff]; simp only [beq_iff_eq]; omega
  have e100 : (((y : Int) % 100 != 0) = (y % 100 != 0)) := by
    rw [Bool.eq_iff_iff]; simp only [bne_iff_ne, ne_eq]; omega
  have e400 : (((y : Int) % 400 == 0) = (y % 400 == 0)) := by
    rw [Bool.eq_iff_iff]; simp only [beq_iff_eq]; omega
  rw [e4, e100, e400]

/-- Go `daysIn` agrees with the length of the month. -/
theorem daysIn_natCast (y m : Nat) (h1 : 1 ≤ m) (h2 : m ≤ 12) :
    daysIn (m : Int) (y : Int) = (daysInMonth y m : Int) := by
  obtain ⟨t0, t1, t2, t3, t4, t5, t6, t7, t8, t9, t10, t11, t12⟩ := daysBefore_table
  have hcases : m = 1 ∨ m = 2 ∨ m = 3 ∨ m = 4 ∨ m = 5 ∨ m = 6 ∨ m = 7 ∨ m = 8
      ∨ m = 9 ∨ m = 10 ∨ m = 11 ∨ m = 12 := by omega
  simp only [daysIn, daysInMonth, isLeap_natCast]
  rcases hcases with h | h | h | h | h | h | h | h | h | h | h | h <;> subst h <;>
    cases leapYear y <;>
    norm_num [t0, t1, t2, t3, t4, t5, t6, t7, t8, t9, t10, t11, t12]

/-- The final check of `Parse` and the call of `Date`, for valid fields. -/
theorem Parse_finish (layout : List Chunk) (value : GoString) (y m d h mi s : Nat)
    (hloop : time.Parse.loop layout value ⟨0, -1, -1, 0, 0, 0, 0⟩
      = some ⟨(y : Int), (m : Int), (d : Int), (h : Int), (mi : Int), (s : Int), 0⟩)
    (hv : validDate y m d) :
    time.Parse layout value = some (time.Date y m d h mi s 0) := by
  obtain ⟨hm1, hm2, hd1, hd2⟩ := hv
  have hdi := daysIn_natCast y m hm1 hm2
  have c1 : ¬ ((m : Int) < 0) := by omega
  have c2 : ¬ ((d : Int) < 0) := by omega
  have c3 : ¬ ((d : Int) < 1 ∨ (d : Int) > daysIn (m : Int) (y : Int)) := by
    rw [hdi]; omega
  simp only [time.Parse, hloop, if_neg c1, if_neg c2, if_neg c3]

/-- Layout `"20060102150405"` on the six digit groups of a valid date-time. -/
theorem Parse_compact (yy mo dd hh mi ss : GoString) (hg : digitGroups yy mo dd hh mi ss)
    (hv : validDateTime yy mo dd hh mi ss) :
    time.Parse layoutCompact (yy ++ (mo ++ (dd ++ (hh ++ (mi ++ ss)))))
      = some (dateTimeOf yy mo dd hh mi ss) := by
  obtain ⟨⟨ly, dy⟩, ⟨lm, dm⟩, ⟨ld, ddg⟩, ⟨lh, dh⟩, ⟨li, di⟩, ⟨ls, ds⟩⟩ := hg
  obtain ⟨hdate, hh23, hi59, hs59⟩ := hv
  apply Parse_finish _ _ _ _ _ _ _ _ _ hdate
  simp only [layoutCompact, time.Parse.loop, parseStd_year yy _ _ ly dy,
    parseStd_month mo _ _ lm dm hdate.1 hdate.2.1, parseStd_day dd _ _ ld ddg,
    parseStd_hour hh _ _ lh dh hh23, parseStd_minute mi _ _ li di hi59,
    parseStd_second ss _ ls ds hs59]
  simp

/-- Layout `"20060102 150405"` on the digit groups of a valid date-time, one
space between date and time. -/
theorem Parse_dateTime (yy mo dd hh mi ss : GoString) (hg : digitGroups yy mo dd hh mi ss)
    (hv : validDateTime yy mo dd hh mi ss) :
    time.Parse layoutDateTime (yy ++ (mo ++ (dd ++ (32 :: (hh ++ (mi ++ ss))))))
      = some (dateTimeOf yy mo dd hh mi ss) := by
  obtain ⟨⟨ly, dy⟩, ⟨lm, dm⟩, ⟨ld, ddg⟩, ⟨lh, dh⟩, ⟨li, di⟩, ⟨ls, ds⟩⟩ := hg
  obtain ⟨hdate, hh23, hi59, hs59⟩ := hv
  apply Parse_finish _ _ _ _ _ _ _ _ _ hdate
  simp only [layoutDateTime, time.Parse.loop, parseStd_year yy _ _ ly dy,
    parseStd_month mo _ _ lm dm hdate.1 hdate.2.1, parseStd_day dd _ _ ld ddg,
    skip_space hh _ lh dh,
    parseStd_hour hh _ _ lh dh hh23, parseStd_minute mi _ _ li di hi59,
    parseStd_second ss _ ls ds hs59]
  simp

/-- Layout `"2006-01-02_150405"` on the digit groups of a valid date-time
with the separators of the layout. -/
theorem Parse_dashed (yy mo dd hh mi ss : GoString) (hg : digitGroups yy mo dd hh mi ss)
    (hv : validDateTime yy mo dd hh mi ss) :
    time.Parse layoutDashed
        (yy ++ (45 :: (mo ++ (45 :: (dd ++ (95 :: (hh ++ (mi ++ ss))))))))
      = some (dateTimeOf yy mo dd hh mi ss) := by
  obtain ⟨⟨ly, dy⟩, ⟨lm, dm⟩, ⟨ld, ddg⟩, ⟨lh, dh⟩, ⟨li, di⟩, ⟨ls, ds⟩⟩ := hg
  obtain ⟨hdate, hh23, hi59, hs59⟩ := hv
  apply Parse_finish _ _ _ _ _ _ _ _ _ hdate
  simp only [layoutDashed, time.Parse.loop, parseStd_year yy _ _ ly dy,
    skip_byte 45 _ (by decide), skip_byte 95 _ (by decide),
    parseStd_month mo _ _ lm dm hdate.1 hdate.2.1, parseStd_day dd _ _ ld ddg,
    parseStd_hour hh _ _ lh dh hh23, parseStd_minute mi _ _ li di hi59,
    parseStd_second ss _ ls ds hs59]
  simp

/-- The civil reading of the time that valid digit groups denote. -/
theorem civil_dateTimeOf (zone : Int → Int) (yy mo dd hh mi ss : GoString)
    (hv : validDateTime yy mo dd hh mi ss) :
    (dateTimeOf yy mo dd hh mi ss).civil zone = civilOf yy mo dd hh mi ss := by
  obtain ⟨⟨hm1, hm2, hd1, hd2⟩, hh23, hi59, hs59⟩ := hv
  have hdi := daysIn_natCast (decimalValue yy) (decimalValue mo) hm1 hm2
  exact civil_Date zone _ _ _ _ _ _ (by omega) (by omega) (by omega) (by rw [hdi]; omega)
    (by omega) (by omega) (by omega) (by omega) (by omega) (by omega)

theorem appendInt_two (ds : GoString) (hl : ds.length = 2) (hd : allDigits ds) :
    appendInt (decimalValue ds : Int) 2 = ds := by
  obtain ⟨a, b, rfl⟩ := length_two ds hl
  obtain ⟨ha, hb⟩ := allDigits_two a b hd
  have hlt : decimalValue [a, b] < 100 := by rw [decimalValue_two]; omega
  have hneg : ¬ ((decimalValue [a, b] : Int) < 0) := by omega
  simp only [appendInt, Int.natAbs_ofNat, if_neg hneg, hlt, and_self, if_true,
    List.nil_append]
  rw [decimalValue_two]
  congr 1
  · omega
  · congr 1; omega

theorem appendInt_four_lt (n : Nat) (hlt : n < 10000) :
    appendInt (n : Int) 4
      = [48 + n / 1000, 48 + n / 100 % 10, 48 + n / 10 % 10, 48 + n % 10] := by
  have hneg : ¬ ((n : Int) < 0) := by omega
  have h42 : ¬ ((4 : Nat) = 2 ∧ n < 100) := by omega
  have h44 : True ∧ n < 10000 := ⟨trivial, hlt⟩
  simp only [appendInt, Int.natAbs_ofNat, if_neg hneg, if_neg h42, if_pos h44,
    List.nil_append]

theorem appendInt_four (ds : GoString) (hl : ds.length = 4) (hd : allDigits ds) :
    appendInt (decimalValue ds : Int) 4 = ds := by
  obtain ⟨a, b, c, d, rfl⟩ := length_four ds hl
  obtain ⟨ha, hb, hc, hdd⟩ := allDigits_four a b c d hd
  have hv := decimalValue_four a b c d
  generalize decimalValue [a, b, c, d] = n at hv
  have hlt : n < 10000 := by omega
  rw [appendInt_four_lt n hlt]
  have e1 : 48 + n / 1000 = a := by omega
  have e2 : 48 + n / 100 % 10 = b := by omega
  have e3 : 48 + n / 10 % 10 = c := by omega
  have e4 : 48 + n % 10 = d := by omega
  rw [e1, e2, e3, e4]

/-- Formatting with layout `"20060102150405"` gives the digit groups back. -/
theorem Format_compact (zone : Int → Int) (yy mo dd hh mi ss : GoString)
    (hg : digitGroups yy mo dd hh mi ss) (hv : validDateTime yy mo dd hh mi ss) :
    (dateTimeOf yy mo dd hh mi ss).Format zone layoutCompact
      = yy ++ (mo ++ (dd ++ (hh ++ (mi ++ ss)))) := by
  obtain ⟨⟨ly, dy⟩, ⟨lm, dm⟩, ⟨ld, ddg⟩, ⟨lh, dh⟩, ⟨li, di⟩, ⟨ls, ds⟩⟩ := hg
  simp only [Time.Format, layoutCompact, List.flatMap_cons, List.flatMap_nil, formatStd,
    civil_dateTimeOf zone yy mo dd hh mi ss hv, civilOf, appendInt_four yy ly dy,
    appendInt_two mo lm dm, appendInt_two dd ld ddg, appendInt_two hh lh dh,
    appendInt_two mi li di, appendInt_two ss ls ds, List.append_nil]

/-! ## The loop body on the three calendar grammars -/

theorem goString_space : goString " " = [32] := by decide

theorem goString_dash : goString "-" = [45] := by decide

theorem goString_midnight : goString "_000000" = 95 :: ([48, 48] ++ ([48, 48] ++ [48, 48])) := by
  decide

/-- The loop body at a token of length 14 or 17 that begins with the digit
groups of a valid date-time. -/
theorem body_compact (parts : List GoString) (i : Nat) (yy mo dd hh mi ss : GoString)
    (hlen : (parts.getD i []).length = 14 ∨ (parts.getD i []).length = 17)
    (htok : (parts.getD i []).take 14 = yy ++ mo ++ dd ++ hh ++ mi ++ ss)
    (hg : digitGroups yy mo dd hh mi ss) (hv : validDateTime yy mo dd hh mi ss) :
    readFileNameTime.body parts i = some (dateTimeOf yy mo dd hh mi ss) := by
  rw [body_eq, if_neg (by omega), if_pos (by omega), htok]
  simp only [List.append_assoc]
  exact Parse_compact yy mo dd hh mi ss hg hv

/-- The loop body at a date token followed by a time token that together
hold the digit groups of a valid date-time. -/
theorem body_pair (parts : List GoString) (i : Nat) (yy mo dd hh mi ss : GoString)
    (hi : i + 1 < parts.length)
    (hdate : parts.getD i [] = yy ++ mo ++ dd)
    (htime : parts.getD (i + 1) [] = hh ++ mi ++ ss)
    (hg : digitGroups yy mo dd hh mi ss) (hv : validDateTime yy mo dd hh mi ss) :
    readFileNameTime.body parts i = some (dateTimeOf yy mo dd hh mi ss) := by
  have hg2 := hg
  obtain ⟨⟨ly, _⟩, ⟨lm, _⟩, ⟨ld, _⟩, ⟨lh, _⟩, ⟨li, _⟩, ⟨ls, _⟩⟩ := hg2
  have h8 : (parts.getD i []).length = 8 := by
    rw [hdate]; simp only [List.length_append]; omega
  have h6 : (parts.getD (i + 1) []).length = 6 := by
    rw [htime]; simp only [List.length_append]; omega
  rw [body_eq, if_neg (by omega), if_neg (by omega), if_pos ⟨h8, hi, h6⟩, hdate, htime,
    goString_space]
  simp only [List.append_assoc, List.singleton_append]
  exact Parse_dateTime yy mo dd hh mi ss hg hv

theorem digitGroups_midnight (yy mo dd : GoString) (hy : yy.length = 4 ∧ allDigits yy)
    (hm : mo.length = 2 ∧ allDigits mo) (hd : dd.length = 2 ∧ allDigits dd) :
    digitGroups yy mo dd [48, 48] [48, 48] [48, 48] :=
  ⟨hy, hm, hd, by decide, by decide, by decide⟩

theorem dateTimeOf_midnight (yy mo dd : GoString) :
    dateTimeOf yy mo dd [48, 48] [48, 48] [48, 48]
      = time.Date (decimalValue yy) (decimalValue mo) (decimalValue dd) 0 0 0 0 := by
  have h0 : decimalValue [48, 48] = 0 := by decide
  simp only [dateTimeOf, h0, Nat.cast_zero]

/-- The loop body at a year token followed by a month token and a day token
that hold a valid calendar date. -/
theorem body_triple (parts : List GoString) (i : Nat) (yy mo dd : GoString)
    (hi : i + 2 < parts.length)
    (hyear : parts.getD i [] = yy) (hmonth : parts.getD (i + 1) [] = mo)
    (hday : parts.getD (i + 2) [] = dd)
    (hy : yy.length = 4 ∧ allDigits yy) (hm : mo.length = 2 ∧ allDigits mo)
    (hd : dd.length = 2 ∧ allDigits dd)
    (hv : validDate (decimalValue yy) (decimalValue mo) (decimalValue dd)) :
    readFileNameTime.body parts i
      = some (time.Date (decimalValue yy) (decimalValue mo) (decimalValue dd) 0 0 0 0) := by
  have h4 : (parts.getD i []).length = 4 := by rw [hyear]; exact hy.1
  have h2 : (parts.getD (i + 1) []).length = 2 := by rw [hmonth]; exact hm.1
  have h2b : (parts.getD (i + 2) []).length = 2 := by rw [hday]; exact hd.1
  rw [body_eq, if_neg (by omega), if_neg (by omega), if_neg (by omega),
    if_pos ⟨h4, hi, h2, h2b⟩, hyear, hmonth, hday, goString_dash, goString_midnight]
  simp only [List.append_assoc, List.singleton_append]
  rw [← dateTimeOf_midnight]
  exact Parse_dashed yy mo dd [48, 48] [48, 48] [48, 48] (digitGroups_midnight yy mo dd hy hm hd)
    ⟨hv, by decide⟩

theorem readFileNameTime_of_first (fileName : GoString) (i : Nat) (t : Time)
    (hi : i < (fileNameParts fileName).length)
    (hbody : readFileNameTime.body (fileNameParts fileName) i = some t)
    (hleft : noMatchBefore (fileNameParts fileName) i) :
    readFileNameTime fileName = (t, none) := by
  have hs := scan_eq_some_of_first _ i t hi hbody (noMatchBefore_body _ i hleft)
  simp only [readFileNameTime, hs]

/-! ## The extension and the run-time checks -/

theorem Ext_loop_length (path : GoString) (n : Nat) :
    (filepath.Ext.loop path n).length ≤ path.length := by
  induction n with
  | zero => simp [filepath.Ext.loop]
  | succ n ih =>
      simp only [filepath.Ext.loop]
      split
      · simp
      · split
        · simp only [List.length_drop]; omega
        · exact ih

/-- The extension is never longer than the path. -/
theorem Ext_length (path : GoString) : (filepath.Ext path).length ≤ path.length :=
  Ext_loop_length path path.length

theorem Ext_loop_append (s e : GoString) (he : ∀ c ∈ e, c ≠ 46 ∧ c ≠ 47) (k : Nat)
    (hk : k ≤ e.length) :
    filepath.Ext.loop (s ++ 46 :: e) (s.length + 1 + k) = 46 :: e := by
  induction k with
  | zero =>
      have hg : (s ++ 46 :: e).getD s.length 0 = 46 := by
        rw [List.getD_append_right _ _ _ _ (le_refl _)]; simp
      have h47 : ¬ ((46 : Nat) = 47) := by decide
      simp only [Nat.add_zero, filepath.Ext.loop, hg, if_neg h47, if_true,
        List.drop_left]
  | succ k ih =>
      have hlt : k < e.length := by omega
      have hg : (s ++ 46 :: e).getD (s.length + 1 + k) 0 = e[k] := by
        rw [List.getD_append_right _ _ _ _ (by omega)]
        have e1 : s.length + 1 + k - s.length = k + 1 := by omega
        rw [e1, List.getD_cons_succ, List.getD_eq_getElem _ _ hlt]
      have hc := he e[k] (List.getElem_mem hlt)
      have e2 : s.length + 1 + (k + 1) = (s.length + 1 + k) + 1 := by omega
      rw [e2]
      simp only [filepath.Ext.loop, hg, if_neg hc.2, if_neg hc.1]
      exact ih (by omega)

/-- The extension of `s.e` is `.e` when `e` has no dot and no separator. -/
theorem Ext_append (s e : GoString) (he : ∀ c ∈ e, c ≠ 46 ∧ c ≠ 47) :
    filepath.Ext (s ++ 46 :: e) = 46 :: e := by
  have h := Ext_loop_append s e he e.length (le_refl _)
  have hl : (s ++ 46 :: e).length = s.length + 1 + e.length := by
    simp only [List.length_append, List.length_cons]; omega
  rw [filepath.Ext, hl]
  exact h

/-- The stem of `s.e` is `s` when `e` has no dot and no separator. -/
theorem fileNameStem_append (s e : GoString) (he : ∀ c ∈ e, c ≠ 46 ∧ c ≠ 47) :
    fileNameStem (s ++ 46 :: e) = s := by
  have hl : (s ++ 46 :: e).length - (46 :: e).length = s.length := by
    simp only [List.length_append, List.length_cons]; omega
  rw [fileNameStem, Ext_append s e he, hl, List.take_left]

theorem sliceTo_ok (s : GoString) (hi : Int) (h0 : 0 ≤ hi) (h : hi ≤ (s.length : Int)) :
    sliceTo s hi = some (s.take hi.toNat) := by
  simp only [sliceTo, if_pos (And.intro h0 h)]

theorem sliceFrom_ok (s : GoString) (lo : Int) (h0 : 0 ≤ lo) (h : lo ≤ (s.length : Int)) :
    sliceFrom s lo = some (s.drop lo.toNat) := by
  simp only [sliceFrom, if_pos (And.intro h0 h)]

theorem indexAt_one (l : List GoString) (i : Nat) (h : i + 1 < l.length) :
    indexAt l ((i : Int) + 1) = some (l.getD (i + 1) []) := by
  have hc : 0 ≤ (i : Int) + 1 ∧ (i : Int) + 1 < (l.length : Int) := ⟨by omega, by omega⟩
  have ht : ((i : Int) + 1).toNat = i + 1 := by omega
  simp only [indexAt, if_pos hc, ht]

theorem indexAt_two (l : List GoString) (i : Nat) (h : i + 2 < l.length) :
    indexAt l ((i : Int) + 2) = some (l.getD (i + 2) []) := by
  have hc : 0 ≤ (i : Int) + 2 ∧ (i : Int) + 2 < (l.length : Int) := ⟨by omega, by omega⟩
  have ht : ((i : Int) + 2).toNat = i + 2 := by omega
  simp only [indexAt, if_pos hc, ht]

/-- The first condition of the loop body, checked: the slice `part[:8]` is
only taken from a token of length 21. -/
theorem epochCond_ok (part : GoString) :
    (if part.length = 13 then some true
      else if part.length = 21 then
        (sliceTo part 8).map (fun p => decide (p = goString "mmexport"))
      else some false)
    = some (decide (part.length = 13
        ∨ (part.length = 21 ∧ part.take 8 = goString "mmexport"))) := by
  by_cases h13 : part.length = 13
  · rw [if_pos h13]; simp [h13]
  · rw [if_neg h13]
    by_cases h21 : part.length = 21
    · rw [if_pos h21, sliceTo_ok part 8 (by omega) (by omega)]
      simp [h21]
    · rw [if_neg h21]; simp [h13, h21]

/-- The third condition of the loop body, checked: `fileNameParts[i+1]` is
only read when `i < len(fileNameParts)-1`. -/
theorem pairCond_ok (parts : List GoString) (i : Nat) :
    (if (parts.getD i []).length = 8 ∧ (i : Int) < (parts.length : Int) - 1 then
        (indexAt parts ((i : Int) + 1)).map (fun next => decide (next.length = 6))
      else some false)
    = some (decide ((parts.getD i []).length = 8 ∧ i + 1 < parts.length
        ∧ (parts.getD (i + 1) []).length = 6)) := by
  by_cases h : (parts.getD i []).length = 8 ∧ (i : Int) < (parts.length : Int) - 1
  · have hi : i + 1 < parts.length := by omega
    rw [if_pos h, indexAt_one parts i hi]
    simp only [Option.map_some', h.1, hi, true_and]
  · rw [if_neg h]
    have h2 : ¬ ((parts.getD i []).length = 8 ∧ i + 1 < parts.length
        ∧ (parts.getD (i + 1) []).length = 6) := by
      intro hc; exact h ⟨hc.1, by omega⟩
    rw [decide_eq_false h2]

/-- The fourth condition of the loop body, checked: `fileNameParts[i+1]` and
`fileNameParts[i+2]` are only read when `i < len(fileNameParts)-2`. -/
theorem tripleCond_ok (parts : List GoString) (i : Nat) :
    (if (parts.getD i []).length = 4 ∧ (i : Int) < (parts.length : Int) - 2 then
        (indexAt parts ((i : Int) + 1)).bind fun next =>
        if next.length = 2 then
          (indexAt parts ((i : Int) + 2)).map (fun next2 => decide (next2.length = 2))
        else some false
      else some false)
    = some (decide ((parts.getD i []).length = 4 ∧ i + 2 < parts.length
        ∧ (parts.getD (i + 1) []).length = 2 ∧ (parts.getD (i + 2) []).length = 2)) := by
  by_cases h : (parts.getD i []).length = 4 ∧ (i : Int) < (parts.length : Int) - 2
  · have hi : i + 2 < parts.length := by omega
    rw [if_pos h, indexAt_one parts i (by omega), indexAt_two parts i hi]
    by_cases h2 : (parts.getD (i + 1) []).length = 2
    · simp only [Option.some_bind, if_pos h2, Option.map_some', h.1, hi, h2, true_and,
        if_true]
    · have h3 : ¬ ((parts.getD i []).length = 4 ∧ i + 2 < parts.length
          ∧ (parts.getD (i + 1) []).length = 2 ∧ (parts.getD (i + 2) []).length = 2) := by
        intro hc; exact h2 hc.2.2.1
      simp only [Option.some_bind, if_neg h2]
      rw [decide_eq_false h3]
  · rw [if_neg h]
    have h2 : ¬ ((parts.getD i []).length = 4 ∧ i + 2 < parts.length
        ∧ (parts.getD (i + 1) []).length = 2 ∧ (parts.getD (i + 2) []).length = 2) := by
      intro hc; exact h ⟨hc.1, by omega⟩
    rw [decide_eq_false h2]

/-- No slice or index expression of the loop body goes out of range: the
checked body gives what the body gives. -/
theorem bodyChecked_eq (parts : List GoString) (i : Nat) :
    readFileNameTime.bodyChecked parts i = some (readFileNameTime.body parts i) := by
  rw [body_eq]
  simp only [readFileNameTime.bodyChecked, epochCond_ok, pairCond_ok, tripleCond_ok,
    Option.some_bind, decide_eq_true_eq]
  by_cases h1 : (parts.getD i []).length = 13
      ∨ ((parts.getD i []).length = 21 ∧ (parts.getD i []).take 8 = goString "mmexport")
  · rw [if_pos h1, if_pos h1]
    by_cases h21 : (parts.getD i []).length = 21
    · rw [if_pos h21, if_pos h21, sliceFrom_ok _ 8 (by omega) (by omega)]
      have e8 : (8 : Int).toNat = 8 := rfl
      simp only [Option.some_bind, e8]
      generalize strconv.ParseInt ((parts.getD i []).drop 8) = r
      cases r <;> rfl
    · rw [if_neg h21, if_neg h21]
      simp only [Option.some_bind]
      generalize strconv.ParseInt (parts.getD i []) = r
      cases r <;> rfl
  · rw [if_neg h1, if_neg h1]
    by_cases h2 : (parts.getD i []).length = 17 ∨ (parts.getD i []).length = 14
    · rw [if_pos h2, if_pos h2, sliceTo_ok _ 14 (by omega) (by omega)]
      rfl
    · rw [if_neg h2, if_neg h2]
      by_cases h3 : (parts.getD i []).length = 8 ∧ i + 1 < parts.length
          ∧ (parts.getD (i + 1) []).length = 6
      · rw [if_pos h3, if_pos h3, indexAt_one parts i h3.2.1]
        rfl
      · rw [if_neg h3, if_neg h3]
        by_cases h4 : (parts.getD i []).length = 4 ∧ i + 2 < parts.length
            ∧ (parts.getD (i + 1) []).length = 2 ∧ (parts.getD (i + 2) []).length = 2
        · rw [if_pos h4, if_pos h4, indexAt_one parts i (by omega),
            indexAt_two parts i h4.2.1]
          rfl
        · rw [if_neg h4, if_neg h4]

theorem scanChecked_eq (parts : List GoString) (l : List Nat) :
    readFileNameTime.scanChecked parts l
      = some (l.findSome? (readFileNameTime.body parts)) := by
  induction l with
  | nil => rfl
  | cons i rest ih =>
      simp only [readFileNameTime.scanChecked, bodyChecked_eq, List.findSome?_cons]
      cases readFileNameTime.body parts i with
      | none => exact ih
      | some tm => rfl

/-- No slice or index expression of `readFileNameTime` goes out of range:
the checked function gives what the function gives. -/
theorem checked_eq (fileName : GoString) :
    readFileNameTime.checked fileName = some (readFileNameTime fileName) := by
  have hs : sliceTo fileName ((fileName.length : Int) - ((filepath.Ext fileName).length : Int))
      = some (fileNameStem fileName) := by
    have hle := Ext_length fileName
    have e1 : (fileName.length : Int) - ((filepath.Ext fileName).length : Int)
        = ((fileName.length - (filepath.Ext fileName).length : Nat) : Int) := by omega
    rw [e1, sliceTo_ok _ _ (by omega) (by omega)]
    simp only [Int.toNat_ofNat]
    rfl
  simp only [readFileNameTime.checked, hs, Option.some_bind, scanChecked_eq]
  simp only [readFileNameTime, readFileNameTime.scan, fileNameParts]
  cases (List.range (SplitAny (filepath.Base (fileNameStem fileName))
    (goString "_.- ")).length).findSome?
    (readFileNameTime.body (SplitAny (filepath.Base (fileNameStem fileName))
      (goString "_.- "))) <;> rfl

/-! ## The metadata reader, the allow-list and the move step -/

/-- The loop of `readExifTime` decides on the first entry with the tag name
`DateTimeOriginal`. -/
theorem readExifTime_loop_find (ets : List ExifTag) :
    readExifTime.loop ets =
      match ets.find? isDateTimeOriginal with
      | none => some (Time.zero, some Error.exifMissing)
      | some et =>
          match et.Value with
          | .other => none
          | .str v =>
              match time.Parse layoutExif v with
              | none => some (Time.zero, some Error.exifFormat)
              | some tm => some (tm, none) := by
  induction ets with
  | nil => rfl
  | cons et rest ih =>
      by_cases h : et.TagName = goString "DateTimeOriginal"
      · have hb : isDateTimeOriginal et = true := by
          simp only [isDateTimeOriginal, h, beq_self_eq_true]
        simp only [readExifTime.loop, if_pos h, List.find?_cons, hb]
      · have hb : isDateTimeOriginal et = false := by
          simp only [isDateTimeOriginal, beq_eq_false_iff_ne, ne_eq]
          exact h
        simp only [readExifTime.loop, if_neg h, List.find?_cons, hb]
        exact ih

/-- Layout `"2006:01:02 15:04:05"` on the digit groups of a valid date-time
with the separators of the layout. -/
theorem Parse_exif (yy mo dd hh mi ss : GoString) (hg : digitGroups yy mo dd hh mi ss)
    (hv : validDateTime yy mo dd hh mi ss) :
    time.Parse layoutExif
        (yy ++ (58 :: (mo ++ (58 :: (dd ++ (32 :: (hh ++ (58 :: (mi ++ (58 :: ss))))))))))
      = some (dateTimeOf yy mo dd hh mi ss) := by
  obtain ⟨⟨ly, dy⟩, ⟨lm, dm⟩, ⟨ld, ddg⟩, ⟨lh, dh⟩, ⟨li, di⟩, ⟨ls, ds⟩⟩ := hg
  obtain ⟨hdate, hh23, hi59, hs59⟩ := hv
  apply Parse_finish _ _ _ _ _ _ _ _ _ hdate
  simp only [layoutExif, time.Parse.loop, parseStd_year yy _ _ ly dy,
    skip_byte 58 _ (by decide), skip_space hh _ lh dh,
    parseStd_month mo _ _ lm dm hdate.1 hdate.2.1, parseStd_day dd _ _ ld ddg,
    parseStd_hour hh _ _ lh dh hh23, parseStd_minute mi _ _ li di hi59,
    parseStd_second ss _ ls ds hs59]
  simp

theorem mapHasKey_EXTENSIONS (k : GoString) :
    mapHasKey EXTENSIONS k = true ↔ k ∈ allowedExtensions := by
  simp only [mapHasKey, EXTENSIONS, allowedExtensions, List.any_cons, List.any_nil,
    Bool.or_false, Bool.or_eq_true, beq_iff_eq, List.mem_cons, List.mem_singleton]
  constructor
  · rintro (h | h | h | h | h | h | h | h | h | h)
    all_goals simp [← h]
  · rintro (h | h | h | h | h | h | h | h | h | h | h)
    all_goals first | (simp [h]) | (simp at h)

theorem map_lowerByte_of_no_upper (s : GoString)
    (h : s.any (fun c => decide (65 ≤ c ∧ c ≤ 90)) = false) : s.map lowerByte = s := by
  induction s with
  | nil => rfl
  | cons c s ih =>
      simp only [List.any_cons, Bool.or_eq_false_iff, decide_eq_false_iff_not] at h
      simp only [List.map_cons, lowerByte, if_neg h.1, ih h.2]

/-- On an ASCII string `strings.ToLower` is the bytewise lower-casing. -/
theorem ToLower_ascii (unicodeLower : GoString → GoString) (s : GoString) (h : isASCII s) :
    strings.ToLower unicodeLower s = s.map lowerByte := by
  have ha : s.all (fun c => decide (c < 128)) = true := by
    simp only [List.all_eq_true, decide_eq_true_eq]
    exact h
  simp only [strings.ToLower, ha, if_true]
  cases hu : s.any (fun c => decide (65 ≤ c ∧ c ≤ 90)) with
  | true => simp
  | false => simp [map_lowerByte_of_no_upper s hu]

/-- The move step when the destination exists and is another path than the
source: identical content deletes the source and nothing else, different
content halts and changes nothing. -/
theorem moveStep_collision_distinct (fs : FileSystem) (currentFile targetFile c d : GoString)
    (hne : currentFile ≠ targetFile) (hc : fs currentFile = some c)
    (hd : fs targetFile = some d) :
    (c = d → (main.moveStep fs currentFile targetFile).1 = false
        ∧ (main.moveStep fs currentFile targetFile).2 currentFile = none
        ∧ (main.moveStep fs currentFile targetFile).2 targetFile = some d
        ∧ ∀ p, p ≠ currentFile → (main.moveStep fs currentFile targetFile).2 p = fs p)
    ∧ (c ≠ d → main.moveStep fs currentFile targetFile = (true, fs)) := by
  have hst : os.StatOk fs targetFile = true := by simp [os.StatOk, hd]
  have hrm : os.Remove fs currentFile
      = some (fun p => if p = currentFile then none else fs p) := by
    simp [os.Remove, hc]
  constructor
  · intro hcd
    subst hcd
    have hcmp : CompareFiles fs currentFile targetFile = some true := by
      simp [CompareFiles, hc, hd]
    simp only [main.moveStep, hst, if_true, hcmp, hrm]
    have hne2 : ¬ targetFile = currentFile := fun h => hne h.symm
    refine ⟨trivial, ?_, ?_, ?_⟩
    · simp
    · simp [hne2, hd]
    · intro p hp
      simp [hp]
  · intro hcd
    have hcmp : CompareFiles fs currentFile targetFile = some false := by
      simp [CompareFiles, hc, hd, hcd]
    simp only [main.moveStep, hst, if_true, hcmp, Bool.false_eq_true, if_false]

/-- The move step when nothing exists at the destination: the file is
renamed, its content arrives at the destination and the source path is
free. -/
theorem moveStep_rename (fs : FileSystem) (currentFile targetFile c : GoString)
    (hc : fs currentFile = some c) (hd : fs targetFile = none) :
    (main.moveStep fs currentFile targetFile).1 = false
    ∧ (main.moveStep fs currentFile targetFile).2 targetFile = some c
    ∧ (main.moveStep fs currentFile targetFile).2 currentFile = none
    ∧ ∀ p, p ≠ currentFile → p ≠ targetFile →
        (main.moveStep fs currentFile targetFile).2 p = fs p := by
  have hne : currentFile ≠ targetFile := by
    intro h; rw [h, hd] at hc; simp at hc
  have hst : os.StatOk fs targetFile = false := by simp [os.StatOk, hd]
  simp only [main.moveStep, hst, Bool.false_eq_true, if_false, os.Rename, hc]
  refine ⟨trivial, ?_, ?_, ?_⟩
  · simp
  · simp [hne]
  · intro p h1 h2
    simp [h1, h2]

/-- A rename happens only when nothing exists at the destination: when the
destination exists the step deletes or halts, and whatever is at the
destination stays there unless the destination is the source itself. -/
theorem moveStep_no_overwrite (fs : FileSystem) (currentFile targetFile d : GoString)
    (hne : currentFile ≠ targetFile) (hd : fs targetFile = some d) :
    (main.moveStep fs currentFile targetFile).2 targetFile = some d := by
  have hst : os.StatOk fs targetFile = true := by simp [os.StatOk, hd]
  simp only [main.moveStep, hst, if_true]
  cases hcmp : CompareFiles fs currentFile targetFile with
  | none => exact hd
  | some same =>
      cases same with
      | false => exact hd
      | true =>
          simp only [if_true]
          cases hrm : os.Remove fs currentFile with
          | none => exact hd
          | some fs1 =>
              simp only [os.Remove] at hrm
              split at hrm
              · simp only [Option.some.injEq] at hrm
                subst hrm
                have : ¬ targetFile = currentFile := fun h => hne h.symm
                simp [this, hd]
              · simp at hrm

/-! ## The tokeniser -/

theorem ContainsRune_delims (c : Nat) :
    strings.ContainsRune (goString "_.- ") c = isDelimiter c := by
  rw [goString_delims, Bool.eq_iff_iff]
  simp [strings.ContainsRune, isDelimiter]

theorem MaximalRuns.cons_delim (delim : Nat → Bool) (b : Nat) (s : GoString)
    (ts : List GoString) (hb : delim b = true) (h : MaximalRuns delim s ts) :
    MaximalRuns delim (b :: s) ts := by
  cases h with
  | done d hd =>
      apply MaximalRuns.done
      intro c hc
      rcases List.mem_cons.mp hc with rfl | hc
      · exact hb
      · exact hd c hc
  | run d t rest ts hd hne ht hend hrest =>
      have e : b :: (d ++ t ++ rest) = (b :: d) ++ t ++ rest := by simp
      rw [e]
      apply MaximalRuns.run (b :: d) t rest ts _ hne ht hend hrest
      intro c hc
      rcases List.mem_cons.mp hc with rfl | hc
      · exact hb
      · exact hd c hc

/-- The two states of the loop of `FieldsFunc`: between fields it yields the
maximal runs of the rest; inside a field it first completes that field up to
the end or the next separator. -/
theorem FieldsFunc_go_runs (f : Nat → Bool) (s : GoString) :
    MaximalRuns f s (strings.FieldsFunc.go f s none)
    ∧ ∀ cur : GoString, ∃ t rest ts, s = t ++ rest ∧ (∀ c ∈ t, f c = false)
        ∧ (rest = [] ∨ ∃ c r, rest = c :: r ∧ f c = true)
        ∧ strings.FieldsFunc.go f s (some cur) = (cur ++ t) :: ts
        ∧ MaximalRuns f rest ts := by
  induction s with
  | nil =>
      refine ⟨MaximalRuns.done [] (by simp), ?_⟩
      intro cur
      exact ⟨[], [], [], rfl, by simp, Or.inl rfl, by simp [strings.FieldsFunc.go],
        MaximalRuns.done [] (by simp)⟩
  | cons b s ih =>
      obtain ⟨iha, ihb⟩ := ih
      by_cases hb : f b = true
      · refine ⟨?_, ?_⟩
        · simp only [strings.FieldsFunc.go, hb, if_true]
          exact MaximalRuns.cons_delim f b s _ hb iha
        · intro cur
          refine ⟨[], b :: s, strings.FieldsFunc.go f s none, rfl, by simp,
            Or.inr ⟨b, s, rfl, hb⟩, ?_, MaximalRuns.cons_delim f b s _ hb iha⟩
          simp only [strings.FieldsFunc.go, hb, if_true, List.append_nil]
      · have hbf : f b = false := by simpa using hb
        refine ⟨?_, ?_⟩
        · obtain ⟨t, rest, ts, hs, ht, hend, hgo, hruns⟩ := ihb [b]
          simp only [strings.FieldsFunc.go, hb, if_false, hgo]
          have e : b :: s = [] ++ (b :: t) ++ rest := by rw [hs]; simp
          rw [e]
          apply MaximalRuns.run [] (b :: t) rest ts (by simp) (by simp) _ hend hruns
          intro c hc
          rcases List.mem_cons.mp hc with rfl | hc
          · exact hbf
          · exact ht c hc
        · intro cur
          obtain ⟨t, rest, ts, hs, ht, hend, hgo, hruns⟩ := ihb (cur ++ [b])
          refine ⟨b :: t, rest, ts, by rw [hs]; simp, ?_, hend, ?_, hruns⟩
          · intro c hc
            rcases List.mem_cons.mp hc with rfl | hc
            · exact hbf
            · exact ht c hc
          · simp only [strings.FieldsFunc.go, hb, if_false, hgo]
            simp

/-- `SplitAny` yields the maximal runs of bytes that are not in `seps`. -/
theorem SplitAny_runs (s seps : GoString) :
    MaximalRuns (strings.ContainsRune seps) s (SplitAny s seps) :=
  (FieldsFunc_go_runs _ s).1

theorem MaximalRuns.tokens (delim : Nat → Bool) (s : GoString) (ts : List GoString)
    (h : MaximalRuns delim s ts) :
    (∀ t ∈ ts, t ≠ [] ∧ ∀ c ∈ t, delim c = false)
    ∧ ts.flatten = s.filter (fun c => !delim c) := by
  induction h with
  | done d hd =>
      refine ⟨by simp, ?_⟩
      symm
      rw [List.flatten_nil, List.filter_eq_nil_iff]
      intro c hc
      simp [hd c hc]
  | run d t rest ts hd hne ht hend hrest ih =>
      obtain ⟨ih1, ih2⟩ := ih
      refine ⟨?_, ?_⟩
      · intro u hu
        rcases List.mem_cons.mp hu with rfl | hu
        · exact ⟨hne, ht⟩
        · exact ih1 u hu
      · have hfd : d.filter (fun c => !delim c) = [] := by
          rw [List.filter_eq_nil_iff]
          intro c hc
          simp [hd c hc]
        have hft : t.filter (fun c => !delim c) = t := by
          rw [List.filter_eq_self]
          intro c hc
          simp [ht c hc]
        rw [List.flatten_cons, List.filter_append, List.filter_append, hfd, hft, ih2]
        rfl

/-- No token of a file name contains a delimiter, and none is empty. -/
theorem fileNameParts_token (fileName : GoString) (t : GoString)
    (ht : t ∈ fileNameParts fileName) :
    t ≠ [] ∧ ∀ c ∈ t, isDelimiter c = false := by
  have h := (MaximalRuns.tokens _ _ _
    (SplitAny_runs (filepath.Base (fileNameStem fileName)) (goString "_.- "))).1 t ht
  refine ⟨h.1, ?_⟩
  intro c hc
  rw [← ContainsRune_delims]
  exact h.2 c hc

/-! ## `strconv.ParseInt`: which strings it accepts -/

theorem ParseUint_foldl_none (s : GoString) :
    s.foldl
      (fun acc c =>
        match acc with
        | none => none
        | some n =>
            if 48 ≤ c ∧ c ≤ 57 then
              if n * 10 + (c - 48) < 2 ^ 64 then some (n * 10 + (c - 48)) else none
            else none)
      (none : Option Nat) = none := by
  induction s with
  | nil => rfl
  | cons c s ih => simpa only [List.foldl_cons] using ih

theorem ParseUint_foldl_some (s : GoString) (a n : Nat)
    (h : s.foldl
      (fun acc c =>
        match acc with
        | none => none
        | some n =>
            if 48 ≤ c ∧ c ≤ 57 then
              if n * 10 + (c - 48) < 2 ^ 64 then some (n * 10 + (c - 48)) else none
            else none)
      (some a) = some n) : allDigits s := by
  induction s generalizing a with
  | nil => intro c hc; simp at hc
  | cons c s ih =>
      simp only [List.foldl_cons] at h
      by_cases hc : 48 ≤ c ∧ c ≤ 57
      · rw [if_pos hc] at h
        by_cases hb : a * 10 + (c - 48) < 2 ^ 64
        · rw [if_pos hb] at h
          intro d hd
          rcases List.mem_cons.mp hd with rfl | hd
          · exact hc
          · exact ih _ h d hd
        · rw [if_neg hb, ParseUint_foldl_none] at h
          simp at h
      · rw [if_neg hc, ParseUint_foldl_none] at h
        simp at h

/-- `strconv.ParseUint` only accepts non-empty strings of decimal digits. -/
theorem ParseUint_some (s : GoString) (n : Nat) (h : strconv.ParseUint s = some n) :
    s ≠ [] ∧ allDigits s := by
  simp only [strconv.ParseUint] at h
  by_cases hs : s = []
  · rw [if_pos hs] at h; simp at h
  · rw [if_neg hs] at h
    exact ⟨hs, ParseUint_foldl_some s 0 n h⟩

/-- `strconv.ParseInt` only accepts decimal digits with an optional sign in
front. -/
theorem ParseInt_some (s : GoString) (v : Int) (h : strconv.ParseInt s = some v) :
    (s ≠ [] ∧ allDigits s)
    ∨ ∃ c r, s = c :: r ∧ (c = 43 ∨ c = 45) ∧ r ≠ [] ∧ allDigits r := by
  cases s with
  | nil => simp [strconv.ParseInt] at h
  | cons c r =>
      simp only [strconv.ParseInt] at h
      by_cases hc : c = 43 ∨ c = 45
      · rw [if_pos hc] at h
        cases hu : strconv.ParseUint r with
        | none => rw [hu] at h; simp at h
        | some un =>
            obtain ⟨h1, h2⟩ := ParseUint_some r un hu
            exact Or.inr ⟨c, r, rfl, hc, h1, h2⟩
      · rw [if_neg hc] at h
        cases hu : strconv.ParseUint (c :: r) with
        | none => rw [hu] at h; simp at h
        | some un =>
            obtain ⟨h1, h2⟩ := ParseUint_some (c :: r) un hu
            exact Or.inl ⟨h1, h2⟩

/-- `strconv.ParseInt` accepts a sign followed by at most 18 decimal
digits. -/
theorem ParseInt_signed (c : Nat) (r : GoString) (hc : c = 43 ∨ c = 45) (hne : r ≠ [])
    (hd : allDigits r) (hl : r.length ≤ 18) :
    (strconv.ParseInt (c :: r)).isSome = true := by
  have hlt := decimalValue_lt r hd
  have hp : 10 ^ r.length ≤ 10 ^ 18 := Nat.pow_le_pow_right (by norm_num) hl
  have hb : decimalValue r < 2 ^ 63 := by
    have : (10 : Nat) ^ 18 < 2 ^ 63 := by norm_num
    omega
  have hu := ParseUint_digits r hne hd (lt_trans hb (by norm_num))
  have h1 : ¬ (decimalValue r ≥ 2 ^ 63) := by omega
  have h2 : ¬ (decimalValue r > 2 ^ 63) := by omega
  simp only [strconv.ParseInt, if_pos hc, hu]
  rw [if_neg (fun h => h1 h.2), if_neg (fun h => h2 h.2)]
  rfl

/-- The millisecond-epoch grammar on 13 characters: it succeeds exactly on 13
decimal digits and on a sign followed by 12 decimal digits. -/
theorem epoch_digits_iff (ds : GoString) (hlen : ds.length = 13) :
    ((strconv.ParseInt ds).map (fun ms => time.Unix (ms.tdiv 1000) 0)).isSome = true ↔
      (allDigits ds ∨ ∃ c r, ds = c :: r ∧ (c = 43 ∨ c = 45) ∧ allDigits r) := by
  constructor
  · intro h
    cases hp : strconv.ParseInt ds with
    | none => rw [hp] at h; simp at h
    | some v =>
        rcases ParseInt_some ds v hp with ⟨_, hd⟩ | ⟨c, r, hs, hc, _, hd⟩
        · exact Or.inl hd
        · exact Or.inr ⟨c, r, hs, hc, hd⟩
  · rintro (hd | ⟨c, r, hs, hc, hd⟩)
    · rw [epoch_parse_digits ds hlen hd]; rfl
    · subst hs
      simp only [List.length_cons] at hlen
      have hne : r ≠ [] := by
        intro h; rw [h] at hlen; simp at hlen
      have hok := ParseInt_signed c r hc hne hd (by omega)
      cases hp : strconv.ParseInt (c :: r) with
      | none => rw [hp] at hok; simp at hok
      | some v => rfl

/-! ## `time.Parse`: which strings it accepts -/

theorem isDigit_cons_zero (a : Nat) (s : GoString) :
    isDigit (a :: s) 0 = decide (48 ≤ a ∧ a ≤ 57) := by
  simp [isDigit]

theorem isDigit_cons_one (a b : Nat) (s : GoString) :
    isDigit (a :: b :: s) 1 = decide (48 ≤ b ∧ b ≤ 57) := by
  simp [isDigit]

theorem allDigits_pair (a b : Nat) (ha : 48 ≤ a ∧ a ≤ 57) (hb : 48 ≤ b ∧ b ≤ 57) :
    allDigits [a, b] := by
  intro c hc
  simp only [List.mem_cons, List.mem_singleton, List.not_mem_nil, or_false] at hc
  rcases hc with rfl | rfl
  · exact ha
  · exact hb

/-- What `getnum` has read when it succeeds: two digits, or, when one digit
is allowed, one digit in front of something that is no digit. -/
theorem getnum_some (s rest : GoString) (fixed : Bool) (n : Int)
    (h : getnum s fixed = some (n, rest)) :
    (∃ ds, s = ds ++ rest ∧ ds.length = 2 ∧ allDigits ds ∧ n = (decimalValue ds : Int))
    ∨ (fixed = false ∧ isDigit rest 0 = false ∧ s.length = rest.length + 1) := by
  rcases s with _ | ⟨a, _ | ⟨b, s⟩⟩
  · simp [getnum, isDigit] at h
  · by_cases ha : 48 ≤ a ∧ a ≤ 57
    · have i1 : isDigit [a] 1 = false := by simp [isDigit]
      simp only [getnum, isDigit_cons_zero, decide_eq_true ha, Bool.not_true,
        Bool.false_eq_true, if_false, i1, Bool.not_false, if_true] at h
      cases fixed with
      | true => simp at h
      | false =>
          simp only [Bool.false_eq_true, if_false, Option.some.injEq, Prod.mk.injEq] at h
          refine Or.inr ⟨rfl, ?_, ?_⟩
          · rw [← h.2]; simp [isDigit]
          · rw [← h.2]; simp
    · simp [getnum, isDigit_cons_zero, ha] at h
  · by_cases ha : 48 ≤ a ∧ a ≤ 57
    · by_cases hb : 48 ≤ b ∧ b ≤ 57
      · simp only [getnum, isDigit_cons_zero, isDigit_cons_one, decide_eq_true ha,
          decide_eq_true hb, Bool.not_true, Bool.false_eq_true, if_false, Option.some.injEq,
          Prod.mk.injEq] at h
        refine Or.inl ⟨[a, b], ?_, rfl, allDigits_pair a b ha hb, ?_⟩
        · rw [← h.2]; rfl
        · rw [← h.1, decimalValue_two]; rfl
      · simp only [getnum, isDigit_cons_zero, isDigit_cons_one, decide_eq_true ha,
          decide_eq_false hb, Bool.not_true, Bool.false_eq_true, if_false, Bool.not_false,
          if_true] at h
        cases fixed with
        | true => simp at h
        | false =>
            simp only [Bool.false_eq_true, if_false, Option.some.injEq, Prod.mk.injEq] at h
            refine Or.inr ⟨rfl, ?_, ?_⟩
            · rw [← h.2]
              simp only [List.drop_succ_cons, List.drop_zero, isDigit_cons_zero,
                decide_eq_false hb]
            · rw [← h.2]; simp
    · simp [getnum, isDigit_cons_zero, ha] at h

theorem getnum_fixed_some (s rest : GoString) (n : Int)
    (h : getnum s true = some (n, rest)) :
    ∃ ds, s = ds ++ rest ∧ ds.length = 2 ∧ allDigits ds ∧ n = (decimalValue ds : Int) := by
  rcases getnum_some s rest true n h with h1 | ⟨h2, _⟩
  · exact h1
  · simp at h2

theorem leadingInt_go_nil (s : GoString) (x q : Nat)
    (h : leadingInt.go x s = some (q, [])) : allDigits s := by
  induction s generalizing x with
  | nil => intro c hc; simp at hc
  | cons c s ih =>
      simp only [leadingInt.go] at h
      by_cases hc : c < 48 ∨ c > 57
      · rw [if_pos hc] at h; simp at h
      · rw [if_neg hc] at h
        split at h
        · simp at h
        · split at h
          · simp at h
          · intro d hd
            rcases List.mem_cons.mp hd with rfl | hd
            · omega
            · exact ih _ h d hd

/-- What the year element has read when it succeeds: four digits. -/
theorem parseStd_year_some (s rest : GoString) (f f1 : Fields)
    (h : parseStd .stdLongYear s f = some (f1, rest)) :
    ∃ ds, s = ds ++ rest ∧ ds.length = 4 ∧ allDigits ds
      ∧ f1 = { f with year := (decimalValue ds : Int) } := by
  simp only [parseStd] at h
  by_cases hc : s.length < 4 ∨ (!isDigit s 0) = true
  · rw [if_pos hc] at h; simp at h
  · rw [if_neg hc] at h
    have hlen : 4 ≤ s.length := by omega
    have hd0 : isDigit s 0 = true := by
      cases hid : isDigit s 0 with
      | true => rfl
      | false => exact absurd (Or.inr (by simp [hid])) hc
    have htl : (s.take 4).length = 4 := by rw [List.length_take]; omega
    cases ha : atoi (s.take 4) with
    | none => rw [ha] at h; simp at h
    | some y =>
        rw [ha] at h
        simp only [Option.some.injEq, Prod.mk.injEq] at h
        obtain ⟨a, b, c, d, habcd⟩ := length_four (s.take 4) htl
        have hsplit : s = s.take 4 ++ s.drop 4 := (List.take_append_drop 4 s).symm
        have ha0 : 48 ≤ a ∧ a ≤ 57 := by
          rw [hsplit, habcd] at hd0
          simpa [isDigit] using hd0
        have hdig : allDigits (s.take 4) := by
          rw [habcd] at ha ⊢
          have h1 : ¬ ([a, b, c, d].length > 0 ∧ ([a, b, c, d].getD 0 0 = 45
              ∨ [a, b, c, d].getD 0 0 = 43)) := by
            simp only [List.getD_cons_zero]; omega
          simp only [atoi, if_neg h1, leadingInt] at ha
          cases hg : leadingInt.go 0 [a, b, c, d] with
          | none => rw [hg] at ha; simp at ha
          | some qr =>
              obtain ⟨q, rem⟩ := qr
              rw [hg] at ha
              cases rem with
              | nil => exact leadingInt_go_nil _ 0 q hg
              | cons r0 rem => simp at ha
        have hy := atoi_digits (s.take 4) htl hdig
        rw [ha] at hy
        simp only [Option.some.injEq] at hy
        refine ⟨s.take 4, ?_, htl, hdig, ?_⟩
        · rw [← h.2]; exact hsplit
        · rw [← h.1, hy]

theorem parseStd_month_some (s rest : GoString) (f f1 : Fields)
    (h : parseStd .stdZeroMonth s f = some (f1, rest)) :
    ∃ ds, s = ds ++ rest ∧ ds.length = 2 ∧ allDigits ds
      ∧ 1 ≤ decimalValue ds ∧ decimalValue ds ≤ 12
      ∧ f1 = { f with month := (decimalValue ds : Int) } := by
  simp only [parseStd] at h
  cases hg : getnum s true with
  | none => rw [hg] at h; simp at h
  | some nv =>
      obtain ⟨n, v⟩ := nv
      rw [hg] at h
      obtain ⟨ds, hs, hl, hd, hn⟩ := getnum_fixed_some s v n hg
      by_cases hr : n ≤ 0 ∨ 12 < n
      · simp only [if_pos hr] at h; simp at h
      · simp only [if_neg hr, Option.some.injEq, Prod.mk.injEq] at h
        refine ⟨ds, by rw [← h.2]; exact hs, hl, hd, by omega, by omega, ?_⟩
        rw [← h.1, hn]

theorem parseStd_day_some (s rest : GoString) (f f1 : Fields)
    (h : parseStd .stdZeroDay s f = some (f1, rest)) :
    ∃ ds, s = ds ++ rest ∧ ds.length = 2 ∧ allDigits ds
      ∧ f1 = { f with day := (decimalValue ds : Int) } := by
  simp only [parseStd] at h
  cases hg : getnum s true with
  | none => rw [hg] at h; simp at h
  | some nv =>
      obtain ⟨n, v⟩ := nv
      rw [hg] at h
      obtain ⟨ds, hs, hl, hd, hn⟩ := getnum_fixed_some s v n hg
      simp only [Option.some.injEq, Prod.mk.injEq] at h
      refine ⟨ds, by rw [← h.2]; exact hs, hl, hd, ?_⟩
      rw [← h.1, hn]

/-- What the hour element has read when it succeeds: two digits below 24, or
one digit in front of something that is no digit. -/
theorem parseStd_hour_some (s rest : GoString) (f f1 : Fields)
    (h : parseStd .stdHour s f = some (f1, rest)) :
    (∃ ds, s = ds ++ rest ∧ ds.length = 2 ∧ allDigits ds ∧ decimalValue ds ≤ 23
      ∧ f1 = { f with hour := (decimalValue ds : Int) })
    ∨ (isDigit rest 0 = false ∧ s.length = rest.length + 1) := by
  simp only [parseStd] at h
  cases hg : getnum s false with
  | none => rw [hg] at h; simp at h
  | some nv =>
      obtain ⟨n, v⟩ := nv
      rw [hg] at h
      by_cases hr : n < 0 ∨ 24 ≤ n
      · simp only [if_pos hr] at h; simp at h
      · simp only [if_neg hr, Option.some.injEq, Prod.mk.injEq] at h
        rcases getnum_some s v false n hg with ⟨ds, hs, hl, hd, hn⟩ | ⟨_, h2, h3⟩
        · refine Or.inl ⟨ds, by rw [← h.2]; exact hs, hl, hd, by omega, ?_⟩
          rw [← h.1, hn]
        · refine Or.inr ⟨by rw [← h.2]; exact h2, by rw [← h.2]; exact h3⟩

theorem parseStd_minute_some (s rest : GoString) (f f1 : Fields)
    (h : parseStd .stdZeroMinute s f = some (f1, rest)) :
    ∃ ds, s = ds ++ rest ∧ ds.length = 2 ∧ allDigits ds ∧ decimalValue ds ≤ 59
      ∧ f1 = { f with min := (decimalValue ds : Int) } := by
  simp only [parseStd] at h
  cases hg : getnum s true with
  | none => rw [hg] at h; simp at h
  | some nv =>
      obtain ⟨n, v⟩ := nv
      rw [hg] at h
      obtain ⟨ds, hs, hl, hd, hn⟩ := getnum_fixed_some s v n hg
      by_cases hr : n < 0 ∨ 60 ≤ n
      · simp only [if_pos hr] at h; simp at h
      · simp only [if_neg hr, Option.some.injEq, Prod.mk.injEq] at h
        refine ⟨ds, by rw [← h.2]; exact hs, hl, hd, by omega, ?_⟩
        rw [← h.1, hn]

/-- What the second element has read when it succeeds on a value too short
for a fractional second: two digits below 60. -/
theorem parseStd_second_some (s rest : GoString) (f f1 : Fields) (hshort : s.length < 4)
    (h : parseStd .stdZeroSecond s f = some (f1, rest)) :
    ∃ ds, s = ds ++ rest ∧ ds.length = 2 ∧ allDigits ds ∧ decimalValue ds ≤ 59
      ∧ f1 = { f with sec := (decimalValue ds : Int) } := by
  simp only [parseStd] at h
  cases hg : getnum s true with
  | none => rw [hg] at h; simp at h
  | some nv =>
      obtain ⟨n, v⟩ := nv
      rw [hg] at h
      obtain ⟨ds, hs, hl, hd, hn⟩ := getnum_fixed_some s v n hg
      have hv : v.length < 2 := by
        rw [hs, List.length_append] at hshort; omega
      have hfrac : ¬ (v.length ≥ 2 ∧ commaOrPeriod (v.getD 0 0) = true
          ∧ isDigit v 1 = true) := by omega
      by_cases hr : n < 0 ∨ 60 ≤ n
      · simp only [if_pos hr] at h; simp at h
      · simp only [if_neg hr, if_neg hfrac, Option.some.injEq, Prod.mk.injEq] at h
        refine ⟨ds, by rw [← h.2]; exact hs, hl, hd, by omega, ?_⟩
        rw [← h.1, hn]

theorem loop_std_some (s : Std) (rest : List Chunk) (v : GoString) (f f2 : Fields)
    (h : time.Parse.loop (.std s :: rest) v f = some f2) :
    ∃ f1 v1, parseStd s v f = some (f1, v1) ∧ time.Parse.loop rest v1 f1 = some f2 := by
  simp only [time.Parse.loop] at h
  cases hp : parseStd s v f with
  | none => rw [hp] at h; simp at h
  | some fv =>
      obtain ⟨f1, v1⟩ := fv
      rw [hp] at h
      exact ⟨f1, v1, rfl, h⟩

theorem loop_lit_some (p : GoString) (rest : List Chunk) (v : GoString) (f f2 : Fields)
    (h : time.Parse.loop (.lit p :: rest) v f = some f2) :
    ∃ v1, skip v p = some v1 ∧ time.Parse.loop rest v1 f = some f2 := by
  simp only [time.Parse.loop] at h
  cases hp : skip v p with
  | none => rw [hp] at h; simp at h
  | some v1 =>
      rw [hp] at h
      exact ⟨v1, rfl, h⟩

theorem loop_nil_some (v : GoString) (f f2 : Fields)
    (h : time.Parse.loop [] v f = some f2) : v = [] ∧ f2 = f := by
  simp only [time.Parse.loop] at h
  by_cases hv : v.length ≠ 0
  · rw [if_pos hv] at h; simp at h
  · rw [if_neg hv] at h
    simp only [Option.some.injEq] at h
    exact ⟨List.length_eq_zero.mp (by omega), h.symm⟩

/-- The clock part of a layout on a value of at most six bytes: it succeeds
only on three groups of two digits within range. -/
theorem loop_clock_some (r : GoString) (f f2 : Fields) (hlen : r.length ≤ 6)
    (h : time.Parse.loop [.std .stdHour, .std .stdZeroMinute, .std .stdZeroSecond] r f
      = some f2) :
    ∃ hh mi ss, r = hh ++ (mi ++ ss)
      ∧ (hh.length = 2 ∧ allDigits hh) ∧ (mi.length = 2 ∧ allDigits mi)
      ∧ (ss.length = 2 ∧ allDigits ss)
      ∧ validClock (decimalValue hh) (decimalValue mi) (decimalValue ss)
      ∧ f2 = { f with hour := (decimalValue hh : Int), min := (decimalValue mi : Int),
                      sec := (decimalValue ss : Int) } := by
  obtain ⟨f1, v1, hp1, h1⟩ := loop_std_some _ _ _ _ _ h
  obtain ⟨f3, v2, hp2, h2⟩ := loop_std_some _ _ _ _ _ h1
  obtain ⟨mi, hv1, lmi, dmi, rmi, hf3⟩ := parseStd_minute_some _ _ _ _ hp2
  rcases parseStd_hour_some _ _ _ _ hp1 with ⟨hh, hr, lhh, dhh, rhh, hf1⟩ | ⟨hnd, _⟩
  · obtain ⟨f4, v3, hp3, h3⟩ := loop_std_some _ _ _ _ _ h2
    have hv2len : v2.length < 4 := by
      rw [hr, hv1] at hlen
      simp only [List.length_append] at hlen
      omega
    obtain ⟨ss, hv2, lss, dss, rss, hf4⟩ := parseStd_second_some _ _ _ _ hv2len hp3
    obtain ⟨hv3, hf2⟩ := loop_nil_some _ _ _ h3
    refine ⟨hh, mi, ss, ?_, ⟨lhh, dhh⟩, ⟨lmi, dmi⟩, ⟨lss, dss⟩, ⟨rhh, rmi, rss⟩, ?_⟩
    · rw [hr, hv1, hv2, hv3, List.append_nil]
    · rw [hf2, hf4, hf3, hf1]
  · exfalso
    obtain ⟨a, b, hab⟩ := length_two mi lmi
    have hda := (allDigits_two a b (hab ▸ dmi)).1
    rw [hv1, hab] at hnd
    simp [isDigit, hda] at hnd

theorem Parse_some_loop (layout : List Chunk) (v : GoString) (t : Time)
    (h : time.Parse layout v = some t) :
    ∃ f, time.Parse.loop layout v ⟨0, -1, -1, 0, 0, 0, 0⟩ = some f := by
  simp only [time.Parse] at h
  cases hl : time.Parse.loop layout v ⟨0, -1, -1, 0, 0, 0, 0⟩ with
  | none => rw [hl] at h; simp at h
  | some f => exact ⟨f, rfl⟩

/-- The final check of `Parse`, read backwards: when `Parse` succeeds the
fields it collected are a valid date, and the result is the `Date` of the
fields. -/
theorem Parse_some_valid (layout : List Chunk) (value : GoString) (y m d h mi s : Nat)
    (t : Time)
    (hloop : time.Parse.loop layout value ⟨0, -1, -1, 0, 0, 0, 0⟩
      = some ⟨(y : Int), (m : Int), (d : Int), (h : Int), (mi : Int), (s : Int), 0⟩)
    (hm1 : 1 ≤ m) (hm2 : m ≤ 12) (hp : time.Parse layout value = some t) :
    validDate y m d ∧ t = time.Date y m d h mi s 0 := by
  have hdi := daysIn_natCast y m hm1 hm2
  have c1 : ¬ ((m : Int) < 0) := by omega
  have c2 : ¬ ((d : Int) < 0) := by omega
  simp only [time.Parse, hloop, if_neg c1, if_neg c2] at hp
  by_cases c3 : (d : Int) < 1 ∨ (d : Int) > daysIn (m : Int) (y : Int)
  · rw [if_pos c3] at hp; simp at hp
  · rw [if_neg c3] at hp
    simp only [Option.some.injEq] at hp
    rw [hdi] at c3
    exact ⟨⟨hm1, hm2, by omega, by omega⟩, hp.symm⟩

/-- Layout `"20060102150405"` on a value of 14 bytes, read backwards: it
succeeds only on the digit groups of a valid date-time. -/
theorem Parse_compact_some (v : GoString) (hl : v.length = 14) (t : Time)
    (h : time.Parse layoutCompact v = some t) :
    ∃ yy mo dd hh mi ss, v = yy ++ (mo ++ (dd ++ (hh ++ (mi ++ ss))))
      ∧ digitGroups yy mo dd hh mi ss ∧ validDateTime yy mo dd hh mi ss
      ∧ t = dateTimeOf yy mo dd hh mi ss := by
  obtain ⟨f, hloop⟩ := Parse_some_loop _ _ _ h
  have hloop0 := hloop
  simp only [layoutCompact] at hloop
  obtain ⟨f1, v1, hp1, h1⟩ := loop_std_some _ _ _ _ _ hloop
  obtain ⟨yy, hv, ly, dy, hf1⟩ := parseStd_year_some _ _ _ _ hp1
  obtain ⟨f2, v2, hp2, h2⟩ := loop_std_some _ _ _ _ _ h1
  obtain ⟨mo, hv1, lm, dm, m1, m12, hf2⟩ := parseStd_month_some _ _ _ _ hp2
  obtain ⟨f3, v3, hp3, h3⟩ := loop_std_some _ _ _ _ _ h2
  obtain ⟨dd, hv2, ld, ddg, hf3⟩ := parseStd_day_some _ _ _ _ hp3
  have hv3len : v3.length ≤ 6 := by
    rw [hv, hv1, hv2] at hl
    simp only [List.length_append] at hl
    omega
  obtain ⟨hh, mi, ss, hv3, gh, gm, gs, hclock, hf⟩ := loop_clock_some v3 f3 f hv3len h3
  have hvv : v = yy ++ (mo ++ (dd ++ (hh ++ (mi ++ ss)))) := by
    rw [hv, hv1, hv2, hv3]
  have hfields : f = ⟨(decimalValue yy : Int), (decimalValue mo : Int), (decimalValue dd : Int),
      (decimalValue hh : Int), (decimalValue mi : Int), (decimalValue ss : Int), 0⟩ := by
    rw [hf, hf3, hf2, hf1]
  rw [hfields] at hloop0
  obtain ⟨hvd, ht⟩ := Parse_some_valid _ _ _ _ _ _ _ _ t hloop0 m1 m12 h
  exact ⟨yy, mo, dd, hh, mi, ss, hvv, ⟨⟨ly, dy⟩, ⟨lm, dm⟩, ⟨ld, ddg⟩, gh, gm, gs⟩,
    ⟨hvd, hclock⟩, ht⟩

theorem cutspace_eq_of_length (s : GoString) (h : (cutspace s).length = s.length) :
    cutspace s = s := by
  cases s with
  | nil => rfl
  | cons c s =>
      by_cases hc : c = 32
      · simp only [cutspace, if_pos hc, List.length_cons] at h
        have := cutspace_length_le s
        omega
      · simp only [cutspace, if_neg hc]

theorem skip_space_cons (w : GoString) : skip (32 :: w) [32] = some (cutspace w) := by
  simp [skip, skip.loop, cutspace]

/-- Layout `"20060102 150405"` on a date token of 8 bytes, a space and a time
token of 6 bytes, read backwards. -/
theorem Parse_dateTime_some (date clock : GoString) (hld : date.length = 8)
    (hlt : clock.length = 6) (t : Time)
    (h : time.Parse layoutDateTime (date ++ (32 :: clock)) = some t) :
    ∃ yy mo dd hh mi ss, date = yy ++ (mo ++ dd) ∧ clock = hh ++ (mi ++ ss)
      ∧ digitGroups yy mo dd hh mi ss ∧ validDateTime yy mo dd hh mi ss
      ∧ t = dateTimeOf yy mo dd hh mi ss := by
  obtain ⟨f, hloop⟩ := Parse_some_loop _ _ _ h
  have hloop0 := hloop
  simp only [layoutDateTime] at hloop
  obtain ⟨f1, v1, hp1, h1⟩ := loop_std_some _ _ _ _ _ hloop
  obtain ⟨yy, hv, ly, dy, hf1⟩ := parseStd_year_some _ _ _ _ hp1
  obtain ⟨f2, v2, hp2, h2⟩ := loop_std_some _ _ _ _ _ h1
  obtain ⟨mo, hv1, lm, dm, m1, m12, hf2⟩ := parseStd_month_some _ _ _ _ hp2
  obtain ⟨f3, v3, hp3, h3⟩ := loop_std_some _ _ _ _ _ h2
  obtain ⟨dd, hv2, ld, ddg, hf3⟩ := parseStd_day_some _ _ _ _ hp3
  obtain ⟨v4, hsk, h4⟩ := loop_lit_some _ _ _ _ _ h3
  have hall : date ++ (32 :: clock) = (yy ++ (mo ++ dd)) ++ v3 := by
    rw [hv, hv1, hv2]; simp only [List.append_assoc]
  have hinj := List.append_inj hall (by
    simp only [List.length_append]; omega)
  obtain ⟨hdate, hv3⟩ := hinj
  rw [← hv3, skip_space_cons] at hsk
  simp only [Option.some.injEq] at hsk
  have hv4len : v4.length ≤ 6 := by
    rw [← hsk]
    have := cutspace_length_le clock
    omega
  obtain ⟨hh, mi, ss, hv4, gh, gm, gs, hclock, hf⟩ := loop_clock_some v4 f3 f hv4len h4
  have hcut : cutspace clock = clock := by
    apply cutspace_eq_of_length
    rw [hsk, hv4]
    simp only [List.length_append]
    omega
  have htime : clock = hh ++ (mi ++ ss) := by
    rw [← hcut, hsk, hv4]
  have hfields : f = ⟨(decimalValue yy : Int), (decimalValue mo : Int), (decimalValue dd : Int),
      (decimalValue hh : Int), (decimalValue mi : Int), (decimalValue ss : Int), 0⟩ := by
    rw [hf, hf3, hf2, hf1]
  rw [hfields] at hloop0
  obtain ⟨hvd, ht⟩ := Parse_some_valid _ _ _ _ _ _ _ _ t hloop0 m1 m12 h
  exact ⟨yy, mo, dd, hh, mi, ss, hdate, htime,
    ⟨⟨ly, dy⟩, ⟨lm, dm⟩, ⟨ld, ddg⟩, gh, gm, gs⟩, ⟨hvd, hclock⟩, ht⟩

theorem skip_byte_some (p : Nat) (v v1 : GoString) (hp : p ≠ 32)
    (h : skip v [p] = some v1) : v = p :: v1 := by
  cases v with
  | nil => simp [skip, skip.loop, hp] at h
  | cons c w =>
      by_cases hc : c = p
      · subst hc
        rw [skip_byte c w hp] at h
        simp only [Option.some.injEq] at h
        rw [h]
      · simp [skip, skip.loop, hp, hc] at h

/-- Layout `"2006-01-02_150405"` on a year token of 4 bytes, a month token
and a day token of 2 bytes each and the constant `_000000`, read backwards. -/
theorem Parse_dashed_some (yy mo dd : GoString) (ly : yy.length = 4) (lm : mo.length = 2)
    (ld : dd.length = 2) (t : Time)
    (h : time.Parse layoutDashed
      (yy ++ (45 :: (mo ++ (45 :: (dd ++ (95 :: ([48, 48] ++ ([48, 48] ++ [48, 48])))))))) = some t) :
    (allDigits yy ∧ allDigits mo ∧ allDigits dd)
      ∧ validDate (decimalValue yy) (decimalValue mo) (decimalValue dd)
      ∧ t = time.Date (decimalValue yy) (decimalValue mo) (decimalValue dd) 0 0 0 0 := by
  obtain ⟨f, hloop⟩ := Parse_some_loop _ _ _ h
  simp only [layoutDashed] at hloop
  obtain ⟨f1, v1, hp1, h1⟩ := loop_std_some _ _ _ _ _ hloop
  obtain ⟨yy2, hv, ly2, dy, hf1⟩ := parseStd_year_some _ _ _ _ hp1
  obtain ⟨hy, hv1⟩ := List.append_inj hv (by omega)
  subst hy
  obtain ⟨v2, hsk1, h2⟩ := loop_lit_some _ _ _ _ _ h1
  rw [← hv1, skip_byte 45 _ (by decide)] at hsk1
  simp only [Option.some.injEq] at hsk1
  obtain ⟨f2, v3, hp2, h3⟩ := loop_std_some _ _ _ _ _ h2
  obtain ⟨mo2, hv2, lm2, dm, m1, m12, hf2⟩ := parseStd_month_some _ _ _ _ hp2
  rw [← hsk1] at hv2
  obtain ⟨hm, hv3⟩ := List.append_inj hv2 (by omega)
  subst hm
  obtain ⟨v4, hsk2, h4⟩ := loop_lit_some _ _ _ _ _ h3
  rw [← hv3, skip_byte 45 _ (by decide)] at hsk2
  simp only [Option.some.injEq] at hsk2
  obtain ⟨f3, v5, hp3, h5⟩ := loop_std_some _ _ _ _ _ h4
  obtain ⟨dd2, hv4, ld2, ddg, hf3⟩ := parseStd_day_some _ _ _ _ hp3
  rw [← hsk2] at hv4
  obtain ⟨hd, hv5⟩ := List.append_inj hv4 (by omega)
  subst hd
  have hgroups := digitGroups_midnight yy mo dd ⟨ly, dy⟩ ⟨lm, dm⟩ ⟨ld, ddg⟩
  by_cases hvd : validDate (decimalValue yy) (decimalValue mo) (decimalValue dd)
  · have hfw := Parse_dashed yy mo dd [48, 48] [48, 48] [48, 48] hgroups ⟨hvd, by decide⟩
    rw [hfw] at h
    simp only [Option.some.injEq] at h
    exact ⟨⟨dy, dm, ddg⟩, hvd, by rw [← h, dateTimeOf_midnight]⟩
  · exfalso
    obtain ⟨v6, hsk3, h6⟩ := loop_lit_some _ _ _ _ _ h5
    rw [← hv5, skip_byte 95 _ (by decide)] at hsk3
    simp only [Option.some.injEq] at hsk3
    rw [← hsk3] at h6
    obtain ⟨hh, mi, ss, hv6, gh, gm, gs, hclock, hf⟩ :=
      loop_clock_some _ f3 f (by simp) h6
    have hfields : f = ⟨(decimalValue yy : Int), (decimalValue mo : Int),
        (decimalValue dd : Int), (decimalValue hh : Int), (decimalValue mi : Int),
        (decimalValue ss : Int), 0⟩ := by
      rw [hf, hf3, hf2, hf1]
    have hloop2 : time.Parse.loop layoutDashed
        (yy ++ (45 :: (mo ++ (45 :: (dd ++ (95 :: ([48, 48] ++ ([48, 48] ++ [48, 48]))))))))
        ⟨0, -1, -1, 0, 0, 0, 0⟩ = some f := by
      simp only [layoutDashed]; exact hloop
    rw [hfields] at hloop2
    exact hvd (Parse_some_valid _ _ _ _ _ _ _ _ t hloop2 m1 m12 h).1


/-! ## Success of the calendar layouts, as conditions on the consumed characters -/

theorem allDigits_append (a b : GoString) : allDigits (a ++ b) ↔ allDigits a ∧ allDigits b := by
  simp only [allDigits, List.mem_append]
  constructor
  · intro h
    exact ⟨fun c hc => h c (Or.inl hc), fun c hc => h c (Or.inr hc)⟩
  · rintro ⟨h1, h2⟩ c (hc | hc)
    · exact h1 c hc
    · exact h2 c hc

theorem allDigits_fieldAt (c : GoString) (lo n : Nat) (h : allDigits c) :
    allDigits (fieldAt c lo n) :=
  fun x hx => h x (List.mem_of_mem_drop (List.mem_of_mem_take hx))

theorem fieldAt_length (c : GoString) (lo n : Nat) (h : lo + n ≤ c.length) :
    (fieldAt c lo n).length = n := by
  simp only [fieldAt, List.length_take, List.length_drop]
  omega

theorem fieldAt_split (c : GoString) (lo n : Nat) :
    c.drop lo = fieldAt c lo n ++ c.drop (lo + n) := by
  rw [fieldAt, ← List.drop_drop, List.take_append_drop]

/-- A string of 14 bytes is its six fields `YYYY MM DD hh mm ss` in a row. -/
theorem fieldAt_fourteen (c : GoString) (hl : c.length = 14) :
    c = fieldAt c 0 4 ++ (fieldAt c 4 2 ++ (fieldAt c 6 2
      ++ (fieldAt c 8 2 ++ (fieldAt c 10 2 ++ fieldAt c 12 2)))) := by
  have h0 := fieldAt_split c 0 4
  have h4 := fieldAt_split c 4 2
  have h6 := fieldAt_split c 6 2
  have h8 := fieldAt_split c 8 2
  have h10 := fieldAt_split c 10 2
  have h12 := fieldAt_split c 12 2
  have h14 : c.drop 14 = [] := List.drop_of_length_le (by omega)
  simp only [Nat.reduceAdd] at h0 h4 h6 h8 h10 h12
  rw [h14, List.append_nil] at h12
  rw [h12] at h10
  rw [h10] at h8
  rw [h8] at h6
  rw [h6] at h4
  rw [h4, List.drop_zero] at h0
  exact h0

/-- A string of 8 bytes is its three fields `YYYY MM DD` in a row. -/
theorem fieldAt_eight (c : GoString) (hl : c.length = 8) :
    c = fieldAt c 0 4 ++ (fieldAt c 4 2 ++ fieldAt c 6 2) := by
  have h0 := fieldAt_split c 0 4
  have h4 := fieldAt_split c 4 2
  have h6 := fieldAt_split c 6 2
  have h8 : c.drop 8 = [] := List.drop_of_length_le (by omega)
  simp only [Nat.reduceAdd] at h0 h4 h6
  rw [h8, List.append_nil] at h6
  rw [h6] at h4
  rw [h4, List.drop_zero] at h0
  exact h0

/-- The fields of six digit groups in a row are the groups. -/
theorem fieldAt_groups (yy mo dd hh mi ss : GoString) (ly : yy.length = 4)
    (lm : mo.length = 2) (ld : dd.length = 2) (lh : hh.length = 2) (li : mi.length = 2)
    (ls : ss.length = 2) :
    fieldAt (yy ++ (mo ++ (dd ++ (hh ++ (mi ++ ss))))) 0 4 = yy
    ∧ fieldAt (yy ++ (mo ++ (dd ++ (hh ++ (mi ++ ss))))) 4 2 = mo
    ∧ fieldAt (yy ++ (mo ++ (dd ++ (hh ++ (mi ++ ss))))) 6 2 = dd
    ∧ fieldAt (yy ++ (mo ++ (dd ++ (hh ++ (mi ++ ss))))) 8 2 = hh
    ∧ fieldAt (yy ++ (mo ++ (dd ++ (hh ++ (mi ++ ss))))) 10 2 = mi
    ∧ fieldAt (yy ++ (mo ++ (dd ++ (hh ++ (mi ++ ss))))) 12 2 = ss := by
  obtain ⟨a1, a2, a3, a4, rfl⟩ := length_four yy ly
  obtain ⟨b1, b2, rfl⟩ := length_two mo lm
  obtain ⟨c1, c2, rfl⟩ := length_two dd ld
  obtain ⟨d1, d2, rfl⟩ := length_two hh lh
  obtain ⟨e1, e2, rfl⟩ := length_two mi li
  obtain ⟨f1, f2, rfl⟩ := length_two ss ls
  exact ⟨rfl, rfl, rfl, rfl, rfl, rfl⟩

/-- The fields of three digit groups in a row are the groups. -/
theorem fieldAt_date (yy mo dd : GoString) (ly : yy.length = 4) (lm : mo.length = 2)
    (ld : dd.length = 2) :
    fieldAt (yy ++ (mo ++ dd)) 0 4 = yy ∧ fieldAt (yy ++ (mo ++ dd)) 4 2 = mo
    ∧ fieldAt (yy ++ (mo ++ dd)) 6 2 = dd := by
  obtain ⟨a1, a2, a3, a4, rfl⟩ := length_four yy ly
  obtain ⟨b1, b2, rfl⟩ := length_two mo lm
  obtain ⟨c1, c2, rfl⟩ := length_two dd ld
  exact ⟨rfl, rfl, rfl⟩

/-- The digit groups of a string of 14 decimal digits. -/
theorem digitGroups_fieldAt (c : GoString) (hl : c.length = 14) (hd : allDigits c) :
    digitGroups (fieldAt c 0 4) (fieldAt c 4 2) (fieldAt c 6 2) (fieldAt c 8 2)
      (fieldAt c 10 2) (fieldAt c 12 2) :=
  ⟨⟨fieldAt_length c 0 4 (by omega), allDigits_fieldAt c 0 4 hd⟩,
   ⟨fieldAt_length c 4 2 (by omega), allDigits_fieldAt c 4 2 hd⟩,
   ⟨fieldAt_length c 6 2 (by omega), allDigits_fieldAt c 6 2 hd⟩,
   ⟨fieldAt_length c 8 2 (by omega), allDigits_fieldAt c 8 2 hd⟩,
   ⟨fieldAt_length c 10 2 (by omega), allDigits_fieldAt c 10 2 hd⟩,
   ⟨fieldAt_length c 12 2 (by omega), allDigits_fieldAt c 12 2 hd⟩⟩

theorem allDigits_groups (yy mo dd hh mi ss : GoString) (hg : digitGroups yy mo dd hh mi ss) :
    allDigits (yy ++ (mo ++ (dd ++ (hh ++ (mi ++ ss))))) := by
  obtain ⟨⟨_, dy⟩, ⟨_, dm⟩, ⟨_, ddg⟩, ⟨_, dh⟩, ⟨_, di⟩, ⟨_, ds⟩⟩ := hg
  simp only [allDigits_append]
  exact ⟨dy, dm, ddg, dh, di, ds⟩

/-- A parse of 14 consumed characters `c` into digit groups of a valid
date-time, as conditions on the fields of `c`. -/
theorem groups_iff_fields (c : GoString) (hl : c.length = 14) :
    (∃ yy mo dd hh mi ss, c = yy ++ (mo ++ (dd ++ (hh ++ (mi ++ ss))))
        ∧ digitGroups yy mo dd hh mi ss ∧ validDateTime yy mo dd hh mi ss)
      ↔ (allDigits c
        ∧ validDate (decimalValue (fieldAt c 0 4)) (decimalValue (fieldAt c 4 2))
            (decimalValue (fieldAt c 6 2))
        ∧ validClock (decimalValue (fieldAt c 8 2)) (decimalValue (fieldAt c 10 2))
            (decimalValue (fieldAt c 12 2))) := by
  constructor
  · rintro ⟨yy, mo, dd, hh, mi, ss, hc, hg, hv⟩
    have hg2 := hg
    obtain ⟨⟨ly, _⟩, ⟨lm, _⟩, ⟨ld, _⟩, ⟨lh, _⟩, ⟨li, _⟩, ⟨ls, _⟩⟩ := hg2
    obtain ⟨e1, e2, e3, e4, e5, e6⟩ := fieldAt_groups yy mo dd hh mi ss ly lm ld lh li ls
    rw [hc, e1, e2, e3, e4, e5, e6]
    exact ⟨allDigits_groups yy mo dd hh mi ss hg, hv.1, hv.2⟩
  · rintro ⟨hd, hdate, hclock⟩
    exact ⟨_, _, _, _, _, _, fieldAt_fourteen c hl, digitGroups_fieldAt c hl hd, hdate, hclock⟩

/-- Layout `"20060102150405"` succeeds on 14 bytes exactly when they are
decimal digits that denote a valid date and time of day. -/
theorem Parse_compact_iff (c : GoString) (hl : c.length = 14) :
    (time.Parse layoutCompact c).isSome = true
      ↔ (allDigits c
        ∧ validDate (decimalValue (fieldAt c 0 4)) (decimalValue (fieldAt c 4 2))
            (decimalValue (fieldAt c 6 2))
        ∧ validClock (decimalValue (fieldAt c 8 2)) (decimalValue (fieldAt c 10 2))
            (decimalValue (fieldAt c 12 2))) := by
  rw [← groups_iff_fields c hl]
  constructor
  · intro h
    obtain ⟨t, ht⟩ := Option.isSome_iff_exists.mp h
    obtain ⟨yy, mo, dd, hh, mi, ss, hc, hg, hv, _⟩ := Parse_compact_some c hl t ht
    exact ⟨yy, mo, dd, hh, mi, ss, hc, hg, hv⟩
  · rintro ⟨yy, mo, dd, hh, mi, ss, hc, hg, hv⟩
    rw [hc, Parse_compact yy mo dd hh mi ss hg hv]
    rfl

theorem append_groups (date clock yy mo dd hh mi ss : GoString) (hld : date.length = 8)
    (ly : yy.length = 4) (lm : mo.length = 2) (ld : dd.length = 2) :
    date ++ clock = yy ++ (mo ++ (dd ++ (hh ++ (mi ++ ss))))
      ↔ date = yy ++ (mo ++ dd) ∧ clock = hh ++ (mi ++ ss) := by
  constructor
  · intro h
    have h2 : date ++ clock = (yy ++ (mo ++ dd)) ++ (hh ++ (mi ++ ss)) := by
      rw [h]; simp only [List.append_assoc]
    exact List.append_inj h2 (by simp only [List.length_append]; omega)
  · rintro ⟨h1, h2⟩
    rw [h1, h2]; simp only [List.append_assoc]

/-- Layout `"20060102 150405"` succeeds on a date token of 8 bytes, a space
and a time token of 6 bytes exactly when the 14 bytes of the two tokens are
decimal digits that denote a valid date and time of day. -/
theorem Parse_dateTime_iff (date clock : GoString) (hld : date.length = 8)
    (hlt : clock.length = 6) :
    (time.Parse layoutDateTime (date ++ (32 :: clock))).isSome = true
      ↔ (allDigits (date ++ clock)
        ∧ validDate (decimalValue (fieldAt (date ++ clock) 0 4))
            (decimalValue (fieldAt (date ++ clock) 4 2))
            (decimalValue (fieldAt (date ++ clock) 6 2))
        ∧ validClock (decimalValue (fieldAt (date ++ clock) 8 2))
            (decimalValue (fieldAt (date ++ clock) 10 2))
            (decimalValue (fieldAt (date ++ clock) 12 2))) := by
  rw [← groups_iff_fields (date ++ clock) (by simp only [List.length_append]; omega)]
  constructor
  · intro h
    obtain ⟨t, ht⟩ := Option.isSome_iff_exists.mp h
    obtain ⟨yy, mo, dd, hh, mi, ss, hdate, hclock, hg, hv, _⟩ :=
      Parse_dateTime_some date clock hld hlt t ht
    exact ⟨yy, mo, dd, hh, mi, ss,
      (append_groups date clock yy mo dd hh mi ss hld hg.1.1 hg.2.1.1 hg.2.2.1.1).mpr
        ⟨hdate, hclock⟩, hg, hv⟩
  · rintro ⟨yy, mo, dd, hh, mi, ss, hc, hg, hv⟩
    obtain ⟨hdate, hclock⟩ :=
      (append_groups date clock yy mo dd hh mi ss hld hg.1.1 hg.2.1.1 hg.2.2.1.1).mp hc
    rw [hdate, hclock]
    simp only [List.append_assoc]
    rw [Parse_dateTime yy mo dd hh mi ss hg hv]
    rfl

/-- Layout `"2006-01-02_150405"` succeeds on a year token of 4 bytes, a month
token and a day token of 2 bytes each and the constant `_000000` exactly when
the 8 bytes of the three tokens are decimal digits that denote a valid date. -/
theorem Parse_dashed_iff (yy mo dd : GoString) (ly : yy.length = 4) (lm : mo.length = 2)
    (ld : dd.length = 2) :
    (time.Parse layoutDashed
        (yy ++ (45 :: (mo ++ (45 :: (dd ++ (95 :: ([48, 48] ++ ([48, 48] ++ [48, 48]))))))))).isSome
        = true
      ↔ (allDigits (yy ++ (mo ++ dd))
        ∧ validDate (decimalValue (fieldAt (yy ++ (mo ++ dd)) 0 4))
            (decimalValue (fieldAt (yy ++ (mo ++ dd)) 4 2))
            (decimalValue (fieldAt (yy ++ (mo ++ dd)) 6 2))) := by
  obtain ⟨e1, e2, e3⟩ := fieldAt_date yy mo dd ly lm ld
  rw [e1, e2, e3]
  simp only [allDigits_append]
  constructor
  · intro h
    obtain ⟨t, ht⟩ := Option.isSome_iff_exists.mp h
    obtain ⟨⟨dy, dm, ddg⟩, hv, _⟩ := Parse_dashed_some yy mo dd ly lm ld t ht
    exact ⟨⟨dy, dm, ddg⟩, hv⟩
  · rintro ⟨⟨dy, dm, ddg⟩, hv⟩
    rw [Parse_dashed yy mo dd [48, 48] [48, 48] [48, 48]
      (digitGroups_midnight yy mo dd ⟨ly, dy⟩ ⟨lm, dm⟩ ⟨ld, ddg⟩) ⟨hv, by decide⟩]
    rfl


/-! ## The loop body on a shape-matching position -/

/-- The loop body at a position where the shape of grammar `g` holds is the
parse rule of `g`. -/
theorem body_of_shape (parts : List GoString) (i : Nat) (g : Grammar)
    (hs : g.shape parts i = true) : readFileNameTime.body parts i = g.parse parts i := by
  rw [body_eq_grammar]
  cases g
  · rw [if_pos hs]
  · rw [if_neg (fun h => by cases shape_exclusive _ _ parts i h hs), if_pos hs]
  · rw [if_neg (fun h => by cases shape_exclusive _ _ parts i h hs),
      if_neg (fun h => by cases shape_exclusive _ _ parts i h hs), if_pos hs]
  · rw [if_neg (fun h => by cases shape_exclusive _ _ parts i h hs),
      if_neg (fun h => by cases shape_exclusive _ _ parts i h hs),
      if_neg (fun h => by cases shape_exclusive _ _ parts i h hs), if_pos hs]

theorem parse_pair_eq (parts : List GoString) (i : Nat) :
    Grammar.dateTimePair.parse parts i
      = time.Parse layoutDateTime (parts.getD i [] ++ (32 :: parts.getD (i + 1) [])) := by
  simp only [Grammar.parse, goString_space, List.append_assoc, List.singleton_append]

theorem parse_triple_eq (parts : List GoString) (i : Nat) :
    Grammar.yearMonthDayTriple.parse parts i
      = time.Parse layoutDashed (parts.getD i [] ++ (45 :: (parts.getD (i + 1) []
          ++ (45 :: (parts.getD (i + 2) [] ++ (95 :: ([48, 48] ++ ([48, 48] ++ [48, 48])))))))) := by
  simp only [Grammar.parse, goString_dash, goString_midnight, List.append_assoc,
    List.singleton_append, List.cons_append, List.nil_append]

/-- The parse rule of a calendar grammar succeeds on shape-matching tokens
exactly when the consumed characters pass the calendar conditions. -/
theorem parse_calendar_iff (parts : List GoString) (i : Nat) (g : Grammar)
    (hg : g ≠ .millisecondEpoch) (hs : g.shape parts i = true) :
    (g.parse parts i).isSome = true ↔ calendarValid g parts i := by
  cases g with
  | millisecondEpoch => exact absurd rfl hg
  | compactDatetime =>
      simp only [Grammar.shape, decide_eq_true_eq] at hs
      have hl : ((parts.getD i []).take 14).length = 14 := by
        rw [List.length_take]; omega
      have h := Parse_compact_iff _ hl
      simp only [Grammar.parse, calendarValid, Grammar.consumed, validDate, validClock,
        reduceCtorEq, false_or] at h ⊢
      rw [h]
      tauto
  | dateTimePair =>
      simp only [Grammar.shape, decide_eq_true_eq] at hs
      have h := Parse_dateTime_iff _ _ hs.1 hs.2.2
      rw [parse_pair_eq]
      simp only [calendarValid, Grammar.consumed, validDate, validClock,
        reduceCtorEq, false_or] at h ⊢
      rw [h]
      tauto
  | yearMonthDayTriple =>
      simp only [Grammar.shape, decide_eq_true_eq] at hs
      have h := Parse_dashed_iff _ _ _ hs.1 hs.2.2.1 hs.2.2.2
      rw [parse_triple_eq]
      simp only [calendarValid, Grammar.consumed, validDate, List.append_assoc,
        true_or, and_true] at h ⊢
      rw [h]
      tauto

/-- The loop body at a position with the shape of a calendar grammar succeeds
exactly when the consumed characters pass the calendar conditions. -/
theorem body_calendar_iff (parts : List GoString) (i : Nat) (g : Grammar)
    (hg : g ≠ .millisecondEpoch) (hs : g.shape parts i = true) :
    (readFileNameTime.body parts i).isSome = true ↔ calendarValid g parts i := by
  rw [body_of_shape parts i g hs]
  exact parse_calendar_iff parts i g hg hs

/-- Layout `"2006-01"` on the time of six digit groups writes the year
digits, a dash and the month digits. -/
theorem Format_folder (zone : Int → Int) (yy mo dd hh mi ss : GoString)
    (hg : digitGroups yy mo dd hh mi ss) (hv : validDateTime yy mo dd hh mi ss) :
    main.targetFolder zone (dateTimeOf yy mo dd hh mi ss) = yy ++ (45 :: mo) := by
  obtain ⟨⟨ly, dy⟩, ⟨lm, dm⟩, _⟩ := hg
  simp only [main.targetFolder, Time.Format, layoutFolder, List.flatMap_cons, List.flatMap_nil,
    formatStd, civil_dateTimeOf zone yy mo dd hh mi ss hv, civilOf, appendInt_four yy ly dy,
    appendInt_two mo lm dm, List.append_nil, List.singleton_append]

/-- A successful match of a calendar grammar is the time of six digit groups
whose year and month group are the year and month digits consumed. -/
theorem match_groups (parts : List GoString) (i : Nat) (g : Grammar) (tm : Time)
    (hg : g ≠ .millisecondEpoch) (hm : g.matchAt parts i = some tm) :
    ∃ yy mo dd hh mi ss, digitGroups yy mo dd hh mi ss ∧ validDateTime yy mo dd hh mi ss
      ∧ tm = dateTimeOf yy mo dd hh mi ss
      ∧ g.yearDigits parts i = yy ∧ g.monthDigits parts i = mo := by
  have hs : g.shape parts i = true := by
    by_cases h : g.shape parts i = true
    · exact h
    · rw [Grammar.matchAt, if_neg h] at hm; cases hm
  rw [Grammar.matchAt, if_pos hs] at hm
  cases g with
  | millisecondEpoch => exact absurd rfl hg
  | compactDatetime =>
      simp only [Grammar.shape, decide_eq_true_eq] at hs
      have hl : ((parts.getD i []).take 14).length = 14 := by
        rw [List.length_take]; omega
      simp only [Grammar.parse] at hm
      obtain ⟨yy, mo, dd, hh, mi, ss, hc, hgr, hv, ht⟩ := Parse_compact_some _ hl tm hm
      obtain ⟨e1, e2, _⟩ := fieldAt_groups yy mo dd hh mi ss hgr.1.1 hgr.2.1.1 hgr.2.2.1.1
        hgr.2.2.2.1.1 hgr.2.2.2.2.1.1 hgr.2.2.2.2.2.1
      refine ⟨yy, mo, dd, hh, mi, ss, hgr, hv, ht, ?_, ?_⟩
      · simp only [Grammar.yearDigits, Grammar.consumed]; rw [hc, e1]
      · simp only [Grammar.monthDigits, Grammar.consumed]; rw [hc, e2]
  | dateTimePair =>
      simp only [Grammar.shape, decide_eq_true_eq] at hs
      rw [parse_pair_eq] at hm
      obtain ⟨yy, mo, dd, hh, mi, ss, hdate, hclock, hgr, hv, ht⟩ :=
        Parse_dateTime_some _ _ hs.1 hs.2.2 tm hm
      obtain ⟨e1, e2, _⟩ := fieldAt_groups yy mo dd hh mi ss hgr.1.1 hgr.2.1.1 hgr.2.2.1.1
        hgr.2.2.2.1.1 hgr.2.2.2.2.1.1 hgr.2.2.2.2.2.1
      have hc := (append_groups _ _ yy mo dd hh mi ss hs.1 hgr.1.1 hgr.2.1.1 hgr.2.2.1.1).mpr
        ⟨hdate, hclock⟩
      refine ⟨yy, mo, dd, hh, mi, ss, hgr, hv, ht, ?_, ?_⟩
      · simp only [Grammar.yearDigits, Grammar.consumed]; rw [hc, e1]
      · simp only [Grammar.monthDigits, Grammar.consumed]; rw [hc, e2]
  | yearMonthDayTriple =>
      simp only [Grammar.shape, decide_eq_true_eq] at hs
      rw [parse_triple_eq] at hm
      obtain ⟨⟨dy, dm, ddg⟩, hv, ht⟩ := Parse_dashed_some _ _ _ hs.1 hs.2.2.1 hs.2.2.2 tm hm
      obtain ⟨e1, e2, _⟩ := fieldAt_date _ _ _ hs.1 hs.2.2.1 hs.2.2.2
      refine ⟨parts.getD i [], parts.getD (i + 1) [], parts.getD (i + 2) [],
        [48, 48], [48, 48], [48, 48],
        digitGroups_midnight _ _ _ ⟨hs.1, dy⟩ ⟨hs.2.2.1, dm⟩ ⟨hs.2.2.2, ddg⟩,
        ⟨hv, by decide⟩, ?_, ?_, ?_⟩
      · rw [dateTimeOf_midnight]; exact ht
      · simp only [Grammar.yearDigits, Grammar.consumed, List.append_assoc]; rw [e1]
      · simp only [Grammar.monthDigits, Grammar.consumed, List.append_assoc]; rw [e2]

/-- The folder name of a successful match of a calendar grammar. -/
theorem folder_of_match (zone : Int → Int) (parts : List GoString) (i : Nat) (g : Grammar)
    (tm : Time) (hg : g ≠ .millisecondEpoch) (hm : g.matchAt parts i = some tm) :
    main.targetFolder zone tm = g.yearDigits parts i ++ goString "-" ++ g.monthDigits parts i
      ∧ (main.targetFolder zone tm).length = 7
      ∧ (g.yearDigits parts i).length = 4 ∧ allDigits (g.yearDigits parts i)
      ∧ (g.monthDigits parts i).length = 2 ∧ allDigits (g.monthDigits parts i) := by
  obtain ⟨yy, mo, dd, hh, mi, ss, hgr, hv, ht, hy, hmo⟩ := match_groups parts i g tm hg hm
  have hf := Format_folder zone yy mo dd hh mi ss hgr hv
  rw [ht, hy, hmo, hf, goString_dash]
  refine ⟨by simp only [List.append_assoc, List.singleton_append], ?_, hgr.1.1, hgr.1.2,
    hgr.2.1.1, hgr.2.1.2⟩
  simp only [List.length_append, List.length_cons, hgr.1.1, hgr.2.1.1]

/-- A successful match is the result of the loop body. -/
theorem body_of_match (parts : List GoString) (i : Nat) (g : Grammar) (tm : Time)
    (hm : g.matchAt parts i = some tm) : readFileNameTime.body parts i = some tm :=
  (body_eq_some_iff parts i tm).mpr ⟨g, hm⟩


/-! ## Layout `2006:01:02 15:04:05`: what `Parse` accepts -/

theorem takeWhile_append_stop (p : Nat → Bool) (a b : GoString) (ha : ∀ c ∈ a, p c = true)
    (hb : ∀ x, b.head? = some x → p x = false) :
    (a ++ b).takeWhile p = a ∧ (a ++ b).dropWhile p = b := by
  induction a with
  | nil =>
      cases b with
      | nil => exact ⟨rfl, rfl⟩
      | cons x b =>
          have hx := hb x rfl
          simp [List.takeWhile, List.dropWhile, hx]
  | cons c a ih =>
      have hc := ha c (List.mem_cons_self c a)
      obtain ⟨i1, i2⟩ := ih (fun d hd => ha d (List.mem_cons_of_mem c hd))
      exact ⟨by rw [List.cons_append, List.takeWhile_cons, if_pos hc, i1],
        by rw [List.cons_append, List.dropWhile_cons, if_pos hc, i2]⟩

theorem cutspace_eq_dropWhile (s : GoString) : cutspace s = s.dropWhile isSpaceByte := by
  induction s with
  | nil => rfl
  | cons c s ih =>
      by_cases hc : c = 32
      · simp [cutspace, List.dropWhile, isSpaceByte, hc, ih]
      · simp [cutspace, List.dropWhile, isSpaceByte, hc]

theorem mem_takeWhile_prop (p : Nat → Bool) (s : GoString) :
    ∀ c ∈ s.takeWhile p, p c = true := by
  induction s with
  | nil => intro c hc; simp at hc
  | cons x s ih =>
      intro c hc
      by_cases hx : p x = true
      · simp only [List.takeWhile, hx, List.mem_cons] at hc
        rcases hc with rfl | hc
        · exact hx
        · exact ih c hc
      · simp [List.takeWhile, hx] at hc

theorem isDigit_cons_succ (a : Nat) (s : GoString) (i : Nat) :
    isDigit (a :: s) (i + 1) = isDigit s i := by
  simp [isDigit]

theorem isDigit_zero_colon (s : GoString) : isDigit (58 :: s) 0 = false := by
  simp [isDigit]

theorem decimalValue_one (a : Nat) : decimalValue [a] = a - 48 := by
  simp [decimalValue]

/-- What `getnum` has read when it succeeds, digit by digit. -/
theorem getnum_some_parts (s rest : GoString) (fixed : Bool) (n : Int)
    (h : getnum s fixed = some (n, rest)) :
    ∃ ds, s = ds ++ rest ∧ allDigits ds ∧ n = (decimalValue ds : Int)
      ∧ (ds.length = 2 ∨ (fixed = false ∧ ds.length = 1)) := by
  rcases s with _ | ⟨a, s⟩
  · simp [getnum, isDigit] at h
  · by_cases ha : 48 ≤ a ∧ a ≤ 57
    · by_cases hb : isDigit (a :: s) 1 = true
      · rcases s with _ | ⟨b, s⟩
        · simp [isDigit] at hb
        · rw [isDigit_cons_one] at hb
          have hb2 : 48 ≤ b ∧ b ≤ 57 := of_decide_eq_true hb
          simp only [getnum, isDigit_cons_zero, isDigit_cons_one, decide_eq_true ha,
            decide_eq_true hb2, Bool.not_true, Bool.false_eq_true, if_false,
            Option.some.injEq, Prod.mk.injEq, List.getD_cons_zero, List.getD_cons_succ,
            List.drop_succ_cons, List.drop_zero] at h
          refine ⟨[a, b], by rw [← h.2]; rfl, allDigits_pair a b ha hb2, ?_, Or.inl rfl⟩
          rw [← h.1, decimalValue_two]
      · have hb3 : isDigit (a :: s) 1 = false := by
          cases hx : isDigit (a :: s) 1 with
          | true => exact absurd hx hb
          | false => rfl
        cases fixed with
        | true =>
            simp [getnum, isDigit_cons_zero, decide_eq_true ha, hb3] at h
        | false =>
            simp only [getnum, isDigit_cons_zero, decide_eq_true ha, hb3, Bool.not_true,
              Bool.false_eq_true, if_false, Bool.not_false, if_true, Option.some.injEq,
              Prod.mk.injEq, List.getD_cons_zero, List.drop_succ_cons, List.drop_zero] at h
            refine ⟨[a], by rw [← h.2]; rfl, ?_, ?_, Or.inr ⟨rfl, rfl⟩⟩
            · intro c hc
              simp only [List.mem_singleton] at hc
              rw [hc]; exact ha
            · rw [← h.1, decimalValue_one]
    · simp [getnum, isDigit_cons_zero, decide_eq_false ha] at h

/-- `getnum` on one digit in front of something that is no digit. -/
theorem getnum_one (a : Nat) (rest : GoString) (ha : 48 ≤ a ∧ a ≤ 57)
    (hr : isDigit rest 0 = false) :
    getnum (a :: rest) false = some ((decimalValue [a] : Int), rest) := by
  simp [getnum, isDigit_cons_zero, isDigit_cons_succ, decide_eq_true ha, hr,
    decimalValue_one]

/-- The hour element on one or two digits in front of a colon. -/
theorem parseStd_hour_parts (hh rest : GoString) (f : Fields)
    (hl : hh.length = 1 ∨ hh.length = 2) (hd : allDigits hh) (h23 : decimalValue hh ≤ 23) :
    parseStd .stdHour (hh ++ 58 :: rest) f
      = some ({ f with hour := (decimalValue hh : Int) }, 58 :: rest) := by
  rcases hl with hl | hl
  · rcases hh with _ | ⟨a, _ | ⟨b, hh⟩⟩
    · simp at hl
    · have ha := hd a (List.mem_singleton.mpr rfl)
      have hr : ¬ (((decimalValue [a] : Nat) : Int) < 0
          ∨ (24 : Int) ≤ (decimalValue [a] : Nat)) := by omega
      simp only [List.singleton_append, parseStd,
        getnum_one a (58 :: rest) ha (isDigit_zero_colon rest), if_neg hr]
    · simp at hl
  · exact parseStd_hour hh _ f hl hd h23

/-- The hour element, read backwards. -/
theorem parseStd_hour_some_parts (s rest : GoString) (f f1 : Fields)
    (h : parseStd .stdHour s f = some (f1, rest)) :
    ∃ hh, s = hh ++ rest ∧ (hh.length = 1 ∨ hh.length = 2) ∧ allDigits hh
      ∧ decimalValue hh ≤ 23 := by
  simp only [parseStd] at h
  cases hg : getnum s false with
  | none => rw [hg] at h; simp at h
  | some nv =>
      obtain ⟨n, v⟩ := nv
      rw [hg] at h
      by_cases hr : n < 0 ∨ 24 ≤ n
      · simp only [if_pos hr] at h; simp at h
      · simp only [if_neg hr, Option.some.injEq, Prod.mk.injEq] at h
        obtain ⟨ds, hs, hd, hn, hl⟩ := getnum_some_parts s v false n hg
        refine ⟨ds, by rw [← h.2]; exact hs, ?_, hd, by omega⟩
        rcases hl with hl | ⟨_, hl⟩
        · exact Or.inr hl
        · exact Or.inl hl

theorem takeWhile_length_all (p : Nat → Bool) (w : GoString)
    (h : w.length ≤ (w.takeWhile p).length) : ∀ c ∈ w, p c = true := by
  induction w with
  | nil => intro c hc; simp at hc
  | cons x w ih =>
      by_cases hx : p x = true
      · rw [List.takeWhile_cons, if_pos hx] at h
        simp only [List.length_cons] at h
        intro c hc
        rcases List.mem_cons.mp hc with rfl | hc
        · exact hx
        · exact ih (by omega) c hc
      · rw [List.takeWhile_cons, if_neg hx] at h
        simp at h

theorem takeWhile_all (p : Nat → Bool) (w : GoString) (h : ∀ c ∈ w, p c = true) :
    w.takeWhile p = w := by
  have := (takeWhile_append_stop p w [] h (fun x hx => by simp at hx)).1
  rwa [List.append_nil] at this

theorem allDigits_iff_isDigitByte (w : GoString) :
    allDigits w ↔ ∀ c ∈ w, isDigitByte c = true := by
  simp only [allDigits, isDigitByte, decide_eq_true_eq]

theorem digitRun_eq (v : GoString) (n : Nat) :
    digitRun v n = n + ((v.drop n).takeWhile isDigitByte).length := rfl

/-- `atoi` on one to nine digits. -/
theorem atoi_digits_short (ds : GoString) (hl : 1 ≤ ds.length) (hl2 : ds.length ≤ 9)
    (hd : allDigits ds) : atoi ds = some (decimalValue ds : Int) := by
  have hpow : 10 ^ ds.length ≤ 10 ^ 9 := Nat.pow_le_pow_right (by norm_num) hl2
  have hg := leadingInt_go_digits ds 0 hd (by
    have e : (2 : Nat) ^ 63 / 10 = 922337203685477580 := by norm_num
    rw [e]
    have e2 : (10 : Nat) ^ 9 = 1000000000 := by norm_num
    omega)
  rcases ds with _ | ⟨a, ds⟩
  · simp at hl
  · have ha := hd a (List.mem_cons_self a ds)
    have h1 : ¬ ((a :: ds).length > 0 ∧ ((a :: ds).getD 0 0 = 45
        ∨ (a :: ds).getD 0 0 = 43)) := by
      simp only [List.getD_cons_zero]; omega
    have h2 : ¬ ((a :: ds).length > 0 ∧ (a :: ds).getD 0 0 = 45) := by
      simp only [List.getD_cons_zero]; omega
    simp only [atoi, if_neg h1, leadingInt, hg, decide_eq_false h2]
    simp [decimalValue]

/-- Go `parseNanoseconds` on a period or comma followed by digits only, with
the whole of it counted. -/
theorem parseNanoseconds_digits (p : Nat) (ds : GoString) (hp : p = 46 ∨ p = 44)
    (hl : 1 ≤ ds.length) (hd : allDigits ds) :
    parseNanoseconds (p :: ds) (ds.length + 1) = some (fractionNanos ds : Int) := by
  have hc : commaOrPeriod p = true := by
    rcases hp with rfl | rfl <;> decide
  have hc2 : ¬ ((!commaOrPeriod ((p :: ds).getD 0 0)) = true) := by
    simp only [List.getD_cons_zero, hc]; decide
  have hdt : allDigits (ds.take 9) := fun c hc => hd c (List.mem_of_mem_take hc)
  by_cases hn : ds.length + 1 > 10
  · have e1 : (((p :: ds).take 10).take 10).drop 1 = ds.take 9 := by
      simp [List.take_take]
    have hl9 : (ds.take 9).length = 9 := by rw [List.length_take]; omega
    have ha := atoi_digits_short (ds.take 9) (by omega) (by omega) hdt
    have hneg : ¬ ((decimalValue (ds.take 9) : Int) < 0) := by omega
    simp only [parseNanoseconds, if_neg hc2, if_pos hn, e1, ha, if_neg hneg, fractionNanos,
      hl9]
    simp
  · have e1 : ((p :: ds).take (ds.length + 1)).drop 1 = ds := by
      simp
    have e9 : ds.take 9 = ds := List.take_of_length_le (by omega)
    have ha := atoi_digits_short ds hl (by omega) hd
    have hneg : ¬ ((decimalValue ds : Int) < 0) := by omega
    have e10 : 10 - (ds.length + 1) = 9 - ds.length := by omega
    simp only [parseNanoseconds, if_neg hc2, if_neg hn, e1, ha, if_neg hneg, fractionNanos,
      e9, e10]
    simp

/-- The second element on two digits followed by a fractional second or by
nothing: the fraction is read too, although the layout has none. -/
theorem parseStd_second_parts (ss frac : GoString) (f : Fields) (ls : ss.length = 2)
    (dss : allDigits ss) (h59 : decimalValue ss ≤ 59) (hf : fractionOk frac)
    (hn : f.nsec = 0) :
    parseStd .stdZeroSecond (ss ++ frac) f
      = some ({ f with sec := (decimalValue ss : Int),
                       nsec := (fractionNanos frac.tail : Int) }, []) := by
  rcases hf with rfl | ⟨hp, hl, hd⟩
  · rw [List.append_nil, parseStd_second ss f ls dss h59]
    have e0 : fractionNanos ([] : GoString).tail = 0 := by decide
    simp only [e0, Nat.cast_zero, ← hn]
  · rcases frac with _ | ⟨p, ds⟩
    · simp at hp
    · simp only [List.head?_cons, Option.some.injEq, List.tail_cons] at hp hl hd ⊢
      rcases ds with _ | ⟨d1, w⟩
      · simp at hl
      · have hd1 := hd d1 (List.mem_cons_self d1 w)
        have hw : ∀ c ∈ w, isDigitByte c = true :=
          fun c hc => (allDigits_iff_isDigitByte (d1 :: w)).mp hd c
            (List.mem_cons_of_mem d1 hc)
        have hr : ¬ (((decimalValue ss : Nat) : Int) < 0
            ∨ (60 : Int) ≤ (decimalValue ss : Nat)) := by omega
        have hc : commaOrPeriod p = true := by
          rcases hp with rfl | rfl <;> decide
        have hcond : (p :: d1 :: w).length ≥ 2 ∧ commaOrPeriod ((p :: d1 :: w).getD 0 0) = true
            ∧ isDigit (p :: d1 :: w) 1 = true := by
          refine ⟨by simp, by simpa using hc, ?_⟩
          rw [isDigit_cons_one]; exact decide_eq_true hd1
        have hrun : digitRun (p :: d1 :: w) 2 = (d1 :: w).length + 1 := by
          rw [digitRun_eq]
          simp only [List.drop_succ_cons, List.drop_zero, takeWhile_all _ w hw,
            List.length_cons]
          omega
        have hdrop : (p :: d1 :: w).drop ((d1 :: w).length + 1) = [] :=
          List.drop_of_length_le (by simp)
        simp only [parseStd, getnum_digits ss (p :: d1 :: w) true ls dss, if_neg hr,
          if_pos hcond, hrun, parseNanoseconds_digits p (d1 :: w) hp (by simp) hd, hdrop]

/-- The second element that leaves nothing of the value, read backwards. -/
theorem parseStd_second_some_parts (s : GoString) (f f1 : Fields)
    (h : parseStd .stdZeroSecond s f = some (f1, [])) :
    ∃ ss frac, s = ss ++ frac ∧ ss.length = 2 ∧ allDigits ss ∧ decimalValue ss ≤ 59
      ∧ fractionOk frac := by
  simp only [parseStd] at h
  cases hg : getnum s true with
  | none => rw [hg] at h; simp at h
  | some nv =>
      obtain ⟨n, v⟩ := nv
      rw [hg] at h
      obtain ⟨ds, hs, hl, hd, hn⟩ := getnum_fixed_some s v n hg
      by_cases hr : n < 0 ∨ 60 ≤ n
      · simp only [if_pos hr] at h; simp at h
      · simp only [if_neg hr] at h
        refine ⟨ds, v, hs, hl, hd, by omega, ?_⟩
        by_cases hc : v.length ≥ 2 ∧ commaOrPeriod (v.getD 0 0) = true ∧ isDigit v 1 = true
        · rw [if_pos hc] at h
          cases hpn : parseNanoseconds v (digitRun v 2) with
          | none => rw [hpn] at h; simp at h
          | some ns =>
              rw [hpn] at h
              simp only [Option.some.injEq, Prod.mk.injEq] at h
              have hdrop := h.2
              rcases v with _ | ⟨p, _ | ⟨d1, w⟩⟩
              · simp at hc
              · simp at hc
              · obtain ⟨_, hcp, hd1⟩ := hc
                simp only [List.getD_cons_zero] at hcp
                rw [isDigit_cons_one] at hd1
                have hd1b : 48 ≤ d1 ∧ d1 ≤ 57 := of_decide_eq_true hd1
                have hlen := List.drop_eq_nil_iff.mp hdrop
                rw [digitRun_eq] at hlen
                simp only [List.drop_succ_cons, List.drop_zero, List.length_cons] at hlen
                have hw := takeWhile_length_all isDigitByte w (by omega)
                refine Or.inr ⟨?_, by simp, ?_⟩
                · simp only [commaOrPeriod, Bool.or_eq_true, beq_iff_eq] at hcp
                  simpa using hcp
                · simp only [List.tail_cons]
                  intro c hc
                  rcases List.mem_cons.mp hc with rfl | hc
                  · exact hd1b
                  · exact (allDigits_iff_isDigitByte w).mpr hw c hc
        · rw [if_neg hc] at h
          simp only [Option.some.injEq, Prod.mk.injEq] at h
          exact Or.inl h.2

theorem skip_space_some (v v1 : GoString) (h : skip v [32] = some v1) :
    v1 = cutspace v ∧ (v = [] ∨ v.head? = some 32) := by
  cases v with
  | nil =>
      simp [skip, skip.loop, cutspace] at h
      subst h
      exact ⟨rfl, Or.inl rfl⟩
  | cons c w =>
      by_cases hc : c = 32
      · subst hc
        rw [skip_space_cons] at h
        simp only [Option.some.injEq] at h
        exact ⟨by rw [← h]; simp [cutspace], Or.inr rfl⟩
      · simp [skip, skip.loop, hc] at h

theorem head_digits_not_space (hh rest : GoString) (hl : 1 ≤ hh.length) (hd : allDigits hh) :
    ∀ x, (hh ++ rest).head? = some x → isSpaceByte x = false := by
  rcases hh with _ | ⟨a, hh⟩
  · simp at hl
  · intro x hx
    simp only [List.cons_append, List.head?_cons, Option.some.injEq] at hx
    have ha := hd a (List.mem_cons_self a hh)
    subst hx
    simp only [isSpaceByte, decide_eq_false_iff_not]
    omega

theorem head_colon_not_digit (rest : GoString) :
    ∀ x, (58 :: rest).head? = some x → isDigitByte x = false := by
  intro x hx
  simp only [List.head?_cons, Option.some.injEq] at hx
  subst hx
  decide

/-- Skipping the layout text `" "` in front of one or more spaces: all of
them are skipped. -/
theorem skip_spaces (sp w : GoString) (hl : 1 ≤ sp.length) (hsp : ∀ c ∈ sp, c = 32)
    (hw : ∀ x, w.head? = some x → isSpaceByte x = false) :
    skip (sp ++ w) [32] = some w := by
  rcases sp with _ | ⟨c, sp⟩
  · simp at hl
  · have hc := hsp c (List.mem_cons_self c sp)
    subst hc
    have hsp2 : ∀ c ∈ sp, isSpaceByte c = true := fun c hc => by
      simp only [isSpaceByte, decide_eq_true_eq]
      exact hsp c (List.mem_cons_of_mem 32 hc)
    rw [List.cons_append, skip_space_cons, cutspace_eq_dropWhile,
      (takeWhile_append_stop isSpaceByte sp w hsp2 hw).2]

/-- The loop of `Parse` over layout `2006:01:02 15:04:05` on the eight parts
of an accepted value: the fields it collects. -/
theorem loop_exif_parts (yy mo dd sp hh mi ss frac : GoString)
    (hok : exifPartsOk yy mo dd sp hh mi ss frac)
    (hm1 : 1 ≤ decimalValue mo) (hm12 : decimalValue mo ≤ 12)
    (hc : validClock (decimalValue hh) (decimalValue mi) (decimalValue ss)) :
    time.Parse.loop layoutExif (exifConcat yy mo dd sp hh mi ss frac) ⟨0, -1, -1, 0, 0, 0, 0⟩
      = some ⟨(decimalValue yy : Int), (decimalValue mo : Int), (decimalValue dd : Int),
          (decimalValue hh : Int), (decimalValue mi : Int), (decimalValue ss : Int),
          (fractionNanos frac.tail : Int)⟩ := by
  obtain ⟨⟨ly, dy⟩, ⟨lm, dm⟩, ⟨ld, ddg⟩, ⟨lsp, dsp⟩, ⟨lh, dh⟩, ⟨li, di⟩, ⟨ls, ds⟩, hf⟩ := hok
  obtain ⟨hh23, hi59, hs59⟩ := hc
  have hsk := skip_spaces sp (hh ++ 58 :: (mi ++ 58 :: (ss ++ frac))) lsp dsp
    (head_digits_not_space hh _ (by omega) dh)
  simp only [exifConcat, layoutExif, time.Parse.loop, parseStd_year yy _ _ ly dy,
    skip_byte 58 _ (by decide), parseStd_month mo _ _ lm dm hm1 hm12,
    parseStd_day dd _ _ ld ddg, hsk, parseStd_hour_parts hh _ _ lh dh hh23,
    parseStd_minute mi _ _ li di hi59]
  rw [parseStd_second_parts ss frac _ ls ds hs59 hf rfl]
  simp

/-- The final check of `Parse` and the call of `Date`, for any fields the
loop has collected with a month in range. -/
theorem Parse_of_loop (layout : List Chunk) (value : GoString) (y m d h mi s ns : Nat)
    (hloop : time.Parse.loop layout value ⟨0, -1, -1, 0, 0, 0, 0⟩
      = some ⟨(y : Int), (m : Int), (d : Int), (h : Int), (mi : Int), (s : Int), (ns : Int)⟩)
    (hm1 : 1 ≤ m) (hm2 : m ≤ 12) :
    time.Parse layout value
      = if validDate y m d then some (time.Date y m d h mi s ns) else none := by
  have hdi := daysIn_natCast y m hm1 hm2
  have c1 : ¬ ((m : Int) < 0) := by omega
  have c2 : ¬ ((d : Int) < 0) := by omega
  simp only [time.Parse, hloop, if_neg c1, if_neg c2]
  by_cases hv : validDate y m d
  · obtain ⟨_, _, hd1, hd2⟩ := hv
    have c3 : ¬ ((d : Int) < 1 ∨ (d : Int) > daysIn (m : Int) (y : Int)) := by
      rw [hdi]; omega
    rw [if_neg c3, if_pos ⟨hm1, hm2, hd1, hd2⟩]
  · have c3 : (d : Int) < 1 ∨ (d : Int) > daysIn (m : Int) (y : Int) := by
      rw [hdi]
      simp only [validDate] at hv
      omega
    rw [if_pos c3, if_neg hv]

/-- The fields of the eight parts written in a row are the parts. -/
theorem exif_fields_concat (yy mo dd sp hh mi ss frac : GoString)
    (hok : exifPartsOk yy mo dd sp hh mi ss frac) :
    exifYear (exifConcat yy mo dd sp hh mi ss frac) = yy
    ∧ exifMonth (exifConcat yy mo dd sp hh mi ss frac) = mo
    ∧ exifDay (exifConcat yy mo dd sp hh mi ss frac) = dd
    ∧ exifSpaces (exifConcat yy mo dd sp hh mi ss frac) = sp
    ∧ exifHour (exifConcat yy mo dd sp hh mi ss frac) = hh
    ∧ exifMinute (exifConcat yy mo dd sp hh mi ss frac) = mi
    ∧ exifSecond (exifConcat yy mo dd sp hh mi ss frac) = ss
    ∧ exifFraction (exifConcat yy mo dd sp hh mi ss frac) = frac := by
  obtain ⟨⟨ly, dy⟩, ⟨lm, dm⟩, ⟨ld, ddg⟩, ⟨lsp, dsp⟩, ⟨lh, dh⟩, ⟨li, di⟩, ⟨ls, ds⟩, hf⟩ := hok
  obtain ⟨a1, a2, a3, a4, rfl⟩ := length_four yy ly
  obtain ⟨b1, b2, rfl⟩ := length_two mo lm
  obtain ⟨c1, c2, rfl⟩ := length_two dd ld
  obtain ⟨e1, e2, rfl⟩ := length_two mi li
  obtain ⟨g1, g2, rfl⟩ := length_two ss ls
  have hdrop : (exifConcat [a1, a2, a3, a4] [b1, b2] [c1, c2] sp hh [e1, e2] [g1, g2] frac).drop 10
      = sp ++ (hh ++ 58 :: ([e1, e2] ++ 58 :: ([g1, g2] ++ frac))) := rfl
  have hsp : ∀ c ∈ sp, isSpaceByte c = true := fun c hc => by
    simp only [isSpaceByte, decide_eq_true_eq]; exact dsp c hc
  obtain ⟨t1, t2⟩ := takeWhile_append_stop isSpaceByte sp
    (hh ++ 58 :: ([e1, e2] ++ 58 :: ([g1, g2] ++ frac))) hsp
    (head_digits_not_space hh _ (by omega) dh)
  obtain ⟨t3, t4⟩ := takeWhile_append_stop isDigitByte hh
    (58 :: ([e1, e2] ++ 58 :: ([g1, g2] ++ frac)))
    ((allDigits_iff_isDigitByte hh).mp dh) (head_colon_not_digit _)
  have hclock : exifClock (exifConcat [a1, a2, a3, a4] [b1, b2] [c1, c2] sp hh [e1, e2]
      [g1, g2] frac) = hh ++ 58 :: ([e1, e2] ++ 58 :: ([g1, g2] ++ frac)) := by
    rw [exifClock, hdrop, t2]
  have htail : exifTail (exifConcat [a1, a2, a3, a4] [b1, b2] [c1, c2] sp hh [e1, e2]
      [g1, g2] frac) = 58 :: ([e1, e2] ++ 58 :: ([g1, g2] ++ frac)) := by
    rw [exifTail, hclock, t4]
  refine ⟨rfl, rfl, rfl, ?_, ?_, ?_, ?_, ?_⟩
  · rw [exifSpaces, hdrop, t1]
  · rw [exifHour, hclock, t3]
  · rw [exifMinute, htail]; rfl
  · rw [exifSecond, htail]; rfl
  · rw [exifFraction, htail]; rfl

/-- The loop of `Parse` over layout `2006:01:02 15:04:05`, read backwards:
it succeeds only on the eight parts of an accepted value written in a row. -/
theorem exif_parts_of_loop (v : GoString) (f0 f : Fields)
    (h : time.Parse.loop layoutExif v f0 = some f) :
    ∃ yy mo dd sp hh mi ss frac, v = exifConcat yy mo dd sp hh mi ss frac
      ∧ exifPartsOk yy mo dd sp hh mi ss frac
      ∧ 1 ≤ decimalValue mo ∧ decimalValue mo ≤ 12
      ∧ validClock (decimalValue hh) (decimalValue mi) (decimalValue ss) := by
  simp only [layoutExif] at h
  obtain ⟨f1, v1, hp1, h1⟩ := loop_std_some _ _ _ _ _ h
  obtain ⟨yy, hv, ly, dy, _⟩ := parseStd_year_some _ _ _ _ hp1
  obtain ⟨v2, hs1, h2⟩ := loop_lit_some _ _ _ _ _ h1
  have e1 := skip_byte_some 58 _ _ (by decide) hs1
  obtain ⟨f2, v3, hp2, h3⟩ := loop_std_some _ _ _ _ _ h2
  obtain ⟨mo, hv2, lm, dm, m1, m12, _⟩ := parseStd_month_some _ _ _ _ hp2
  obtain ⟨v4, hs2, h4⟩ := loop_lit_some _ _ _ _ _ h3
  have e2 := skip_byte_some 58 _ _ (by decide) hs2
  obtain ⟨f3, v5, hp3, h5⟩ := loop_std_some _ _ _ _ _ h4
  obtain ⟨dd, hv4, ld, ddg, _⟩ := parseStd_day_some _ _ _ _ hp3
  obtain ⟨v6, hs3, h6⟩ := loop_lit_some _ _ _ _ _ h5
  obtain ⟨e3, hsp0⟩ := skip_space_some _ _ hs3
  obtain ⟨f4, v7, hp4, h7⟩ := loop_std_some _ _ _ _ _ h6
  obtain ⟨hh, hv6, lh, dh, h23⟩ := parseStd_hour_some_parts _ _ _ _ hp4
  obtain ⟨v8, hs4, h8⟩ := loop_lit_some _ _ _ _ _ h7
  have e4 := skip_byte_some 58 _ _ (by decide) hs4
  obtain ⟨f5, v9, hp5, h9⟩ := loop_std_some _ _ _ _ _ h8
  obtain ⟨mi, hv8, li, di, i59, _⟩ := parseStd_minute_some _ _ _ _ hp5
  obtain ⟨v10, hs5, h10⟩ := loop_lit_some _ _ _ _ _ h9
  have e5 := skip_byte_some 58 _ _ (by decide) hs5
  obtain ⟨f6, v11, hp6, h11⟩ := loop_std_some _ _ _ _ _ h10
  obtain ⟨e6, _⟩ := loop_nil_some _ _ _ h11
  subst e6
  obtain ⟨ss, frac, hv10, ls, dss, s59, hfr⟩ := parseStd_second_some_parts _ _ _ hp6
  have hv6ne : v6 ≠ [] := by
    intro hnil
    rw [hnil] at hv6
    have : (hh ++ v7).length = 0 := by rw [← hv6]; rfl
    simp only [List.length_append] at this
    omega
  have hsplit : v5 = v5.takeWhile isSpaceByte ++ v6 := by
    rw [e3, cutspace_eq_dropWhile, List.takeWhile_append_dropWhile]
  have hsp1 : 1 ≤ (v5.takeWhile isSpaceByte).length := by
    rcases hsp0 with hnil | hhead
    · exfalso
      apply hv6ne
      rw [e3, hnil]; rfl
    · rcases v5 with _ | ⟨c, w⟩
      · simp at hhead
      · simp only [List.head?_cons, Option.some.injEq] at hhead
        subst hhead
        have : isSpaceByte 32 = true := by decide
        rw [List.takeWhile_cons, if_pos this]
        simp
  have hspall : ∀ c ∈ v5.takeWhile isSpaceByte, c = 32 := fun c hc => by
    have := mem_takeWhile_prop isSpaceByte v5 c hc
    simpa only [isSpaceByte, decide_eq_true_eq] using this
  refine ⟨yy, mo, dd, v5.takeWhile isSpaceByte, hh, mi, ss, frac, ?_,
    ⟨⟨ly, dy⟩, ⟨lm, dm⟩, ⟨ld, ddg⟩, ⟨hsp1, hspall⟩, ⟨lh, dh⟩, ⟨li, di⟩, ⟨ls, dss⟩, hfr⟩,
    m1, m12, ⟨h23, i59, s59⟩⟩
  rw [exifConcat, ← hv10, ← e5, ← hv8, ← e4, ← hv6, ← hsplit, ← hv4, ← e2, ← hv2, ← e1, ← hv]

/-- The eight parts written in a row are an accepted value when the fields
denote a valid date and time of day. -/
theorem exifAccepted_concat (yy mo dd sp hh mi ss frac : GoString)
    (hok : exifPartsOk yy mo dd sp hh mi ss frac) :
    exifAccepted (exifConcat yy mo dd sp hh mi ss frac)
      ↔ validDateTime yy mo dd hh mi ss := by
  obtain ⟨e1, e2, e3, e4, e5, e6, e7, e8⟩ := exif_fields_concat yy mo dd sp hh mi ss frac hok
  simp only [exifAccepted, e1, e2, e3, e4, e5, e6, e7, e8]
  constructor
  · rintro ⟨_, _, hv⟩
    exact hv
  · intro hv
    exact ⟨hok, trivial, hv⟩

/-- Go `time.Parse` with layout `2006:01:02 15:04:05`, in full: it succeeds
exactly on the accepted values, with the time they denote. -/
theorem Parse_exif_eq (v : GoString) :
    time.Parse layoutExif v = if exifAccepted v then some (exifTimeOf v) else none := by
  by_cases ha : exifAccepted v
  · rw [if_pos ha]
    obtain ⟨hok, hv, hdate, hclock⟩ := ha
    have hloop := loop_exif_parts _ _ _ _ _ _ _ _ hok hdate.1 hdate.2.1 hclock
    rw [← hv] at hloop
    rw [Parse_of_loop _ _ _ _ _ _ _ _ _ hloop hdate.1 hdate.2.1, if_pos hdate]
    rfl
  · rw [if_neg ha]
    cases hp : time.Parse layoutExif v with
    | none => rfl
    | some t =>
        exfalso
        obtain ⟨f, hloop⟩ := Parse_some_loop _ _ _ hp
        obtain ⟨yy, mo, dd, sp, hh, mi, ss, frac, hv, hok, m1, m12, hclock⟩ :=
          exif_parts_of_loop v _ f hloop
        have hloop2 := loop_exif_parts _ _ _ _ _ _ _ _ hok m1 m12 hclock
        rw [← hv] at hloop2
        rw [Parse_of_loop _ _ _ _ _ _ _ _ _ hloop2 m1 m12] at hp
        by_cases hdate : validDate (decimalValue yy) (decimalValue mo) (decimalValue dd)
        · apply ha
          rw [hv]
          exact (exifAccepted_concat yy mo dd sp hh mi ss frac hok).mpr ⟨hdate, hclock⟩
        · rw [if_neg hdate] at hp
          cases hp

theorem fractionNanos_lt (ds : GoString) (hd : allDigits ds) :
    fractionNanos ds < 1000000000 := by
  have hdt : allDigits (ds.take 9) := fun c hc => hd c (List.mem_of_mem_take hc)
  have hlt := decimalValue_lt (ds.take 9) hdt
  have hl : (ds.take 9).length ≤ 9 := by rw [List.length_take]; omega
  have hmul : decimalValue (ds.take 9) * 10 ^ (9 - (ds.take 9).length)
      < 10 ^ (ds.take 9).length * 10 ^ (9 - (ds.take 9).length) :=
    Nat.mul_lt_mul_of_pos_right hlt (by positivity)
  rw [← Nat.pow_add, Nat.add_sub_cancel' hl] at hmul
  simp only [fractionNanos]
  have e : (10 : Nat) ^ 9 = 1000000000 := by norm_num
  omega

theorem fractionOk_tail_digits (frac : GoString) (hf : fractionOk frac) :
    allDigits frac.tail := by
  rcases hf with rfl | ⟨_, _, hd⟩
  · intro c hc; simp at hc
  · exact hd

/-- Go `Date` with nanoseconds in range: they do not change the second. -/
theorem Date_nsec (y mo d h mi s ns : Int) (h0 : 0 ≤ ns) (h1 : ns < 1000000000) :
    time.Date y mo d h mi s ns = { time.Date y mo d h mi s 0 with nsec := ns } := by
  have n1 := norm_id s ns 1000000000 h0 h1
  have n2 := norm_id s 0 1000000000 (le_refl 0) (by norm_num)
  simp only [time.Date, n1, n2]

/-- The time an accepted value denotes reads as its six fields in any zone,
with the nanoseconds of its fraction. -/
theorem exifTimeOf_civil (zone : Int → Int) (v : GoString) (ha : exifAccepted v) :
    (exifTimeOf v).civil zone = exifCivil v ∧ (exifTimeOf v).nsec = (exifNanos v : Int)
      ∧ (exifTimeOf v).loc = .UTC := by
  obtain ⟨hok, _, hdate, hclock⟩ := ha
  have hfr := fractionOk_tail_digits _ hok.2.2.2.2.2.2.2
  have hlt := fractionNanos_lt _ hfr
  have hD := Date_nsec (decimalValue (exifYear v)) (decimalValue (exifMonth v))
    (decimalValue (exifDay v)) (decimalValue (exifHour v)) (decimalValue (exifMinute v))
    (decimalValue (exifSecond v)) (exifNanos v) (by omega) (by
      simp only [exifNanos]; omega)
  have hc := civil_dateTimeOf zone (exifYear v) (exifMonth v) (exifDay v) (exifHour v)
    (exifMinute v) (exifSecond v) ⟨hdate, hclock⟩
  refine ⟨?_, ?_, ?_⟩
  · rw [exifTimeOf, hD, exifCivil, ← hc]
    rfl
  · rw [exifTimeOf, hD]
  · rw [exifTimeOf, hD]
    obtain ⟨hm1, hm2, _, _⟩ := hdate
    obtain ⟨h23, i59, s59⟩ := hclock
    rw [Date_eq _ _ _ _ _ _ (by omega) (by omega) (by omega) (by omega) (by omega)
      (by omega) (by omega) (by omega)]

/-- A string of 19 bytes is its six fields and five separators in a row. -/
theorem fieldAt_nineteen (v : GoString) (hl : v.length = 19) :
    v = fieldAt v 0 4 ++ (fieldAt v 4 1 ++ (fieldAt v 5 2 ++ (fieldAt v 7 1
      ++ (fieldAt v 8 2 ++ (fieldAt v 10 1 ++ (fieldAt v 11 2 ++ (fieldAt v 13 1
      ++ (fieldAt v 14 2 ++ (fieldAt v 16 1 ++ fieldAt v 17 2))))))))) := by
  have h0 := fieldAt_split v 0 4
  have h4 := fieldAt_split v 4 1
  have h5 := fieldAt_split v 5 2
  have h7 := fieldAt_split v 7 1
  have h8 := fieldAt_split v 8 2
  have h10 := fieldAt_split v 10 1
  have h11 := fieldAt_split v 11 2
  have h13 := fieldAt_split v 13 1
  have h14 := fieldAt_split v 14 2
  have h16 := fieldAt_split v 16 1
  have h17 := fieldAt_split v 17 2
  have h19 : v.drop 19 = [] := List.drop_of_length_le (by omega)
  simp only [Nat.reduceAdd] at h0 h4 h5 h7 h8 h10 h11 h13 h14 h16 h17
  rw [h19, List.append_nil] at h17
  rw [h17] at h16
  rw [h16] at h14
  rw [h14] at h13
  rw [h13] at h11
  rw [h11] at h10
  rw [h10] at h8
  rw [h8] at h7
  rw [h7] at h5
  rw [h5] at h4
  rw [h4, List.drop_zero] at h0
  exact h0

/-- A value of the exact form `YYYY:MM:DD hh:mm:ss` is the eight parts with
one space and no fraction. -/
theorem matchesExifGrammar_concat (v : GoString) (h : matchesExifGrammar v) :
    v = exifConcat (fieldAt v 0 4) (fieldAt v 5 2) (fieldAt v 8 2) [32] (fieldAt v 11 2)
          (fieldAt v 14 2) (fieldAt v 17 2) []
      ∧ exifPartsOk (fieldAt v 0 4) (fieldAt v 5 2) (fieldAt v 8 2) [32] (fieldAt v 11 2)
          (fieldAt v 14 2) (fieldAt v 17 2) [] := by
  obtain ⟨hl, d1, s1, d2, s2, d3, s3, d4, s4, d5, s5, d6⟩ := h
  constructor
  · have h19 := fieldAt_nineteen v hl
    rw [s1, s2, s3, s4, s5] at h19
    simp only [exifConcat, List.append_nil]
    exact h19
  · exact ⟨⟨fieldAt_length v 0 4 (by omega), d1⟩, ⟨fieldAt_length v 5 2 (by omega), d2⟩,
      ⟨fieldAt_length v 8 2 (by omega), d3⟩, ⟨by simp, by simp⟩,
      ⟨Or.inr (fieldAt_length v 11 2 (by omega)), d4⟩,
      ⟨fieldAt_length v 14 2 (by omega), d5⟩, ⟨fieldAt_length v 17 2 (by omega), d6⟩,
      Or.inl rfl⟩

/-- A value of the exact form `YYYY:MM:DD hh:mm:ss` is accepted exactly when
its fields denote a valid date and time of day; its fields are the fields of
the grammar and it has no nanoseconds. -/
theorem matchesExifGrammar_accepted (v : GoString) (h : matchesExifGrammar v) :
    (exifAccepted v ↔ validDateTime (fieldAt v 0 4) (fieldAt v 5 2) (fieldAt v 8 2)
        (fieldAt v 11 2) (fieldAt v 14 2) (fieldAt v 17 2))
    ∧ exifCivil v = civilOf (fieldAt v 0 4) (fieldAt v 5 2) (fieldAt v 8 2)
        (fieldAt v 11 2) (fieldAt v 14 2) (fieldAt v 17 2)
    ∧ exifNanos v = 0 := by
  obtain ⟨hv, hok⟩ := matchesExifGrammar_concat v h
  have hacc := exifAccepted_concat _ _ _ _ _ _ _ _ hok
  obtain ⟨e1, e2, e3, e4, e5, e6, e7, e8⟩ := exif_fields_concat _ _ _ _ _ _ _ _ hok
  rw [← hv] at hacc e1 e2 e3 e4 e5 e6 e7 e8
  refine ⟨hacc, ?_, ?_⟩
  · rw [exifCivil, e1, e2, e3, e5, e6, e7]
  · rw [exifNanos, e8]
    decide

/-! ## The resolver (C1 to C3) -/

/-- C1. Resolver priority: the resolved time is `ExifTime` when that is not
the zero time, whatever the other two are; otherwise `FileNameTime` when that
is not the zero time, whatever `BirthTime` is; otherwise `BirthTime` when that
is not the zero time. -/
theorem finalTime_priority (ft : fileTimes) :
    (ft.ExifTime.IsZero = false → main.finalTime ft = some ft.ExifTime) ∧
    (ft.ExifTime.IsZero = true → ft.FileNameTime.IsZero = false →
      main.finalTime ft = some ft.FileNameTime) ∧
    (ft.ExifTime.IsZero = true → ft.FileNameTime.IsZero = true →
      ft.BirthTime.IsZero = false → main.finalTime ft = some ft.BirthTime) := by
  refine ⟨?_, ?_, ?_⟩
  · intro h1
    simp [main.finalTime, h1]
  · intro h1 h2
    simp [main.finalTime, h1, h2]
  · intro h1 h2 h3
    simp [main.finalTime, h1, h2, h3]

/-- C1 at concrete triples: three present and pairwise different times give
the EXIF time; without it the file-name time; without both the birth time. -/
theorem finalTime_priority_witness :
    main.finalTime ⟨sampleBirth, sampleExif, sampleName⟩ = some sampleExif ∧
    main.finalTime ⟨sampleBirth, Time.zero, sampleName⟩ = some sampleName ∧
    main.finalTime ⟨sampleBirth, Time.zero, Time.zero⟩ = some sampleBirth :=
  ⟨(finalTime_priority ⟨sampleBirth, sampleExif, sampleName⟩).1 (by decide),
   (finalTime_priority ⟨sampleBirth, Time.zero, sampleName⟩).2.1 (by decide) (by decide),
   (finalTime_priority ⟨sampleBirth, Time.zero, Time.zero⟩).2.2 (by decide) (by decide)
     (by decide)⟩

/-- C2 as stated fails: `00010101000000.jpg` is read without error as the
instant 0001-01-01 00:00:00 UTC, which is the zero time, so `main` passes over
it and resolves to the birth time. -/
theorem resolve_fileName_zero_counterexample :
    exifFailed.2 ≠ none ∧
    readFileNameTime (goString "00010101000000.jpg") = (Time.zero, none) ∧
    main.resolve statWithBirth exifFailed (goString "00010101000000.jpg") = some sampleBirth ∧
    sampleBirth ≠ Time.zero := by
  decide

/-- C2, amended. When the metadata reader fails and `readFileNameTime` returns
`t` without error and `t` is not the zero time, `main` resolves to `t`,
whatever `times.Stat` reports. -/
theorem resolve_fileName_priority (stat : StatResult) (exif : Time × Option Error)
    (fileName : GoString) (t : Time) (hexif : exif.2 ≠ none)
    (hname : readFileNameTime fileName = (t, none)) (hnz : t.IsZero = false) :
    main.resolve stat exif fileName = some t := by
  have hz : Time.zero.IsZero = true := by decide
  simp only [main.resolve, main.fileTime, hname, if_neg hexif, if_true]
  split <;> simp [main.finalTime, hz, hnz]

/-- C2 amended, at `20210526085304575.jpg` with a different birth time
present. -/
theorem resolve_fileName_priority_witness :
    main.resolve statWithBirth exifFailed (goString "20210526085304575.jpg")
      = some sampleName ∧ sampleBirth ≠ sampleName :=
  ⟨resolve_fileName_priority statWithBirth exifFailed (goString "20210526085304575.jpg")
      sampleName (by decide) (by decide) (by decide), by decide⟩

/-- C3 as stated fails: for `0001-01-01.jpg` with no EXIF time and no birth
time the resolver halts, although the file-name reader did not fail: it
returned the instant 0001-01-01 00:00:00 UTC, the zero time, without error.
So "halts if and only if all three sources are absent" is false here. The
file `0001-01-02.jpg`, read by the same grammar, resolves to its date. -/
theorem resolve_fatal_counterexample :
    main.resolve statFailed exifFailed (goString "0001-01-01.jpg") = none ∧
    readFileNameTime (goString "0001-01-01.jpg") = (Time.zero, none) ∧
    ¬ (main.resolve statFailed exifFailed (goString "0001-01-01.jpg") = none ↔
        (exifFailed.2 ≠ none ∧ (readFileNameTime (goString "0001-01-01.jpg")).2 ≠ none
          ∧ ¬ (statFailed.err = false ∧ statFailed.HasBirthTime = true))) ∧
    main.resolve statFailed exifFailed (goString "0001-01-02.jpg")
      = some (time.Date 1 1 2 0 0 0 0) := by
  decide

/-- C3, amended. End to end, from the results of the three readers: the
resolver halts fatally exactly when each of the three sources is absent or
gives the zero time (the EXIF read failed or gave the zero time, the file-name
read failed or gave the zero time, there is no birth time or it is the zero
time); so it halts whenever all three sources are absent; and whenever it does
not halt the resolved time is the time of a source that was read successfully
and is not the zero time. -/
theorem resolve_fatal_iff (stat : StatResult) (exif : Time × Option Error)
    (fileName : GoString) :
    (main.resolve stat exif fileName = none ↔
      ((exif.2 ≠ none ∨ exif.1.IsZero = true)
       ∧ ((readFileNameTime fileName).2 ≠ none
          ∨ (readFileNameTime fileName).1.IsZero = true)
       ∧ (¬ (stat.err = false ∧ stat.HasBirthTime = true)
          ∨ stat.BirthTime.IsZero = true))) ∧
    (exif.2 ≠ none → (readFileNameTime fileName).2 ≠ none →
      ¬ (stat.err = false ∧ stat.HasBirthTime = true) →
      main.resolve stat exif fileName = none) ∧
    (∀ t, main.resolve stat exif fileName = some t →
      ((exif.2 = none ∧ t = exif.1)
        ∨ ((readFileNameTime fileName).2 = none ∧ t = (readFileNameTime fileName).1)
        ∨ ((stat.err = false ∧ stat.HasBirthTime = true) ∧ t = stat.BirthTime))
      ∧ t.IsZero = false) := by
  have hz : Time.zero.IsZero = true := by decide
  refine ⟨?_, ?_, ?_⟩
  · simp only [main.resolve, main.fileTime, main.finalTime]
    by_cases hs : stat.err = false ∧ stat.HasBirthTime = true <;>
      by_cases he : exif.2 = none <;>
      by_cases hr : (readFileNameTime fileName).2 = none <;>
      simp only [if_pos, if_neg, hs, he, hr, not_false_eq_true, not_true_eq_false] <;>
      cases h1 : exif.1.IsZero <;>
      cases h2 : (readFileNameTime fileName).1.IsZero <;>
      cases h3 : stat.BirthTime.IsZero <;> simp [hz, h1, h2, h3, hs, he, hr]
  · intro h1 h2 h3
    simp only [main.resolve, main.fileTime, if_neg h1, if_neg h2, if_neg h3]
    simp [main.finalTime, hz]
  · intro t
    simp only [main.resolve, main.fileTime, main.finalTime]
    by_cases hs : stat.err = false ∧ stat.HasBirthTime = true <;>
      by_cases he : exif.2 = none <;>
      by_cases hr : (readFileNameTime fileName).2 = none <;>
      simp only [if_pos, if_neg, hs, he, hr, not_false_eq_true, not_true_eq_false] <;>
      cases h1 : exif.1.IsZero <;>
      cases h2 : (readFileNameTime fileName).1.IsZero <;>
      cases h3 : stat.BirthTime.IsZero <;> simp [hz, h1, h2, h3, hs, he, hr] <;>
      intro h <;> subst h <;> simp [h1, h2, h3, hs, he, hr]

/-- C3 amended, at a file with no source at all (it halts), at one whose only
source is the file name (it resolves, to 2021-05-26 08:53:04), at one with
only a birth time (it resolves to it), and at `0001-01-01.jpg`, whose file
name gives the zero time (it halts). -/
theorem resolve_fatal_iff_witness :
    main.resolve statFailed exifFailed (goString "holiday.jpg") = none ∧
    main.resolve statFailed exifFailed (goString "20210526085304.jpg") ≠ none ∧
    main.resolve statFailed exifFailed (goString "20210526085304.jpg") = some sampleName ∧
    main.resolve statWithBirth exifFailed (goString "holiday.jpg") = some sampleBirth ∧
    main.resolve statFailed exifFailed (goString "0001-01-01.jpg") = none :=
  ⟨(resolve_fatal_iff statFailed exifFailed (goString "holiday.jpg")).2.1
      (by decide) (by decide) (by decide),
    fun h => absurd
      ((resolve_fatal_iff statFailed exifFailed (goString "20210526085304.jpg")).1.mp h)
      (by decide),
    by decide, by decide,
    (resolve_fatal_iff statFailed exifFailed (goString "0001-01-01.jpg")).1.mpr (by decide)⟩
/-! ## The millisecond-epoch grammar (C4, C5) -/

/-- C4. Millisecond-epoch grammar: when the leftmost position of the stem
tokens at which a grammar succeeds holds a token of exactly 13 decimal digits
denoting `n`, `readFileNameTime` returns without error the instant
`n / 1000` (floor) seconds after the Unix epoch, with a zero sub-second
part. -/
theorem readFileNameTime_millisecondEpoch (fileName : GoString) (i n : Nat)
    (hi : i < (fileNameParts fileName).length)
    (hlen : ((fileNameParts fileName).getD i []).length = 13)
    (hdig : allDigits ((fileNameParts fileName).getD i []))
    (hn : decimalValue ((fileNameParts fileName).getD i []) = n)
    (hleft : noMatchBefore (fileNameParts fileName) i) :
    ∃ t : Time, readFileNameTime fileName = (t, none)
      ∧ t.Unix = ((n / 1000 : Nat) : Int) ∧ t.nsec = 0 := by
  have hb := body_epoch_bare (fileNameParts fileName) i hlen hdig
  rw [hn] at hb
  have hs := scan_eq_some_of_first (fileNameParts fileName) i _ hi hb
    (noMatchBefore_body _ i hleft)
  refine ⟨time.Unix ((n / 1000 : Nat) : Int) 0, ?_, ?_, ?_⟩
  · simp only [readFileNameTime, hs]
  · rw [time_Unix_zero_nsec]; simp [Time.Unix]
  · rw [time_Unix_zero_nsec]

/-- C4 at `wx_camera_1689324886317.jpg`: the third token decides, and the
result is Unix second 1689324886, which reads 2023-07-14 08:54:46 in UTC. -/
theorem readFileNameTime_millisecondEpoch_witness :
    (∃ t : Time, readFileNameTime (goString "wx_camera_1689324886317.jpg") = (t, none)
      ∧ t.Unix = ((1689324886317 / 1000 : Nat) : Int) ∧ t.nsec = 0)
    ∧ (1689324886317 / 1000 : Nat) = 1689324886
    ∧ ((time.Unix 1689324886 0).UTC).civil (fun _ => 0) = ⟨2023, 7, 14, 8, 54, 46⟩ :=
  ⟨readFileNameTime_millisecondEpoch (goString "wx_camera_1689324886317.jpg") 2 1689324886317
      (by decide) (by decide) (by decide) (by decide) (by decide),
    by decide, by decide⟩

/-- C5. Prefixed millisecond-epoch grammar: when the leftmost position at
which a grammar succeeds holds a token of length 21 made of `mmexport` and 13
decimal digits denoting `n`, `readFileNameTime` returns the instant
`n / 1000` seconds after the Unix epoch; a file name in which the bare 13
digits are the deciding token gives the same result. -/
theorem readFileNameTime_mmexport (fileName bare : GoString) (i k n : Nat) (ds : GoString)
    (hi : i < (fileNameParts fileName).length)
    (htok : (fileNameParts fileName).getD i [] = goString "mmexport" ++ ds)
    (hlen : ds.length = 13) (hdig : allDigits ds) (hn : decimalValue ds = n)
    (hleft : noMatchBefore (fileNameParts fileName) i)
    (hk : k < (fileNameParts bare).length)
    (hbare : (fileNameParts bare).getD k [] = ds)
    (hleftBare : noMatchBefore (fileNameParts bare) k) :
    ((fileNameParts fileName).getD i []).length = 21
    ∧ (∃ t : Time, readFileNameTime fileName = (t, none)
        ∧ t.Unix = ((n / 1000 : Nat) : Int) ∧ t.nsec = 0)
    ∧ readFileNameTime fileName = readFileNameTime bare := by
  have hb := body_epoch_prefixed (fileNameParts fileName) i ds htok hlen hdig
  rw [hn] at hb
  have hs := scan_eq_some_of_first (fileNameParts fileName) i _ hi hb
    (noMatchBefore_body _ i hleft)
  have hb2 := body_epoch_bare (fileNameParts bare) k (by rw [hbare]; exact hlen)
    (by rw [hbare]; exact hdig)
  rw [hbare, hn] at hb2
  have hs2 := scan_eq_some_of_first (fileNameParts bare) k _ hk hb2
    (noMatchBefore_body _ k hleftBare)
  refine ⟨?_, ⟨time.Unix ((n / 1000 : Nat) : Int) 0, ?_, ?_, ?_⟩, ?_⟩
  · rw [htok, goString_mmexport]; simp [hlen]
  · simp only [readFileNameTime, hs]
  · rw [time_Unix_zero_nsec]; simp [Time.Unix]
  · rw [time_Unix_zero_nsec]
  · simp only [readFileNameTime, hs, hs2]

/-- C5 at `mmexport1622020005757.jpg`, compared with `1622020005757.jpg`: the
result is Unix second 1622020005, which reads 2021-05-26 09:06:45 in UTC. -/
theorem readFileNameTime_mmexport_witness :
    (((fileNameParts (goString "mmexport1622020005757.jpg")).getD 0 []).length = 21
      ∧ (∃ t : Time, readFileNameTime (goString "mmexport1622020005757.jpg") = (t, none)
          ∧ t.Unix = ((1622020005757 / 1000 : Nat) : Int) ∧ t.nsec = 0)
      ∧ readFileNameTime (goString "mmexport1622020005757.jpg")
          = readFileNameTime (goString "1622020005757.jpg"))
    ∧ (1622020005757 / 1000 : Nat) = 1622020005
    ∧ ((time.Unix 1622020005 0).UTC).civil (fun _ => 0) = ⟨2021, 5, 26, 9, 6, 45⟩ :=
  ⟨readFileNameTime_mmexport (goString "mmexport1622020005757.jpg")
      (goString "1622020005757.jpg") 0 0 1622020005757 (goString "1622020005757")
      (by decide) (by decide) (by decide) (by decide) (by decide) (by decide)
      (by decide) (by decide) (by decide),
    by decide, by decide⟩

/-! ## Left-to-right scanning and the no-value outcome (C9, C10) -/

/-- C9. Left-to-right first successful match: a grammar that succeeds at a
position before which no grammar succeeds decides the result, whatever comes
later; every timestamp returned comes from such a leftmost position; and a
position that has the shape of a grammar but does not parse is passed over:
the scan then gives what a scan of the tokens after that position gives. -/
theorem readFileNameTime_leftmost (fileName : GoString) :
    (∀ i t, i < (fileNameParts fileName).length →
      noMatchBefore (fileNameParts fileName) i →
      (∃ g : Grammar, g.matchAt (fileNameParts fileName) i = some t) →
      readFileNameTime fileName = (t, none)) ∧
    (∀ t, readFileNameTime fileName = (t, none) →
      ∃ i, i < (fileNameParts fileName).length ∧ noMatchBefore (fileNameParts fileName) i
        ∧ ∃ g : Grammar, g.matchAt (fileNameParts fileName) i = some t) ∧
    (∀ i (g : Grammar), noMatchBefore (fileNameParts fileName) i →
      g.shape (fileNameParts fileName) i = true →
      g.parse (fileNameParts fileName) i = none →
      readFileNameTime.scan (fileNameParts fileName)
        = readFileNameTime.scan ((fileNameParts fileName).drop (i + 1))) := by
  refine ⟨?_, ?_, ?_⟩
  · intro i t hi hleft hg
    have hb := (body_eq_some_iff _ i t).mpr hg
    have hs := scan_eq_some_of_first _ i t hi hb (noMatchBefore_body _ i hleft)
    simp only [readFileNameTime, hs]
  · intro t ht
    have hs : readFileNameTime.scan (fileNameParts fileName) = some t := by
      simp only [readFileNameTime] at ht
      cases hsc : readFileNameTime.scan (fileNameParts fileName) with
      | none => rw [hsc] at ht; simp at ht
      | some t2 =>
          rw [hsc] at ht
          simp only [Prod.mk.injEq, and_true] at ht
          rw [ht]
    obtain ⟨i, hi, hb, hlt⟩ := scan_eq_some _ t hs
    exact ⟨i, hi, fun j hj => (body_eq_none_iff _ j).mp (hlt j hj),
      (body_eq_some_iff _ i t).mp hb⟩
  · intro i g hleft hshape hparse
    apply scan_drop
    intro j hj
    by_cases hji : j < i
    · exact noMatchBefore_body _ i hleft j hji
    · have hji2 : j = i := by omega
      subst hji2
      rw [body_eq_none_iff]
      rintro ⟨g2, hg2⟩
      have hs2 : g2.shape (fileNameParts fileName) j = true := by
        by_contra hn
        rw [Grammar.matchAt, if_neg hn] at hg2
        simp at hg2
      have hgg : g2 = g := shape_exclusive g2 g _ j hs2 hshape
      subst hgg
      rw [Grammar.matchAt, if_pos hs2, hparse] at hg2
      simp at hg2

/-- C9 at two file names. In `1689324886317_20210526085304.jpg` both tokens
match a grammar and the earlier one wins. In
`IMG_20210229_120000_20200101_000000.jpg` position 1 has the shape of a
date+time pair but 2021-02-29 is no date, so the scan goes on and gives what
the tokens after it give. -/
theorem readFileNameTime_leftmost_witness :
    readFileNameTime (goString "1689324886317_20210526085304.jpg")
      = (time.Unix 1689324886 0, none)
    ∧ (Grammar.compactDatetime.matchAt
        (fileNameParts (goString "1689324886317_20210526085304.jpg")) 1).isSome = true
    ∧ readFileNameTime.scan (fileNameParts (goString "IMG_20210229_120000_20200101_000000.jpg"))
      = readFileNameTime.scan [goString "120000", goString "20200101", goString "000000"] :=
  ⟨(readFileNameTime_leftmost (goString "1689324886317_20210526085304.jpg")).1 0
      (time.Unix 1689324886 0) (by decide) (by decide) ⟨.millisecondEpoch, by decide⟩,
    by decide,
    (readFileNameTime_leftmost (goString "IMG_20210229_120000_20200101_000000.jpg")).2.2 1
      .dateTimePair (by decide) (by decide) (by decide)⟩

/-- C10. No value: `readFileNameTime` returns an error exactly when no
position of the stem tokens is a successful match of a grammar, and then the
time it returns is the zero time; so it is for an empty stem, for a stem made
only of delimiters, and for a stem none of whose tokens has length 13, 21, 17,
14, 8 or 4. -/
theorem readFileNameTime_error_iff (fileName : GoString) :
    ((readFileNameTime fileName).2 ≠ none ↔
      ∀ i, i < (fileNameParts fileName).length → ¬ succeedsAt (fileNameParts fileName) i) ∧
    ((readFileNameTime fileName).2 ≠ none → (readFileNameTime fileName).1 = Time.zero) ∧
    (fileNameStem fileName = [] → (readFileNameTime fileName).2 ≠ none) ∧
    ((∀ c ∈ fileNameStem fileName, c ∈ goString "_.- ") →
      (readFileNameTime fileName).2 ≠ none) ∧
    ((∀ p ∈ fileNameParts fileName, p.length ≠ 13 ∧ p.length ≠ 21 ∧ p.length ≠ 17
        ∧ p.length ≠ 14 ∧ p.length ≠ 8 ∧ p.length ≠ 4) →
      (readFileNameTime fileName).2 ≠ none) := by
  refine ⟨?_, ?_, ?_, ?_, ?_⟩
  · rw [readFileNameTime_err_iff_scan, scan_eq_none_iff]
    constructor
    · intro h i hi
      exact (body_eq_none_iff _ i).mp (h i hi)
    · intro h i hi
      exact (body_eq_none_iff _ i).mpr (h i hi)
  · simp only [readFileNameTime]
    cases readFileNameTime.scan (fileNameParts fileName) <;> simp
  · intro h
    rw [readFileNameTime_err_iff_scan, fileNameParts_delims fileName (by rw [h]; simp)]
    rfl
  · intro h
    rw [readFileNameTime_err_iff_scan, fileNameParts_delims fileName h]
    rfl
  · intro h
    rw [readFileNameTime_err_iff_scan, scan_eq_none_iff]
    intro i hi
    apply body_none_of_length
    rw [List.getD_eq_getElem _ _ hi]
    exact h _ (List.getElem_mem hi)

/-- C10 at `.jpg` (empty stem), `_-_ .jpg` (delimiters only), `holiday.jpg`
(one token of length 7) and `20211301_120000.jpg` (a pair that does not
parse): each returns the zero time and an error. -/
theorem readFileNameTime_error_iff_witness :
    readFileNameTime (goString ".jpg") = (Time.zero, some Error.fileNameNoTime)
    ∧ (readFileNameTime (goString "_-_ .jpg")).2 ≠ none
    ∧ (readFileNameTime (goString "holiday.jpg")).2 ≠ none
    ∧ (readFileNameTime (goString "20211301_120000.jpg")).2 ≠ none
    ∧ (readFileNameTime (goString "20211301_120000.jpg")).1 = Time.zero :=
  ⟨by decide,
    (readFileNameTime_error_iff (goString "_-_ .jpg")).2.2.2.1 (by decide),
    (readFileNameTime_error_iff (goString "holiday.jpg")).2.2.2.2 (by decide),
    (readFileNameTime_error_iff (goString "20211301_120000.jpg")).1.mpr (by decide),
    (readFileNameTime_error_iff (goString "20211301_120000.jpg")).2.1 (by decide)⟩

/-! ## The calendar grammars (C6 to C8) -/

/-- C6. Compact-datetime round trip: when the leftmost position at which a
grammar succeeds holds a token of length 14 or 17 whose first 14 characters
are the digit groups `YYYYMMDDhhmmss` of a valid calendar date-time,
`readFileNameTime` returns a time whose formatting with layout
`20060102150405` is those 14 characters again; and a file name in which the
14-character prefix alone is the deciding token gives the same time, so the
last 3 characters of a 17-character token are ignored. -/
theorem readFileNameTime_compact (zone : Int → Int) (fileName short : GoString) (i k : Nat)
    (yy mo dd hh mi ss : GoString)
    (hi : i < (fileNameParts fileName).length)
    (hlen : ((fileNameParts fileName).getD i []).length = 14
      ∨ ((fileNameParts fileName).getD i []).length = 17)
    (htok : ((fileNameParts fileName).getD i []).take 14 = yy ++ mo ++ dd ++ hh ++ mi ++ ss)
    (hg : digitGroups yy mo dd hh mi ss) (hv : validDateTime yy mo dd hh mi ss)
    (hleft : noMatchBefore (fileNameParts fileName) i)
    (hk : k < (fileNameParts short).length)
    (hshort : (fileNameParts short).getD k [] = ((fileNameParts fileName).getD i []).take 14)
    (hleftShort : noMatchBefore (fileNameParts short) k) :
    ∃ tm : Time, readFileNameTime fileName = (tm, none)
      ∧ tm.Format zone layoutCompact = ((fileNameParts fileName).getD i []).take 14
      ∧ readFileNameTime short = (tm, none) := by
  refine ⟨dateTimeOf yy mo dd hh mi ss, ?_, ?_, ?_⟩
  · exact readFileNameTime_of_first fileName i _ hi
      (body_compact _ i yy mo dd hh mi ss hlen htok hg hv) hleft
  · rw [Format_compact zone yy mo dd hh mi ss hg hv, htok]
    simp only [List.append_assoc]
  · have hl14 : ((fileNameParts short).getD k []).length = 14 := by
      rw [hshort, List.length_take]; omega
    have ht : ((fileNameParts short).getD k []).take 14
        = yy ++ mo ++ dd ++ hh ++ mi ++ ss := by
      rw [← htok, hshort, List.take_take]; rfl
    exact readFileNameTime_of_first short k _ hk
      (body_compact _ k yy mo dd hh mi ss (Or.inl hl14) ht hg hv) hleftShort

/-- C6 at `20210526085304575.jpg`, compared with `20210526085304.jpg`: the
time formats back to `20210526085304` and reads 2021-05-26 08:53:04. -/
theorem readFileNameTime_compact_witness :
    (∃ tm : Time, readFileNameTime (goString "20210526085304575.jpg") = (tm, none)
      ∧ tm.Format (fun _ => 0) layoutCompact
          = ((fileNameParts (goString "20210526085304575.jpg")).getD 0 []).take 14
      ∧ readFileNameTime (goString "20210526085304.jpg") = (tm, none))
    ∧ ((fileNameParts (goString "20210526085304575.jpg")).getD 0 []).take 14
        = goString "20210526085304"
    ∧ (readFileNameTime (goString "20210526085304575.jpg")).1.civil (fun _ => 0)
        = ⟨2021, 5, 26, 8, 53, 4⟩ :=
  ⟨readFileNameTime_compact (fun _ => 0) (goString "20210526085304575.jpg")
      (goString "20210526085304.jpg") 0 0 (goString "2021") (goString "05") (goString "26")
      (goString "08") (goString "53") (goString "04")
      (by decide) (by decide) (by decide) (by decide) (by decide) (by decide)
      (by decide) (by decide) (by decide),
    by decide, by decide⟩

/-- C7. Date+time pair grammar: when a token of 8 digits `YYYYMMDD` is
immediately followed by a token of 6 digits `hhmmss`, the two form a valid
calendar date-time and no earlier position succeeds, `readFileNameTime`
returns exactly that date-time: year, month, day, hour, minute, second. -/
theorem readFileNameTime_dateTimePair (zone : Int → Int) (fileName : GoString) (i : Nat)
    (yy mo dd hh mi ss : GoString)
    (hi : i + 1 < (fileNameParts fileName).length)
    (hdate : (fileNameParts fileName).getD i [] = yy ++ mo ++ dd)
    (htime : (fileNameParts fileName).getD (i + 1) [] = hh ++ mi ++ ss)
    (hg : digitGroups yy mo dd hh mi ss) (hv : validDateTime yy mo dd hh mi ss)
    (hleft : noMatchBefore (fileNameParts fileName) i) :
    ∃ tm : Time, readFileNameTime fileName = (tm, none)
      ∧ tm.civil zone = ⟨decimalValue yy, decimalValue mo, decimalValue dd,
          decimalValue hh, decimalValue mi, decimalValue ss⟩
      ∧ tm.nsec = 0 := by
  refine ⟨dateTimeOf yy mo dd hh mi ss, ?_, ?_, ?_⟩
  · exact readFileNameTime_of_first fileName i _ (by omega)
      (body_pair _ i yy mo dd hh mi ss hi hdate htime hg hv) hleft
  · exact civil_dateTimeOf zone yy mo dd hh mi ss hv
  · obtain ⟨⟨hm1, hm2, _, _⟩, hh23, hi59, hs59⟩ := hv
    rw [dateTimeOf, Date_eq _ _ _ _ _ _ (by omega) (by omega) (by omega) (by omega)
      (by omega) (by omega) (by omega) (by omega)]

/-- C7 at `Snapshot_20230626_113855_appname.mp4`: the first token has length
8 too, but the token after it has not length 6, so position 1 decides, and
the result reads 2023-06-26 11:38:55. -/
theorem readFileNameTime_dateTimePair_witness :
    (∃ tm : Time,
      readFileNameTime (goString "Snapshot_20230626_113855_appname.mp4") = (tm, none)
      ∧ tm.civil (fun _ => 0)
          = ⟨decimalValue (goString "2023"), decimalValue (goString "06"),
              decimalValue (goString "26"), decimalValue (goString "11"),
              decimalValue (goString "38"), decimalValue (goString "55")⟩
      ∧ tm.nsec = 0)
    ∧ ((fileNameParts (goString "Snapshot_20230626_113855_appname.mp4")).getD 0 []).length = 8
    ∧ (readFileNameTime (goString "Snapshot_20230626_113855_appname.mp4")).1.civil (fun _ => 0)
        = ⟨2023, 6, 26, 11, 38, 55⟩ :=
  ⟨readFileNameTime_dateTimePair (fun _ => 0) (goString "Snapshot_20230626_113855_appname.mp4")
      1 (goString "2023") (goString "06") (goString "26") (goString "11") (goString "38")
      (goString "55") (by decide) (by decide) (by decide) (by decide) (by decide) (by decide),
    by decide, by decide⟩

/-- C8. Year/month/day triple grammar: when a token of 4 digits is
immediately followed by two tokens of 2 digits, the three form a valid
calendar date and no earlier position succeeds, `readFileNameTime` returns
that date at 00:00:00; and any other file name whose deciding position holds
the same three tokens gives the same result, whatever tokens follow them. -/
theorem readFileNameTime_triple (zone : Int → Int) (fileName other : GoString) (i k : Nat)
    (yy mo dd : GoString)
    (hi : i + 2 < (fileNameParts fileName).length)
    (hyear : (fileNameParts fileName).getD i [] = yy)
    (hmonth : (fileNameParts fileName).getD (i + 1) [] = mo)
    (hday : (fileNameParts fileName).getD (i + 2) [] = dd)
    (hy : yy.length = 4 ∧ allDigits yy) (hm : mo.length = 2 ∧ allDigits mo)
    (hd : dd.length = 2 ∧ allDigits dd)
    (hv : validDate (decimalValue yy) (decimalValue mo) (decimalValue dd))
    (hleft : noMatchBefore (fileNameParts fileName) i)
    (hk : k + 2 < (fileNameParts other).length)
    (hyear2 : (fileNameParts other).getD k [] = yy)
    (hmonth2 : (fileNameParts other).getD (k + 1) [] = mo)
    (hday2 : (fileNameParts other).getD (k + 2) [] = dd)
    (hleft2 : noMatchBefore (fileNameParts other) k) :
    (∃ tm : Time, readFileNameTime fileName = (tm, none)
      ∧ tm.civil zone = ⟨decimalValue yy, decimalValue mo, decimalValue dd, 0, 0, 0⟩
      ∧ tm.nsec = 0)
    ∧ readFileNameTime other = readFileNameTime fileName := by
  have h1 := readFileNameTime_of_first fileName i _ (by omega)
    (body_triple _ i yy mo dd hi hyear hmonth hday hy hm hd hv) hleft
  have h2 := readFileNameTime_of_first other k _ (by omega)
    (body_triple _ k yy mo dd hk hyear2 hmonth2 hday2 hy hm hd hv) hleft2
  refine ⟨⟨_, h1, ?_, ?_⟩, by rw [h1, h2]⟩
  · have hc := civil_dateTimeOf zone yy mo dd [48, 48] [48, 48] [48, 48] ⟨hv, by decide⟩
    rw [dateTimeOf_midnight] at hc
    rw [hc]
    have h0 : decimalValue [48, 48] = 0 := by decide
    simp only [civilOf, h0, Nat.cast_zero]
  · obtain ⟨hm1, hm2, _, _⟩ := hv
    rw [Date_eq _ _ _ _ _ _ (by omega) (by omega) (by omega) (by omega)
      (by omega) (by omega) (by omega) (by omega)]

/-- C8 at `2021-06-26_11-38-55.mp4`, compared with `2021-06-26.mp4`: the
tokens `11`, `38`, `55` change nothing, and the result reads 2021-06-26
00:00:00. -/
theorem readFileNameTime_triple_witness :
    ((∃ tm : Time, readFileNameTime (goString "2021-06-26_11-38-55.mp4") = (tm, none)
        ∧ tm.civil (fun _ => 0)
            = ⟨decimalValue (goString "2021"), decimalValue (goString "06"),
                decimalValue (goString "26"), 0, 0, 0⟩
        ∧ tm.nsec = 0)
      ∧ readFileNameTime (goString "2021-06-26.mp4")
          = readFileNameTime (goString "2021-06-26_11-38-55.mp4"))
    ∧ (readFileNameTime (goString "2021-06-26_11-38-55.mp4")).1.civil (fun _ => 0)
        = ⟨2021, 6, 26, 0, 0, 0⟩ :=
  ⟨readFileNameTime_triple (fun _ => 0) (goString "2021-06-26_11-38-55.mp4")
      (goString "2021-06-26.mp4") 0 0 (goString "2021") (goString "06") (goString "26")
      (by decide) (by decide) (by decide) (by decide) (by decide) (by decide) (by decide)
      (by decide) (by decide) (by decide) (by decide) (by decide) (by decide) (by decide),
    by decide⟩

/-! ## Index safety and extension independence (C18, C19) -/

/-- C18. Index safety: for every file name, `readFileNameTime` with every
slice and index expression checked (the extension strip, `part[:8]`,
`part[8:]`, `datetimeStr[:14]`, `fileNameParts[i+1]`, `fileNameParts[i+2]`)
never panics and gives what `readFileNameTime` gives, so it always returns
either a timestamp without error or the zero time with an error; in
particular the extension is never longer than the name. -/
theorem readFileNameTime_index_safe (fileName : GoString) :
    readFileNameTime.checked fileName = some (readFileNameTime fileName)
    ∧ (filepath.Ext fileName).length ≤ fileName.length
    ∧ ((∃ tm : Time, readFileNameTime.checked fileName = some (tm, none))
      ∨ readFileNameTime.checked fileName = some (Time.zero, some Error.fileNameNoTime)) := by
  refine ⟨checked_eq fileName, Ext_length fileName, ?_⟩
  rw [checked_eq]
  simp only [readFileNameTime]
  cases readFileNameTime.scan (fileNameParts fileName) with
  | none => exact Or.inr rfl
  | some tm => exact Or.inl ⟨tm, rfl⟩

/-- C18 at the empty name, a name without extension, a name that is only an
extension, and a name whose last token has the shape of a year. -/
theorem readFileNameTime_index_safe_witness :
    readFileNameTime.checked (goString "") = some (Time.zero, some Error.fileNameNoTime)
    ∧ readFileNameTime.checked (goString "holiday")
        = some (Time.zero, some Error.fileNameNoTime)
    ∧ readFileNameTime.checked (goString ".jpg") = some (Time.zero, some Error.fileNameNoTime)
    ∧ readFileNameTime.checked (goString "IMG_2021.jpg")
        = some (Time.zero, some Error.fileNameNoTime) :=
  ⟨(readFileNameTime_index_safe (goString "")).1.trans (by decide),
    (readFileNameTime_index_safe (goString "holiday")).1.trans (by decide),
    (readFileNameTime_index_safe (goString ".jpg")).1.trans (by decide),
    (readFileNameTime_index_safe (goString "IMG_2021.jpg")).1.trans (by decide)⟩

/-- C19. Extension independence: for every stem `s` and every two extensions
without a dot and without a path separator, `readFileNameTime` returns the
same pair of time and error for `s.e1` and `s.e2`; only the final extension
is stripped, the stem that is tokenised is `s` itself, dots included. -/
theorem readFileNameTime_extension_independent (s e1 e2 : GoString)
    (h1 : ∀ c ∈ e1, c ≠ 46 ∧ c ≠ 47) (h2 : ∀ c ∈ e2, c ≠ 46 ∧ c ≠ 47) :
    readFileNameTime (s ++ goString "." ++ e1) = readFileNameTime (s ++ goString "." ++ e2)
    ∧ fileNameStem (s ++ goString "." ++ e1) = s
    ∧ fileNameParts (s ++ goString "." ++ e1)
        = SplitAny (filepath.Base s) (goString "_.- ") := by
  have hdot : goString "." = [46] := by decide
  have a1 : s ++ goString "." ++ e1 = s ++ 46 :: e1 := by
    rw [hdot, List.append_assoc]; rfl
  have a2 : s ++ goString "." ++ e2 = s ++ 46 :: e2 := by
    rw [hdot, List.append_assoc]; rfl
  have p1 : fileNameParts (s ++ 46 :: e1) = SplitAny (filepath.Base s) (goString "_.- ") := by
    simp only [fileNameParts, fileNameStem_append s e1 h1]
  have p2 : fileNameParts (s ++ 46 :: e2) = SplitAny (filepath.Base s) (goString "_.- ") := by
    simp only [fileNameParts, fileNameStem_append s e2 h2]
  rw [a1, a2]
  refine ⟨?_, fileNameStem_append s e1 h1, p1⟩
  simp only [readFileNameTime, p1, p2]

/-- C19 at the stem `2021.06.26` with the extensions `jpg` and `heic`: the
tokens are `2021`, `06`, `26` and the result reads 2021-06-26 00:00:00. -/
theorem readFileNameTime_extension_independent_witness :
    (readFileNameTime (goString "2021.06.26" ++ goString "." ++ goString "jpg")
        = readFileNameTime (goString "2021.06.26" ++ goString "." ++ goString "heic")
      ∧ fileNameStem (goString "2021.06.26" ++ goString "." ++ goString "jpg")
        = goString "2021.06.26"
      ∧ fileNameParts (goString "2021.06.26" ++ goString "." ++ goString "jpg")
        = SplitAny (filepath.Base (goString "2021.06.26")) (goString "_.- "))
    ∧ fileNameParts (goString "2021.06.26.jpg")
        = [goString "2021", goString "06", goString "26"]
    ∧ (readFileNameTime (goString "2021.06.26.jpg")).1.civil (fun _ => 0)
        = ⟨2021, 6, 26, 0, 0, 0⟩ :=
  ⟨readFileNameTime_extension_independent (goString "2021.06.26") (goString "jpg")
      (goString "heic") (by decide) (by decide),
    by decide, by decide⟩

/-! ## The move step, the metadata reader and the allow-list (C12 to C14) -/

/-- C12, the code at the failing input. With `-origin /photos/2021-05` and
`-target /photos`, the file `20210526085304.jpg` resolves to the folder
`2021-05`, so the path it is moved to is its own path: the file "already
exists at the destination", it is identical to itself, and the move step
deletes it without a fatal error. The only copy is gone, where C12 says the
file at the destination is unchanged and exactly one copy is left. -/
theorem moveStep_same_path_deletes_only_copy :
    main.paths (fun _ => 0) (goString "/photos/2021-05") (goString "/photos")
        (goString "20210526085304.jpg") (readFileNameTime (goString "20210526085304.jpg")).1
      = (goString "/photos/2021-05/20210526085304.jpg",
         goString "/photos/2021-05/20210526085304.jpg")
    ∧ (main.moveStep (oneFile (goString "/photos/2021-05/20210526085304.jpg") [255, 216])
        (goString "/photos/2021-05/20210526085304.jpg")
        (goString "/photos/2021-05/20210526085304.jpg")).1 = false
    ∧ (main.moveStep (oneFile (goString "/photos/2021-05/20210526085304.jpg") [255, 216])
        (goString "/photos/2021-05/20210526085304.jpg")
        (goString "/photos/2021-05/20210526085304.jpg")).2
          (goString "/photos/2021-05/20210526085304.jpg") = none
    ∧ copiesAt
        (main.moveStep (oneFile (goString "/photos/2021-05/20210526085304.jpg") [255, 216])
          (goString "/photos/2021-05/20210526085304.jpg")
          (goString "/photos/2021-05/20210526085304.jpg")).2 [255, 216]
        [goString "/photos/2021-05/20210526085304.jpg"] = 0 := by
  decide

/-- C13 as stated fails: the values `2021:05:26 8:53:04` (an hour of one
digit), `2021:05:26 08:53:04.5` (a fractional second) and
`2021:05:26   08:53:04` (three spaces) do not match the grammar
`YYYY:MM:DD hh:mm:ss`, yet `readExifTime` does not fail on them: it returns
2021-05-26 08:53:04, for the second value with half a second more. -/
theorem readExifTime_lenient_counterexample :
    ¬ matchesExifGrammar (goString "2021:05:26 8:53:04")
    ∧ readExifTime (.flat [⟨goString "DateTimeOriginal",
          .str (goString "2021:05:26 8:53:04")⟩])
        = some (sampleName, none)
    ∧ ¬ matchesExifGrammar (goString "2021:05:26 08:53:04.5")
    ∧ readExifTime (.flat [⟨goString "DateTimeOriginal",
          .str (goString "2021:05:26 08:53:04.5")⟩])
        = some (time.Date 2021 5 26 8 53 4 500000000, none)
    ∧ ¬ matchesExifGrammar (goString "2021:05:26   08:53:04")
    ∧ readExifTime (.flat [⟨goString "DateTimeOriginal",
          .str (goString "2021:05:26   08:53:04")⟩])
        = some (sampleName, none) := by
  decide

/-- C13, amended. Given the flattened list of entries, `readExifTime` decides
on the first entry whose tag name is `DateTimeOriginal`. Without such an entry
it fails. The string value of that entry is accepted when it is
`YYYY:MM:DD`, one or more spaces, an hour of one or two digits, `:mm:ss` and,
optionally, a period or comma with one or more digits, and the fields denote a
valid calendar date and time of day: then the result is the time the value
denotes, in UTC, which reads as the six fields, with the nanoseconds of the
fraction. A value that is not accepted makes `readExifTime` fail, whatever the
later entries are (first wins). A value of the exact form
`YYYY:MM:DD hh:mm:ss` is accepted exactly when its fields denote a valid date
and time of day, and then has no nanoseconds. A value of that entry that is no
string makes the type assertion panic. -/
theorem readExifTime_first_wins (zone : Int → Int) (ets : List ExifTag) :
    (ets.find? isDateTimeOriginal = none →
      readExifTime (.flat ets) = some (Time.zero, some Error.exifMissing))
    ∧ (∀ et v, ets.find? isDateTimeOriginal = some et → et.Value = .str v →
        (exifAccepted v →
          readExifTime (.flat ets) = some (exifTimeOf v, none)
          ∧ (exifTimeOf v).civil zone = exifCivil v
          ∧ (exifTimeOf v).nsec = (exifNanos v : Int)
          ∧ (exifTimeOf v).loc = .UTC)
        ∧ (¬ exifAccepted v →
          readExifTime (.flat ets) = some (Time.zero, some Error.exifFormat)))
    ∧ (∀ et, ets.find? isDateTimeOriginal = some et → et.Value = .other →
        readExifTime (.flat ets) = none)
    ∧ (∀ v, matchesExifGrammar v →
        (exifAccepted v ↔ validDateTime (fieldAt v 0 4) (fieldAt v 5 2) (fieldAt v 8 2)
          (fieldAt v 11 2) (fieldAt v 14 2) (fieldAt v 17 2))
        ∧ exifCivil v = civilOf (fieldAt v 0 4) (fieldAt v 5 2) (fieldAt v 8 2)
          (fieldAt v 11 2) (fieldAt v 14 2) (fieldAt v 17 2)
        ∧ exifNanos v = 0) := by
  refine ⟨?_, ?_, ?_, ?_⟩
  · intro h
    simp only [readExifTime, readExifTime_loop_find, h]
  · intro et v h hv
    constructor
    · intro ha
      refine ⟨?_, exifTimeOf_civil zone v ha⟩
      simp only [readExifTime, readExifTime_loop_find, h, hv, Parse_exif_eq v, if_pos ha]
    · intro ha
      simp only [readExifTime, readExifTime_loop_find, h, hv, Parse_exif_eq v, if_neg ha]
  · intro et h hv
    simp only [readExifTime, readExifTime_loop_find, h, hv]
  · intro v h
    exact matchesExifGrammar_accepted v h

/-- C13 amended, at five lists: a well-formed first entry gives 2021-05-26
08:53:04; a first entry with an hour of one digit is accepted too; a malformed
first entry and a first entry with 30 February fail although the second entry
with the same tag is well-formed; a list without the tag fails. -/
theorem readExifTime_first_wins_witness :
    (readExifTime (.flat [⟨goString "Make", .str (goString "Canon")⟩,
        ⟨goString "DateTimeOriginal", .str (goString "2021:05:26 08:53:04")⟩,
        ⟨goString "DateTimeOriginal", .str (goString "1999:01:01 00:00:00")⟩])
      = some (exifTimeOf (goString "2021:05:26 08:53:04"), none)
      ∧ (exifTimeOf (goString "2021:05:26 08:53:04")).civil (fun _ => 0)
          = exifCivil (goString "2021:05:26 08:53:04")
      ∧ (exifTimeOf (goString "2021:05:26 08:53:04")).nsec
          = (exifNanos (goString "2021:05:26 08:53:04") : Int)
      ∧ (exifTimeOf (goString "2021:05:26 08:53:04")).loc = .UTC)
    ∧ exifTimeOf (goString "2021:05:26 08:53:04") = sampleName
    ∧ exifCivil (goString "2021:05:26 08:53:04") = ⟨2021, 5, 26, 8, 53, 4⟩
    ∧ (readExifTime (.flat [⟨goString "DateTimeOriginal",
          .str (goString "2021:05:26 8:53:04")⟩])
        = some (exifTimeOf (goString "2021:05:26 8:53:04"), none)
      ∧ (exifTimeOf (goString "2021:05:26 8:53:04")).civil (fun _ => 0)
          = exifCivil (goString "2021:05:26 8:53:04")
      ∧ (exifTimeOf (goString "2021:05:26 8:53:04")).nsec
          = (exifNanos (goString "2021:05:26 8:53:04") : Int)
      ∧ (exifTimeOf (goString "2021:05:26 8:53:04")).loc = .UTC)
    ∧ readExifTime (.flat [⟨goString "DateTimeOriginal", .str (goString "2021-05-26")⟩,
        ⟨goString "DateTimeOriginal", .str (goString "2021:05:26 08:53:04")⟩])
      = some (Time.zero, some Error.exifFormat)
    ∧ readExifTime (.flat [⟨goString "DateTimeOriginal",
          .str (goString "2021:02:30 00:00:00")⟩,
        ⟨goString "DateTimeOriginal", .str (goString "2021:05:26 08:53:04")⟩])
      = some (Time.zero, some Error.exifFormat)
    ∧ readExifTime (.flat [⟨goString "Make", .str (goString "Canon")⟩])
      = some (Time.zero, some Error.exifMissing) :=
  ⟨((readExifTime_first_wins (fun _ => 0) _).2.1
      ⟨goString "DateTimeOriginal", .str (goString "2021:05:26 08:53:04")⟩
      (goString "2021:05:26 08:53:04") (by decide) (by decide)).1 (by decide),
    by decide, by decide,
    ((readExifTime_first_wins (fun _ => 0) _).2.1
      ⟨goString "DateTimeOriginal", .str (goString "2021:05:26 8:53:04")⟩
      (goString "2021:05:26 8:53:04") (by decide) (by decide)).1 (by decide),
    ((readExifTime_first_wins (fun _ => 0) _).2.1
      ⟨goString "DateTimeOriginal", .str (goString "2021-05-26")⟩
      (goString "2021-05-26") (by decide) (by decide)).2 (by decide),
    ((readExifTime_first_wins (fun _ => 0) _).2.1
      ⟨goString "DateTimeOriginal", .str (goString "2021:02:30 00:00:00")⟩
      (goString "2021:02:30 00:00:00") (by decide) (by decide)).2 (by decide),
    (readExifTime_first_wins (fun _ => 0) _).1 (by decide)⟩

/-- C14. Extension allow-list: a directory entry is always skipped; an entry
that is no directory is processed exactly when its extension, lower-cased, is
one of the ten extensions of the list; and the check is case-insensitive: two
files whose ASCII extensions differ only in the case of their letters are
treated alike. -/
theorem entryAction_allow_list (unicodeLower : GoString → GoString) (file : DirEntry) :
    (file.IsDir = true → main.entryAction unicodeLower file = .skipDir)
    ∧ (main.entryAction unicodeLower file = .process ↔
        file.IsDir = false
        ∧ strings.ToLower unicodeLower (filepath.Ext file.Name) ∈ allowedExtensions)
    ∧ (∀ other : DirEntry, other.IsDir = file.IsDir →
        isASCII (filepath.Ext file.Name) → isASCII (filepath.Ext other.Name) →
        (filepath.Ext other.Name).map lowerByte = (filepath.Ext file.Name).map lowerByte →
        main.entryAction unicodeLower other = main.entryAction unicodeLower file) := by
  refine ⟨?_, ?_, ?_⟩
  · intro h
    simp only [main.entryAction, h, if_true]
  · cases hd : file.IsDir with
    | true => simp [main.entryAction, hd]
    | false =>
        rw [← mapHasKey_EXTENSIONS]
        cases hk : mapHasKey EXTENSIONS (strings.ToLower unicodeLower (filepath.Ext file.Name))
          <;> simp [main.entryAction, hd, hk]
  · intro other hdir ha hb hmap
    simp only [main.entryAction, hdir, ToLower_ascii unicodeLower _ ha,
      ToLower_ascii unicodeLower _ hb, hmap]

/-- C14 at `IMG.JPG` (processed, like `IMG.jpg`), `notes.txt` (skipped) and a
directory named `album.jpg` (skipped). -/
theorem entryAction_allow_list_witness :
    main.entryAction id ⟨goString "IMG.JPG", false⟩ = .process
    ∧ main.entryAction id ⟨goString "IMG.JPG", false⟩
        = main.entryAction id ⟨goString "IMG.jpg", false⟩
    ∧ main.entryAction id ⟨goString "notes.txt", false⟩ = .skipExt
    ∧ main.entryAction id ⟨goString "album.jpg", true⟩ = .skipDir :=
  ⟨(entryAction_allow_list id ⟨goString "IMG.JPG", false⟩).2.1.mpr ⟨rfl, by decide⟩,
    (entryAction_allow_list id ⟨goString "IMG.jpg", false⟩).2.2 ⟨goString "IMG.JPG", false⟩
      rfl (by decide) (by decide) (by decide),
    by decide,
    (entryAction_allow_list id ⟨goString "album.jpg", true⟩).1 rfl⟩

/-! ## The tokeniser and the digits of the epoch grammar (C16, C17) -/

/-- C16. Tokenisation: for every string `s`, `SplitAny(s, "_.- ")` returns the
maximal runs of non-delimiter characters of `s` in order; every token is
non-empty and contains none of `_`, `.`, `-` and space, so leading, trailing
and consecutive delimiters produce no empty token; and the concatenation of
the tokens is `s` with all delimiter characters removed. -/
theorem SplitAny_maximal_runs (s : GoString) :
    MaximalRuns isDelimiter s (SplitAny s (goString "_.- "))
    ∧ (∀ t ∈ SplitAny s (goString "_.- "),
        t ≠ [] ∧ ∀ c ∈ t, c ≠ 95 ∧ c ≠ 46 ∧ c ≠ 45 ∧ c ≠ 32)
    ∧ (SplitAny s (goString "_.- ")).flatten = s.filter (fun c => !isDelimiter c) := by
  have hf : strings.ContainsRune (goString "_.- ") = isDelimiter := by
    funext c
    exact ContainsRune_delims c
  have hr := SplitAny_runs s (goString "_.- ")
  rw [hf] at hr
  obtain ⟨h1, h2⟩ := MaximalRuns.tokens isDelimiter s _ hr
  refine ⟨hr, ?_, h2⟩
  intro t ht
  refine ⟨(h1 t ht).1, ?_⟩
  intro c hc
  have hd := (h1 t ht).2 c hc
  simp only [isDelimiter, decide_eq_false_iff_not, not_or] at hd
  exact hd

/-- C16 at `__a..b- c `: leading, doubled and trailing delimiters give the
three tokens `a`, `b`, `c` and no empty one. -/
theorem SplitAny_maximal_runs_witness :
    SplitAny (goString "__a..b- c ") (goString "_.- ")
      = [goString "a", goString "b", goString "c"]
    ∧ (SplitAny (goString "__a..b- c ") (goString "_.- ")).flatten = goString "abc" :=
  ⟨by decide, (SplitAny_maximal_runs (goString "__a..b- c ")).2.2.trans (by decide)⟩

/-- C17 as stated fails: the token of `+123456789012.jpg` has length 13 and
is not made of decimal digits only, yet the millisecond-epoch grammar succeeds
on it, because `strconv.ParseInt` accepts a sign; the result is Unix second
123456789. -/
theorem epoch_plus_sign_counterexample :
    fileNameParts (goString "+123456789012.jpg") = [goString "+123456789012"]
    ∧ (goString "+123456789012").length = 13
    ∧ ¬ allDigits (goString "+123456789012")
    ∧ readFileNameTime (goString "+123456789012.jpg") = (time.Unix 123456789 0, none) := by
  decide

/-- C17, amended. For every token of a file name that has the shape of the
millisecond-epoch grammar, the grammar reads 13 characters (the token, or what
follows `mmexport`), and the position returns a time exactly when these are 13
decimal digits or a plus sign followed by 12 decimal digits; any other
non-numeric character makes the position a non-match. -/
theorem epoch_succeeds_iff (fileName : GoString) (i : Nat)
    (hi : i < (fileNameParts fileName).length)
    (hshape : Grammar.millisecondEpoch.shape (fileNameParts fileName) i = true) :
    (epochDigits ((fileNameParts fileName).getD i [])).length = 13
    ∧ ((readFileNameTime.body (fileNameParts fileName) i).isSome = true ↔
        (allDigits (epochDigits ((fileNameParts fileName).getD i []))
          ∨ ((epochDigits ((fileNameParts fileName).getD i [])).head? = some 43
            ∧ allDigits (epochDigits ((fileNameParts fileName).getD i [])).tail))) := by
  have hs := hshape
  simp only [Grammar.shape, decide_eq_true_eq] at hs
  have hlen : (epochDigits ((fileNameParts fileName).getD i [])).length = 13 := by
    simp only [epochDigits]
    rcases hs with h13 | ⟨h21, _⟩
    · rw [if_neg (by omega)]; exact h13
    · rw [if_pos h21, List.length_drop]; omega
  have hmem : ∀ c ∈ epochDigits ((fileNameParts fileName).getD i []), c ≠ 45 := by
    intro c hc h45
    have hin : c ∈ (fileNameParts fileName).getD i [] := by
      simp only [epochDigits] at hc
      split at hc
      · exact List.mem_of_mem_drop hc
      · exact hc
    have htok : (fileNameParts fileName).getD i [] ∈ fileNameParts fileName := by
      rw [List.getD_eq_getElem _ _ hi]
      exact List.getElem_mem hi
    have := (fileNameParts_token fileName _ htok).2 c hin
    rw [h45] at this
    exact absurd this (by decide)
  refine ⟨hlen, ?_⟩
  rw [body_eq, if_pos hs]
  have hiff := epoch_digits_iff (epochDigits ((fileNameParts fileName).getD i [])) hlen
  simp only [epochDigits] at hiff hmem ⊢
  rw [hiff]
  constructor
  · rintro (hd | ⟨c, r, hs2, hc, hd⟩)
    · exact Or.inl hd
    · rcases hc with rfl | rfl
      · refine Or.inr ?_
        rw [hs2]
        exact ⟨rfl, hd⟩
      · exact absurd rfl (hmem 45 (by rw [hs2]; simp))
  · rintro (hd | ⟨hh, hd⟩)
    · exact Or.inl hd
    · refine Or.inr ?_
      generalize (if ((fileNameParts fileName).getD i []).length = 21
        then List.drop 8 ((fileNameParts fileName).getD i [])
        else (fileNameParts fileName).getD i []) = d at hh hd
      cases d with
      | nil => simp at hh
      | cons c r =>
          simp only [List.head?_cons, Option.some.injEq] at hh
          exact ⟨c, r, rfl, Or.inl hh, hd⟩

/-- C17 amended, at `IMG_1689324886x17.jpg`: the second token has length 13
and holds an `x`, so the position falls through and the name has no time. -/
theorem epoch_succeeds_iff_witness :
    (readFileNameTime.body (fileNameParts (goString "IMG_1689324886x17.jpg")) 1).isSome = false
    ∧ (epochDigits ((fileNameParts (goString "IMG_1689324886x17.jpg")).getD 1 [])).length = 13
    ∧ (readFileNameTime (goString "IMG_1689324886x17.jpg")).2 ≠ none :=
  ⟨by
      have h := (epoch_succeeds_iff (goString "IMG_1689324886x17.jpg") 1 (by decide)
        (by decide)).2
      cases hb : (readFileNameTime.body
        (fileNameParts (goString "IMG_1689324886x17.jpg")) 1).isSome with
      | false => rfl
      | true => exact absurd (h.mp hb) (by decide),
    (epoch_succeeds_iff (goString "IMG_1689324886x17.jpg") 1 (by decide) (by decide)).1,
    by decide⟩


/-! ## Calendar validation and the destination folder (C15, C11) -/

/-- C15. Calendar validation: at a position whose tokens have the shape of
the compact-datetime, the date+time-pair or the year/month/day-triple grammar,
the loop body of `readFileNameTime` succeeds exactly when every consumed
character is a decimal digit, the month is in 1 to 12, the day is in 1 to the
number of days of that month in that year under the Gregorian leap-year rule
and, for the two grammars that read a time of day, the hour is at most 23 and
minute and second are at most 59; otherwise the position is a non-match: the
body falls through to the next position. The consumed characters of a compact
token are its first 14. -/
theorem readFileNameTime_calendar_validation (parts : List GoString) (i : Nat) (g : Grammar)
    (hg : g ≠ .millisecondEpoch) (hshape : g.shape parts i = true) :
    ((readFileNameTime.body parts i).isSome = true ↔ calendarValid g parts i)
      ∧ (¬ calendarValid g parts i → readFileNameTime.body parts i = none) := by
  have h := body_calendar_iff parts i g hg hshape
  refine ⟨h, fun hn => ?_⟩
  cases hb : readFileNameTime.body parts i with
  | none => rfl
  | some t => exact absurd (h.mp (by rw [hb]; rfl)) hn

/-- C15 at `20210229_120000.jpg`, `20200229_120000.jpg` and
`20211301_120000.jpg`, each a date token and a time token at position 0: the
first (29 February of a common year) and the third (month 13) are rejected and
`readFileNameTime` reports an error, the second (29 February of a leap year)
is accepted as 2020-02-29 12:00:00. -/
theorem readFileNameTime_calendar_validation_witness :
    (((readFileNameTime.body (fileNameParts (goString "20210229_120000.jpg")) 0).isSome = true
        ↔ calendarValid .dateTimePair (fileNameParts (goString "20210229_120000.jpg")) 0)
      ∧ (¬ calendarValid .dateTimePair (fileNameParts (goString "20210229_120000.jpg")) 0
        → readFileNameTime.body (fileNameParts (goString "20210229_120000.jpg")) 0 = none))
    ∧ ¬ calendarValid .dateTimePair (fileNameParts (goString "20210229_120000.jpg")) 0
    ∧ readFileNameTime (goString "20210229_120000.jpg")
        = (Time.zero, some Error.fileNameNoTime)
    ∧ calendarValid .dateTimePair (fileNameParts (goString "20200229_120000.jpg")) 0
    ∧ readFileNameTime (goString "20200229_120000.jpg")
        = (time.Date 2020 2 29 12 0 0 0, none)
    ∧ ¬ calendarValid .dateTimePair (fileNameParts (goString "20211301_120000.jpg")) 0
    ∧ readFileNameTime (goString "20211301_120000.jpg")
        = (Time.zero, some Error.fileNameNoTime) :=
  ⟨readFileNameTime_calendar_validation (fileNameParts (goString "20210229_120000.jpg")) 0
      .dateTimePair (by decide) (by decide),
    by decide, by decide, by decide, by decide, by decide, by decide⟩

/-- C11. Destination folder name: when `readFileNameTime` succeeds through the
compact-datetime, the date+time-pair or the year/month/day-triple grammar
(the grammar matches at the leftmost position where any grammar succeeds),
with year digits `YYYY` and month digits `MM` the first four and the next two
of the consumed characters, the folder name `Format("2006-01")` of the time it
returns is exactly `YYYY-MM`: 7 characters, four year digits, a dash and two
month digits. -/
theorem targetFolder_year_month (zone : Int → Int) (fileName : GoString) (g : Grammar)
    (i : Nat) (tm : Time)
    (hg : g ≠ .millisecondEpoch)
    (hi : i < (fileNameParts fileName).length)
    (hmatch : g.matchAt (fileNameParts fileName) i = some tm)
    (hleft : noMatchBefore (fileNameParts fileName) i) :
    readFileNameTime fileName = (tm, none)
      ∧ main.targetFolder zone tm
          = g.yearDigits (fileNameParts fileName) i ++ goString "-"
              ++ g.monthDigits (fileNameParts fileName) i
      ∧ (main.targetFolder zone tm).length = 7
      ∧ (g.yearDigits (fileNameParts fileName) i).length = 4
      ∧ allDigits (g.yearDigits (fileNameParts fileName) i)
      ∧ (g.monthDigits (fileNameParts fileName) i).length = 2
      ∧ allDigits (g.monthDigits (fileNameParts fileName) i) :=
  ⟨readFileNameTime_of_first fileName i tm hi (body_of_match _ i g tm hmatch) hleft,
    folder_of_match zone (fileNameParts fileName) i g tm hg hmatch⟩

/-- C11 at `20210526085304575.jpg`: the compact-datetime grammar matches at
position 0 with year digits `2021` and month digits `05`, and the folder name
is `2021-05`. -/
theorem targetFolder_year_month_witness :
    (readFileNameTime (goString "20210526085304575.jpg") = (sampleName, none)
      ∧ main.targetFolder (fun _ => 0) sampleName
          = Grammar.compactDatetime.yearDigits
                (fileNameParts (goString "20210526085304575.jpg")) 0 ++ goString "-"
              ++ Grammar.compactDatetime.monthDigits
                (fileNameParts (goString "20210526085304575.jpg")) 0
      ∧ (main.targetFolder (fun _ => 0) sampleName).length = 7
      ∧ (Grammar.compactDatetime.yearDigits
          (fileNameParts (goString "20210526085304575.jpg")) 0).length = 4
      ∧ allDigits (Grammar.compactDatetime.yearDigits
          (fileNameParts (goString "20210526085304575.jpg")) 0)
      ∧ (Grammar.compactDatetime.monthDigits
          (fileNameParts (goString "20210526085304575.jpg")) 0).length = 2
      ∧ allDigits (Grammar.compactDatetime.monthDigits
          (fileNameParts (goString "20210526085304575.jpg")) 0))
    ∧ Grammar.compactDatetime.yearDigits
          (fileNameParts (goString "20210526085304575.jpg")) 0 = goString "2021"
    ∧ Grammar.compactDatetime.monthDigits
          (fileNameParts (goString "20210526085304575.jpg")) 0 = goString "05"
    ∧ main.targetFolder (fun _ => 0) (readFileNameTime (goString "20210526085304575.jpg")).1
        = goString "2021-05" :=
  ⟨targetFolder_year_month (fun _ => 0) (goString "20210526085304575.jpg") .compactDatetime 0
      sampleName (by decide) (by decide) (by decide) (by decide),
    by decide, by decide, by decide⟩

end ExifArchive
